import Mathlib

/-!
Verification of the `nbrmd` text-notebook codec (`src/nbrmd/nbrmd.py`).

Lines of text are modelled as `List Char`, a text document as a single
`List Char` with embedded newline characters, notebooks as a structure of
cells plus metadata.  The orchestration layer (`TextNotebookReader.to_notebook`,
`TextNotebookWriter.writes`, the module-level entry points `reads`, `read`,
`writes`, `write`, `readf`, `writef`, and the helpers `markdown_comment`,
`markdown_escape`, `markdown_unescape`) is translated directly from
`nbrmd/nbrmd.py`.  The modules that file imports (`nbrmd.header`,
`nbrmd.languages`, `nbrmd.cells`, `nbrmd.cell_to_text`) are not part of the
source tree; the definitions standing for them are modelled from the spec and
say so in their doc comments.
-/

set_option maxRecDepth 10000

deriving instance DecidableEq for Except

/-- A line of text: a list of characters, none of which should be `'\n'`
when the line takes part in a document. -/
abbrev Line := List Char

/-- Characters of a string literal, used to write `Line` constants. -/
def chars (s : String) : Line := s.data

/-- Join lines with a single `'\n'` separator, as Python `'\n'.join(lines)`. -/
def joinLines : List Line → Line
  | [] => []
  | [l] => l
  | l :: ls => l ++ '\n' :: joinLines ls

/-- Split a character list at every `'\n'`, as Python `text.split('\n')`.
Always returns at least one (possibly empty) component. -/
def splitNL : Line → List Line
  | [] => [[]]
  | c :: rest =>
    if c = '\n' then [] :: splitNL rest
    else
      match splitNL rest with
      | [] => [[c]]
      | l :: ls => (c :: l) :: ls

/-- Python `str.splitlines` for `'\n'`-separated text: like `split('\n')`
but the empty text gives no lines and a trailing newline does not produce a
final empty line. -/
def splitlinesPy (s : Line) : List Line :=
  if s = [] then []
  else
    let p := splitNL s
    if p.getLast? = some [] then p.dropLast else p

namespace nbrmd

/-- `NOTEBOOK_EXTENSIONS` from the source. -/
def NOTEBOOK_EXTENSIONS : List String := [".ipynb", ".Rmd", ".py", ".R"]

/-- `markdown_comment(ext)` from the source: `''` for `.Rmd`, `"#'"` for
`.R`, `"#"` otherwise. -/
def markdown_comment (ext : String) : Line :=
  if ext = ".Rmd" then [] else if ext = ".R" then chars "#'" else chars "#"

/-- One line of `TextNotebookWriter.markdown_escape`: the bare comment
string for an empty line, otherwise the comment string, one space, and the
line. -/
def escapeLine (pfx : Line) (l : Line) : Line :=
  if l = [] then pfx else pfx ++ ' ' :: l

/-- `TextNotebookWriter.markdown_escape` from the source: lines pass through
unchanged when the profile's comment string is empty, otherwise every line is
escaped with `escapeLine`. -/
def markdown_escape (ext : String) (lines : List Line) : List Line :=
  let pfx := markdown_comment ext
  if pfx = [] then lines else lines.map (escapeLine pfx)

/-- `TextNotebookReader.markdown_unescape` from the source: when the comment
string is nonempty, drop its length from the front of the line, then drop at
most one following space. -/
def markdown_unescape (ext : String) (l : Line) : Line :=
  let pfx := markdown_comment ext
  if pfx = [] then l
  else
    let l := l.drop pfx.length
    if l.head? = some ' ' then l.tail else l

/-- Cell type tag: `markdown`, `code` or `raw`. -/
inductive CellType
  | markdown
  | code
  | raw
deriving DecidableEq, Repr

/-- A notebook cell: type tag, source lines, optional language override for
code cells, and the count of blank separator lines following the cell
(`skiplines`). -/
structure Cell where
  cellType : CellType
  source : List Line
  language : Option Line
  skiplines : Nat
deriving DecidableEq, Repr

/-- Notebook-level metadata.  Only the two language indicators are
semantically relevant to this codec: `main_language`, and the `name` field of
`language_info` (a `language_info` mapping with no `name` entry is identified
with an absent one, since every code path treats them alike). -/
structure Meta where
  mainLanguage : Option Line
  languageInfoName : Option Line
deriving DecidableEq, Repr

/-- A notebook: metadata plus an ordered list of cells. -/
structure Notebook where
  metadata : Meta
  cells : List Cell
deriving DecidableEq, Repr

/-- Python truthiness of an optional string: `none` and the empty string are
falsy. -/
def truthyS (o : Option Line) : Bool := decide (o.getD [] ≠ [])

/-- Errors of the codec: `unsupportedFormat` stands for the `KeyError` of the
`_NOTEBOOK_READERS[ext]` / `_NOTEBOOK_WRITERS[ext]` lookups, `notANotebook`
for the `TypeError` of `readf`/`writef`, `blocked` for the
`Exception('Blocked at lines ...')` of `to_notebook`, `ioError` for errors of
the underlying file system. -/
inductive NbError
  | unsupportedFormat (ext : String)
  | notANotebook (file : String)
  | blocked (lines : List Line)
  | ioError
deriving DecidableEq, Repr

end nbrmd

namespace nbrmd

/-- Code-chunk opening matcher for `.Rmd`.  Modelled from the spec: §6 gives
the `.Rmd` profile fenced code chunks tagged with a language; a chunk opens
with a fence that carries the language in braces. -/
def start_code_rmd (l : Line) : Bool :=
  (chars "```\x7b").isPrefixOf l && decide (l.getLast? = some '\x7d')

/-- Code-chunk opening matcher for `.py`.  Modelled from the spec: §6 gives
the `.py` profile chunk markers `# +`/`# -`; an opening marker is either the
bare marker or a marker carrying a metadata block in braces. -/
def start_code_py (l : Line) : Bool :=
  decide (l = chars "# +") || (chars "# + \x7b").isPrefixOf l

/-- Code-chunk opening matcher for `.R`.  Modelled from the spec: §6 gives the
`.R` profile the roxygen comment string `#'`; in that dialect a code chunk
opens either with a `#+` options marker or with any plain (uncommented,
nonempty) line. -/
def start_code_r (l : Line) : Bool :=
  (chars "#+").isPrefixOf l || (!(chars "#'").isPrefixOf l && decide (l ≠ []))

/-- Decode the language tag of a `.py` chunk opening marker.  Modelled from
the spec: §4.4 step 1 decodes inline chunk options on the opening line (the
explicit language tag) into cell metadata. -/
def pyDecodeOpen (l : Line) : Option Line :=
  let pre := chars "# + \x7b\"language\": \""
  if pre.isPrefixOf l ∧ (chars "\"\x7d").isSuffixOf l ∧ pre.length + 2 ≤ l.length
  then some ((l.drop pre.length).dropLast.dropLast) else none

/-- Render the opening marker of a `.py` code cell.  Modelled from the spec:
§4.5 includes an explicit language tag on the delimiter only if the cell's
language differs from the notebook default. -/
def pyRenderOpen (defaultLanguage : Line) (lang : Option Line) : Line :=
  match lang with
  | some l =>
    if l ≠ defaultLanguage
    then chars "# + \x7b\"language\": \"" ++ l ++ chars "\"\x7d"
    else chars "# +"
  | none => chars "# +"

/-- Decode the language tag of an `.R` `#+` options marker.  Modelled from
the spec: §4.4 step 1 (inline chunk options carry the explicit language
tag). -/
def rDecodeOpen (l : Line) : Option Line :=
  let pre := chars "#+ language=\""
  if pre.isPrefixOf l ∧ (chars "\"").isSuffixOf l ∧ pre.length + 1 ≤ l.length
  then some ((l.drop pre.length).dropLast) else none

/-- Decode the language of an `.Rmd` chunk fence ` ```{lang} `.  Modelled
from the spec: §4.3 (the `.Rmd` dialect's code chunks always declare an
explicit language per chunk). -/
def rmdDecodeOpen (l : Line) : Line :=
  (l.drop (chars "```\x7b").length).dropLast

/-- Number of leading blank lines. -/
def countBlank (lines : List Line) : Nat :=
  (lines.takeWhile (fun l => decide (l = []))).length

/-- Remove trailing blank lines. -/
def dropTrailingBlank (lines : List Line) : List Line :=
  (lines.reverse.dropWhile (fun l => decide (l = []))).reverse

/-- A plain `.R` code line: neither roxygen-commented, nor blank, nor a `#+`
marker. -/
def plainR (l : Line) : Bool :=
  !(chars "#'").isPrefixOf l && decide (l ≠ []) && !(chars "#+").isPrefixOf l

/-- A markdown-escaped `.py` line: begins with the comment character but is
not a chunk marker, or is blank. -/
def mdPy (l : Line) : Bool :=
  (decide (l.head? = some '#') && !start_code_py l) || decide (l = [])

/-- A markdown-escaped `.R` line: begins with the roxygen comment string, or
is blank. -/
def mdR (l : Line) : Bool :=
  (chars "#'").isPrefixOf l || decide (l = [])

/-- An `.Rmd` markdown line: any nonempty line that does not open a code
chunk. -/
def mdRmd (l : Line) : Bool :=
  decide (l ≠ []) && !start_code_rmd l

/-- `text_to_cell` for the `.py` profile.  Modelled from the spec, §4.4:
a chunk-opening marker starts a code cell whose body runs to the explicit
`# -` closing marker (consumed) or to the next explicit opening marker or end
of input (a chunk opened but never closed consumes to end of input);
otherwise a maximal run of markdown-escaped or blank lines forms a markdown
cell.  Trailing blank lines become the cell's `skiplines` count. -/
def text_to_cell_py : List Line → Cell × Nat
  | [] => (⟨CellType.markdown, [], none, 0⟩, 0)
  | l :: rest =>
    if start_code_py l then
      let body := rest.takeWhile
        (fun x => decide (x ≠ chars "# -") && !(chars "# + \x7b").isPrefixOf x)
      let after := rest.drop body.length
      let closeC := if after.head? = some (chars "# -") then 1 else 0
      let k := countBlank (after.drop closeC)
      (⟨CellType.code, body, pyDecodeOpen l, k⟩, 1 + body.length + closeC + k)
    else
      let run := (l :: rest).takeWhile mdPy
      let content := dropTrailingBlank run
      (⟨CellType.markdown, content.map (markdown_unescape ".py"), none,
        run.length - content.length⟩, run.length)

/-- `text_to_cell` for the `.R` profile.  Modelled from the spec, §4.4 and
§6: a `#+` options marker or a plain line starts a code cell whose body is
the following maximal run of plain lines; a run of roxygen-escaped or blank
lines forms a markdown cell.  Trailing blank lines become `skiplines`. -/
def text_to_cell_r : List Line → Cell × Nat
  | [] => (⟨CellType.markdown, [], none, 0⟩, 0)
  | l :: rest =>
    if (chars "#+").isPrefixOf l then
      let body := rest.takeWhile plainR
      let k := countBlank (rest.drop body.length)
      (⟨CellType.code, body, rDecodeOpen l, k⟩, 1 + body.length + k)
    else if plainR l then
      let body := (l :: rest).takeWhile plainR
      let k := countBlank ((l :: rest).drop body.length)
      (⟨CellType.code, body, none, k⟩, body.length + k)
    else
      let run := (l :: rest).takeWhile mdR
      let content := dropTrailingBlank run
      (⟨CellType.markdown, content.map (markdown_unescape ".R"), none,
        run.length - content.length⟩, run.length)

/-- `text_to_cell` for the `.Rmd` profile, using the `markdown_to_cell_rmd`
variant.  Modelled from the spec, §4.4 and §4.5: a fence opens a code cell
whose body runs to the closing fence (consumed) or end of input; a maximal
run of nonempty non-fence lines forms a markdown cell.  Blank lines after the
construct are the `skiplines`; the `.Rmd` markdown variant treats one of the
blanks as the extra separator the writer inserts between two consecutive
markdown cells and does not count it. -/
def text_to_cell_rmd : List Line → Cell × Nat
  | [] => (⟨CellType.markdown, [], none, 0⟩, 0)
  | l :: rest =>
    if start_code_rmd l then
      let body := rest.takeWhile (fun x => decide (x ≠ chars "```"))
      let after := rest.drop body.length
      let closeC := if after = [] then 0 else 1
      let k := countBlank (after.drop closeC)
      (⟨CellType.code, body, some (rmdDecodeOpen l), k⟩,
        1 + body.length + closeC + k)
    else
      let run := (l :: rest).takeWhile mdRmd
      let k := countBlank ((l :: rest).drop run.length)
      let skip :=
        match ((l :: rest).drop (run.length + k)).head? with
        | some h => if ¬ start_code_rmd h ∧ 0 < k then k - 1 else k
        | none => k
      (⟨CellType.markdown, run.map (markdown_unescape ".Rmd"), none, skip⟩,
        run.length + k)

/-- `text_to_cell`, dispatching on the extension as the reader's profile
selection does. -/
def text_to_cell (ext : String) (lines : List Line) : Cell × Nat :=
  if ext = ".Rmd" then text_to_cell_rmd lines
  else if ext = ".py" then text_to_cell_py lines
  else text_to_cell_r lines

end nbrmd

namespace nbrmd

/-- Decode one header entry line (already unescaped) into the metadata.
Modelled from the spec: §4.2, the header block carries the notebook-level
metadata; unrecognized lines are ignored. -/
def decodeHeaderEntry (l : Line) (m : Meta) : Meta :=
  if (chars "main_language: ").isPrefixOf l then
    { m with mainLanguage := some (l.drop (chars "main_language: ").length) }
  else if (chars "language_info_name: ").isPrefixOf l then
    { m with languageInfoName := some (l.drop (chars "language_info_name: ").length) }
  else m

/-- Scan for the closing header fence, decoding the entry lines met on the
way.  Returns the accumulated metadata and the number of lines consumed
(entries plus closing fence), or `none` when no closing fence exists. -/
def headerScan (ext : String) (fence : Line) :
    List Line → Meta → Option (Meta × Nat)
  | [], _ => none
  | l :: rest, m =>
    if l = fence then some (m, 1)
    else
      match headerScan ext fence rest (decodeHeaderEntry (markdown_unescape ext l) m) with
      | some (m', n) => some (m', n + 1)
      | none => none

/-- `header_to_metadata_and_cell` of the `nbrmd.header` module.  Modelled
from the spec: §4.2 — inspect the leading lines for a front-matter fence;
return the parsed notebook-level metadata, an optional raw header cell for
leading content that did not parse as structured metadata, and the number of
lines consumed; when no header is recognized return empty metadata, no header
cell, and zero consumed lines.  The fence is `---`, escaped with the
profile's comment string; the modelled renderer never produces unstructured
leading content, so the header cell is always absent. -/
def header_to_metadata_and_cell (ext : String) (lines : List Line) :
    Meta × Option Cell × Nat :=
  let fence := ((markdown_escape ext [chars "---"]).head?).getD (chars "---")
  match lines with
  | [] => (⟨none, none⟩, none, 0)
  | l :: rest =>
    if l = fence then
      match headerScan ext fence rest ⟨none, none⟩ with
      | some (m, n) => (m, none, n + 1)
      | none => (⟨none, none⟩, none, 0)
    else (⟨none, none⟩, none, 0)

/-- `metadata_and_cell_to_header` of the `nbrmd.header` module.  Modelled
from the spec: §4.2 — render the notebook metadata back into header lines; an
empty metadata renders no header at all.  Entries sit between `---` fences
and are escaped with the profile's comment string. -/
def metadata_and_cell_to_header (ext : String) (m : Meta) : List Line :=
  let entries :=
    (match m.mainLanguage with
     | some l => [chars "main_language: " ++ l]
     | none => []) ++
    (match m.languageInfoName with
     | some l => [chars "language_info_name: " ++ l]
     | none => [])
  if entries = [] then []
  else markdown_escape ext ([chars "---"] ++ entries ++ [chars "---"])

/-- `encoding_and_executable` of the `nbrmd.header` module.  Modelled from
the spec: §4.2 — renders the encoding declaration and executable shebang
lines; the modelled metadata carries no such fields, so no lines are
rendered. -/
def encoding_and_executable (_nb : Notebook) : List Line := []

/-- `get_default_language` of the `nbrmd.languages` module.  Modelled from
the spec: §4.3 write path — `main_language` metadata, then
`language_info.name`, then the dialect fallback `python` for the dialect that
uses it (`.Rmd`). -/
def get_default_language (m : Meta) : Line :=
  (m.mainLanguage.or m.languageInfoName).getD (chars "python")

/-- The language of a code cell for the read-path resolver, `none` for other
cells. -/
def codeLanguage (c : Cell) : Option Line :=
  if c.cellType = CellType.code then c.language else none

/-- The language dominating all code cells, when one does: all tagged code
cells agree on it and at least one code cell is tagged. -/
def dominantLanguage (cells : List Cell) : Option Line :=
  match cells.filterMap codeLanguage with
  | [] => none
  | t :: ts => if ts.all (fun x => decide (x = t)) then some t else none

/-- `find_main_language` of the `nbrmd.languages` module.  Modelled from the
spec: §4.3 read path — if neither `main_language` nor `language_info` is set,
inspect the per-cell language overrides and record the dominating language as
`main_language`; and §3's invariant that a code cell's override is kept only
when distinct from the notebook default, so overrides equal to the resolved
main language are removed. -/
def find_main_language (m : Meta) (cells : List Cell) : Meta × List Cell :=
  let m :=
    match m.mainLanguage.or m.languageInfoName with
    | some _ => m
    | none =>
      match dominantLanguage cells with
      | some l => { m with mainLanguage := some l }
      | none => m
  let main := m.mainLanguage.or m.languageInfoName
  (m, cells.map (fun c =>
    if c.cellType = CellType.code ∧ c.language = main ∧ main ≠ none
    then { c with language := none } else c))

/-- `CellExporter.cell_to_text` of the `nbrmd.cell_to_text` module.  Modelled
from the spec: §4.5 — code cells open with the profile's delimiter (carrying
an explicit language tag only when the cell's language differs from the
notebook default), render their source verbatim and close with the profile's
explicit closing delimiter when the profile has one (` ``` ` for `.Rmd`,
`# -` for `.py`, none for `.R`); markdown and raw cells are
markdown-escaped. -/
def cell_to_text (ext : String) (defaultLanguage : Line) (c : Cell) :
    List Line :=
  if c.cellType = CellType.code then
    if ext = ".Rmd" then
      (chars "```\x7b" ++ (c.language.getD defaultLanguage) ++ chars "\x7d")
        :: c.source ++ [chars "```"]
    else if ext = ".py" then
      pyRenderOpen defaultLanguage c.language :: c.source ++ [chars "# -"]
    else
      (match c.language with
       | some l =>
         if l ≠ defaultLanguage
         then [chars "#+ language=\"" ++ l ++ chars "\""]
         else []
       | none => []) ++ c.source
  else markdown_escape ext c.source

/-- `CellExporter.is_code` from the `nbrmd.cell_to_text` module. -/
def is_code (c : Cell) : Bool := decide (c.cellType = CellType.code)

end nbrmd

namespace nbrmd

namespace TextNotebookReader

/-- One round of the cell-parsing loop of `TextNotebookReader.to_notebook`,
recursing on an explicit fuel so that the function computes by structural
recursion; the fuel is initialized to the line count and, since every
continuing round drops at least one line, never runs out
(`parseCellsLoop_cons` states the loop's characteristic equation with the
fuel gone). -/
def parseLoopGo (f : List Line → Cell × Nat) :
    Nat → List Line → Except NbError (List Cell)
  | _, [] => Except.ok []
  | 0, l :: rest => Except.error (NbError.blocked ((l :: rest).take 6))
  | n + 1, l :: rest =>
    let r := f (l :: rest)
    if r.2 = 0 then Except.error (NbError.blocked ((l :: rest).take 6))
    else (parseLoopGo f n ((l :: rest).drop r.2)).map (fun cs => r.1 :: cs)

/-- The cell-parsing loop of `TextNotebookReader.to_notebook`, over an
arbitrary cell parser `f` (the source dispatches `self.text_to_cell`
dynamically): while lines remain, call the parser, append the cell, raise the
`Blocked at lines` error carrying the first six remaining lines if the parser
reported no progress, otherwise drop the consumed lines. -/
def parseCellsLoop (f : List Line → Cell × Nat) (lines : List Line) :
    Except NbError (List Cell) :=
  parseLoopGo f lines.length lines

/-- Fuel-recursive companion of `loopCalls`. -/
def loopCallsGo (f : List Line → Cell × Nat) :
    Nat → List Line → List (List Line)
  | _, [] => []
  | 0, l :: rest => [l :: rest]
  | n + 1, l :: rest =>
    let r := f (l :: rest)
    if r.2 = 0 then [l :: rest]
    else (l :: rest) :: loopCallsGo f n ((l :: rest).drop r.2)

/-- The arguments that the cell-parsing loop passes to the cell parser, in
order; the last one is the argument of the failing call when the loop raises. -/
def loopCalls (f : List Line → Cell × Nat) (lines : List Line) :
    List (List Line) :=
  loopCallsGo f lines.length lines

/-- The lines handed to the cell-parsing loop: the document's lines with the
header's consumed count dropped (the source guards the slice with
`if pos > 0`, which equals dropping `pos` lines also when `pos = 0`). -/
def postHeaderLines (ext : String) (text : Line) : List Line :=
  let lines := splitlinesPy text
  lines.drop (header_to_metadata_and_cell ext lines).2.2

/-- `TextNotebookReader.to_notebook` from the source: split the text into
lines, read the header, append the optional header cell, loop `text_to_cell`
over the remaining lines, then fix up the language metadata (`.Rmd`:
`find_main_language`; `.R`: default `main_language` to `R` when neither
language indicator is truthy). -/
def to_notebook (ext : String) (text : Line) : Except NbError Notebook :=
  let lines := splitlinesPy text
  let h := header_to_metadata_and_cell ext lines
  let metadata := h.1
  let cells0 : List Cell := match h.2.1 with | some c => [c] | none => []
  match parseCellsLoop (text_to_cell ext) (postHeaderLines ext text) with
  | Except.error e => Except.error e
  | Except.ok parsed =>
    let cells := cells0 ++ parsed
    if ext = ".Rmd" then
      let r := find_main_language metadata cells
      Except.ok ⟨r.1, r.2⟩
    else if ext = ".R" then
      let metadata :=
        if ¬ (truthyS metadata.mainLanguage ∨ metadata.languageInfoName.isSome)
        then { metadata with mainLanguage := some (chars "R") } else metadata
      Except.ok ⟨metadata, cells⟩
    else Except.ok ⟨metadata, cells⟩

end TextNotebookReader

namespace TextNotebookWriter

/-- The default language the writer resolves at the start of
`TextNotebookWriter.writes`, exactly as the source computes it: for `.py` and
`.R`, `metadata.get('main_language') or metadata.get('language_info',
{}).get('name', fallback)` with Python truthiness on the `or`; for other
extensions the (modelled) `get_default_language`. -/
def writes_default_language (ext : String) (m : Meta) : Line :=
  if ext = ".py" then
    if truthyS m.mainLanguage then m.mainLanguage.getD []
    else m.languageInfoName.getD (chars "python")
  else if ext = ".R" then
    if truthyS m.mainLanguage then m.mainLanguage.getD []
    else m.languageInfoName.getD (chars "R")
  else get_default_language m

/-- The working metadata after the in-place edits of
`TextNotebookWriter.writes` (performed on the deep copy): for `.R`, a
`main_language` equal to `'R'` is deleted; otherwise unchanged. -/
def writes_working_metadata (ext : String) (m : Meta) : Meta :=
  if ext = ".R" ∧ m.mainLanguage = some (chars "R")
  then { m with mainLanguage := none } else m

/-- Whether the rendered text of the next cell begins with an explicit `.py`
opening marker `# + {`, the lookahead `texts[i + 1][0].startswith('# + {')`
of the source's elision rule. -/
def nextStartsBrace (ext : String) (defaultLanguage : Line) :
    List Cell → Bool
  | [] => false
  | c :: _ =>
    (chars "# + \x7b").isPrefixOf (((cell_to_text ext defaultLanguage c).head?).getD [])

/-- The per-cell loop of `TextNotebookWriter.writes`, from the source: each
cell's text (with the trailing `# -` marker removed for a `.py` code cell
when the cell is last or the next cell's text opens with `# + {`), followed
by `skiplines` blank lines, followed by one extra blank line between two
consecutive `.Rmd` markdown cells. -/
def renderCellsLoop (ext : String) (defaultLanguage : Line) :
    List Cell → List Line
  | [] => []
  | c :: rest =>
    let t := cell_to_text ext defaultLanguage c
    let t :=
      if ext = ".py" ∧ is_code c ∧ t.getLast? = some (chars "# -") ∧
          (rest = [] ∨ nextStartsBrace ext defaultLanguage rest)
      then t.dropLast else t
    let nextMd : Bool :=
      match rest.head? with | some c2 => !is_code c2 | none => false
    let sep :=
      if ext = ".Rmd" ∧ is_code c = false ∧ nextMd = true
      then [([] : Line)] else []
    t ++ List.replicate c.skiplines [] ++ sep ++
      renderCellsLoop ext defaultLanguage rest

/-- `TextNotebookWriter.writes` acting on the working copy: resolves the
default language, performs the `.R` `main_language` deletion on the working
metadata, renders encoding/executable and header lines, renders every cell
through the loop, and joins the lines with single newlines.  Returns the text
together with the final state of the working notebook's metadata. -/
def writesCore (ext : String) (nb : Notebook) : Line × Meta :=
  let d := writes_default_language ext nb.metadata
  let m := writes_working_metadata ext nb.metadata
  let lines :=
    encoding_and_executable nb ++ metadata_and_cell_to_header ext m ++
      renderCellsLoop ext d nb.cells
  (joinLines lines, m)

/-- `TextNotebookWriter.writes` from the source: the rendered text.  The
source's `nb = deepcopy(nb)` makes every in-place edit act on a private copy,
which the value semantics of `writesCore` embeds. -/
def writes (ext : String) (nb : Notebook) : Line := (writesCore ext nb).1

/-- `TextNotebookWriter.writes` observed together with the caller's notebook:
the call returns the rendered text while the caller's object, untouched since
the edits act on the deep copy, is unchanged. -/
def writesSt (ext : String) (nb : Notebook) : Line × Notebook :=
  ((writesCore ext nb).1, nb)

end TextNotebookWriter

/-- Outcome of the read entry points: delegation to the external `.ipynb`
codec (out of scope) or a parsed notebook. -/
inductive ReadsOutcome
  | ipynb
  | notebook (nb : Notebook)
deriving DecidableEq, Repr

/-- Outcome of the write entry points: delegation to the external `.ipynb`
codec (out of scope) or rendered text. -/
inductive WriteOutcome
  | ipynb
  | text (t : Line)
deriving DecidableEq, Repr

/-- Module-level `reads` from the source: the extension parameter defaults to
`.Rmd`; `.ipynb` is delegated to the external codec; the reader-instance
lookup fails for any other unsupported extension. -/
def reads (text : Line) (extOpt : Option String) : Except NbError ReadsOutcome :=
  let ext := extOpt.getD ".Rmd"
  if ext = ".ipynb" then Except.ok ReadsOutcome.ipynb
  else if ext = ".Rmd" ∨ ext = ".py" ∨ ext = ".R" then
    (TextNotebookReader.to_notebook ext text).map ReadsOutcome.notebook
  else Except.error (NbError.unsupportedFormat ext)

/-- Module-level `read` from the source: identical dispatch, with the stream
modelled by its text. -/
def read (stream : Line) (extOpt : Option String) : Except NbError ReadsOutcome :=
  let ext := extOpt.getD ".Rmd"
  if ext = ".ipynb" then Except.ok ReadsOutcome.ipynb
  else if ext = ".Rmd" ∨ ext = ".py" ∨ ext = ".R" then
    (TextNotebookReader.to_notebook ext stream).map ReadsOutcome.notebook
  else Except.error (NbError.unsupportedFormat ext)

/-- Module-level `writes` from the source: extension defaulting and dispatch
mirroring `reads`. -/
def writes (nb : Notebook) (extOpt : Option String) : Except NbError WriteOutcome :=
  let ext := extOpt.getD ".Rmd"
  if ext = ".ipynb" then Except.ok WriteOutcome.ipynb
  else if ext = ".Rmd" ∨ ext = ".py" ∨ ext = ".R" then
    Except.ok (WriteOutcome.text (TextNotebookWriter.writes ext nb))
  else Except.error (NbError.unsupportedFormat ext)

/-- Module-level `write` from the source: identical dispatch, with the stream
modelled by the text written to it. -/
def write (nb : Notebook) (extOpt : Option String) : Except NbError WriteOutcome :=
  let ext := extOpt.getD ".Rmd"
  if ext = ".ipynb" then Except.ok WriteOutcome.ipynb
  else if ext = ".Rmd" ∨ ext = ".py" ∨ ext = ".R" then
    Except.ok (WriteOutcome.text (TextNotebookWriter.writes ext nb))
  else Except.error (NbError.unsupportedFormat ext)

/-- Index of the last occurrence of `c` in `l`, or `-1`, as Python `rfind`. -/
def rfindI (c : Char) : Line → Int
  | [] => -1
  | x :: rest =>
    let r := rfindI c rest
    if 0 ≤ r then r + 1 else if x = c then 0 else -1

/-- `os.path.splitext` for `/`-separated paths: split at the last dot of the
base name unless every character between the directory separator and that dot
is itself a dot. -/
def splitextPy (p : String) : String × String :=
  let l := p.data
  let sep := rfindI '/' l
  let dot := rfindI '.' l
  if sep < dot then
    let base := (l.drop (sep + 1).toNat).take (dot - (sep + 1)).toNat
    if base.any (fun c => decide (c ≠ '.')) then
      ((l.take dot.toNat).asString, (l.drop dot.toNat).asString)
    else (p, "")
  else (p, "")

/-- `readf` from the source: derive the extension from the file name, raise
the `TypeError` (`is not a notebook`) when it is not a supported notebook
extension, and only then open and read the file.  The file system is a map
from names to contents; `none` stands for an I/O failure. -/
def readf (nbFile : String) (fs : String → Option Line) :
    Except NbError ReadsOutcome :=
  let ext := (splitextPy nbFile).2
  if ext ∉ NOTEBOOK_EXTENSIONS then Except.error (NbError.notANotebook nbFile)
  else
    match fs nbFile with
    | none => Except.error NbError.ioError
    | some content => read content (some ext)

/-- `writef` from the source: derive the extension from the file name, raise
the `TypeError` when it is unsupported, and only then write.  The returned
outcome is the write that reaches the file. -/
def writef (nb : Notebook) (nbFile : String) : Except NbError WriteOutcome :=
  let ext := (splitextPy nbFile).2
  if ext ∉ NOTEBOOK_EXTENSIONS then Except.error (NbError.notANotebook nbFile)
  else write nb (some ext)

end nbrmd

namespace nbrmd

/-- A line free of embedded newlines. -/
def noNL (l : Line) : Bool := l.all (fun c => decide (c ≠ '\n'))

/-- A well-formed optional language override with respect to the resolved
default `d`: a language tag is nonempty, newline-free, and distinct from the
notebook default (§3: a code cell's override is distinct from the default). -/
def langOK (d : Line) (o : Option Line) : Bool :=
  match o with
  | some l => decide (l ≠ []) && noNL l && decide (l ≠ d)
  | none => true

/-- A markdown source line expressible in the profile `ext`: newline-free,
not the header fence text, and not a line whose escaped form would match the
profile's chunk-opening pattern (for `.Rmd`, also nonempty, since the bare
dialect has no way to tell an empty source line from a cell separator). -/
def mdLineOK (ext : String) (l : Line) : Bool :=
  noNL l && decide (l ≠ chars "---") &&
  (if ext = ".Rmd" then decide (l ≠ []) && !start_code_rmd l
   else if ext = ".py" then
     decide (l ≠ chars "+") && !(chars "+ \x7b").isPrefixOf l
   else true)

/-- A code source line expressible in the profile `ext`: newline-free and not
a line the profile would read as a cell delimiter. -/
def codeLineOK (ext : String) (l : Line) : Bool :=
  noNL l &&
  (if ext = ".Rmd" then decide (l ≠ chars "```")
   else if ext = ".py" then
     decide (l ≠ chars "# -") && !(chars "# + \x7b").isPrefixOf l
   else plainR l)

/-- A cell expressible in the profile `ext` under resolved default `d`: not a
raw cell, nonempty source, and per-type line and language conditions. -/
def cellOK (ext : String) (d : Line) (c : Cell) : Bool :=
  decide (c.cellType ≠ CellType.raw) && decide (c.source ≠ []) &&
  (if is_code c then c.source.all (codeLineOK ext) && langOK d c.language
   else c.source.all (mdLineOK ext) && decide (c.language = none))

/-- Adjacency conditions of the profile `ext` for consecutive cells `c`,
`c'`: the script dialects cannot separate two adjacent markdown cells; a
`.py` code cell whose trailing marker gets elided before an explicit opening
marker cannot carry separator blanks; two adjacent unmarked `.R` code cells
need at least one separator blank. -/
def adjOK (ext : String) (c c' : Cell) : Bool :=
  (if ext = ".Rmd" then true else !(!is_code c && !is_code c')) &&
  (if ext = ".py" then
     !(is_code c && is_code c' && c'.language.isSome) || decide (c.skiplines = 0)
   else true) &&
  (if ext = ".R" then
     !(is_code c && is_code c' && decide (c'.language = none)) ||
       decide (1 ≤ c.skiplines)
   else true)

/-- Conditions on the last cell: no trailing separator blanks (a trailing
newline run does not survive `splitlines`), and for `.py` — whose last code
cell loses its end marker — no trailing blank source line. -/
def lastOK (ext : String) (c : Cell) : Bool :=
  decide (c.skiplines = 0) &&
  (if ext = ".py" then !is_code c || decide (c.source.getLast? ≠ some []) else true)

/-- The cell list conditions of `expressible`: every cell well formed, every
adjacent pair compatible, the last cell flush. -/
def cellsOK (ext : String) (d : Line) : List Cell → Bool
  | [] => true
  | [c] => cellOK ext d c && lastOK ext c
  | c :: c' :: rest => cellOK ext d c && adjOK ext c c' && cellsOK ext d (c' :: rest)

/-- A well-formed metadata value: nonempty (so Python truthiness and
presence agree) and newline-free. -/
def metaValOK (o : Option Line) : Bool :=
  match o with
  | some l => decide (l ≠ []) && noNL l
  | none => true

/-- Metadata conditions of `expressible`: well-formed values; for `.R`, no
`main_language` of `R` shadowed by a different `language_info` name (the
writer deletes the former and the reader then trusts the latter); for
`.Rmd`, an absent default language forces untagged code cells (a mixed-tag
notebook without a recorded default is not reconstructed verbatim). -/
def metaOK (ext : String) (m : Meta) (cells : List Cell) : Bool :=
  metaValOK m.mainLanguage && metaValOK m.languageInfoName &&
  (if ext = ".R" then
     !decide (m.mainLanguage = some (chars "R")) ||
       decide (m.languageInfoName = none) ||
       decide (m.languageInfoName = some (chars "R"))
   else true) &&
  (if ext = ".Rmd" then
     m.mainLanguage.isSome || m.languageInfoName.isSome ||
       cells.all (fun c => !is_code c || decide (c.language = none))
   else true)

/-- The feature set of the text profile `ext`: the notebooks whose structure
the profile's wire format can carry through a write/read round trip. -/
def expressible (ext : String) (nb : Notebook) : Bool :=
  metaOK ext nb.metadata nb.cells &&
  cellsOK ext (TextNotebookWriter.writes_default_language ext nb.metadata)
    nb.cells

/-- The cell as the `.Rmd` reader first sees it: every parsed chunk carries
the explicit language of its fence, resolved against the write-time default;
`find_main_language` then strips the tags matching the main language. -/
def rmdTag (d : Line) (c : Cell) : Cell :=
  if c.cellType = CellType.code then { c with language := some (c.language.getD d) }
  else c

end nbrmd

open nbrmd

/-! ## Basic lemmas about escaping -/

/-- Unescaping undoes `.py` escaping on any line. -/
lemma unescape_escapeLine_py (l : Line) :
    markdown_unescape ".py" (escapeLine (chars "#") l) = l := by
  by_cases h : l = []
  · subst h; rfl
  · simp only [escapeLine, if_neg h]
    rfl

/-- Unescaping undoes `.R` escaping on any line. -/
lemma unescape_escapeLine_r (l : Line) :
    markdown_unescape ".R" (escapeLine (chars "#'") l) = l := by
  by_cases h : l = []
  · subst h; rfl
  · simp only [escapeLine, if_neg h]
    rfl

/-- The fuel of `parseLoopGo` is irrelevant once it covers the line count. -/
lemma parseLoopGo_fuel (f : List Line → Cell × Nat) :
    ∀ (n m : Nat) (lines : List Line), lines.length ≤ n → lines.length ≤ m →
      TextNotebookReader.parseLoopGo f n lines =
        TextNotebookReader.parseLoopGo f m lines := by
  intro n
  induction n with
  | zero =>
    intro m lines hn _
    have h0 : lines = [] := List.length_eq_zero.mp (Nat.le_zero.mp hn)
    subst h0
    cases m <;> rfl
  | succ n ih =>
    intro m lines hn hm
    match lines with
    | [] => cases m <;> rfl
    | l :: rest =>
      match m with
      | 0 => simp at hm
      | m + 1 =>
        simp only [TextNotebookReader.parseLoopGo]
        by_cases hz : (f (l :: rest)).2 = 0
        · rw [if_pos hz, if_pos hz]
        · rw [if_neg hz, if_neg hz]
          congr 1
          apply ih
          · rw [List.length_drop]
            simp only [List.length_cons] at hn ⊢
            omega
          · rw [List.length_drop]
            simp only [List.length_cons] at hm ⊢
            omega

/-- The empty-input equation of the cell-parsing loop. -/
lemma parseCellsLoop_nil (f : List Line → Cell × Nat) :
    TextNotebookReader.parseCellsLoop f [] = Except.ok [] := rfl

/-- The characteristic equation of the cell-parsing loop on non-empty
input. -/
lemma parseCellsLoop_cons (f : List Line → Cell × Nat) (l : Line)
    (rest : List Line) :
    TextNotebookReader.parseCellsLoop f (l :: rest) =
      if (f (l :: rest)).2 = 0 then
        Except.error (NbError.blocked ((l :: rest).take 6))
      else
        (TextNotebookReader.parseCellsLoop f
            ((l :: rest).drop (f (l :: rest)).2)).map
          (fun cs => (f (l :: rest)).1 :: cs) := by
  show TextNotebookReader.parseLoopGo f (rest.length + 1) (l :: rest) = _
  simp only [TextNotebookReader.parseLoopGo]
  by_cases hz : (f (l :: rest)).2 = 0
  · rw [if_pos hz, if_pos hz]
  · rw [if_neg hz, if_neg hz]
    congr 1
    apply parseLoopGo_fuel
    · rw [List.length_drop]
      simp only [List.length_cons]
      omega
    · exact Nat.le_refl _

/-- The empty-input equation of `loopCalls`. -/
lemma loopCalls_nil (f : List Line → Cell × Nat) :
    TextNotebookReader.loopCalls f [] = [] := rfl

/-- Fuel irrelevance for `loopCallsGo`. -/
lemma loopCallsGo_fuel (f : List Line → Cell × Nat) :
    ∀ (n m : Nat) (lines : List Line), lines.length ≤ n → lines.length ≤ m →
      TextNotebookReader.loopCallsGo f n lines =
        TextNotebookReader.loopCallsGo f m lines := by
  intro n
  induction n with
  | zero =>
    intro m lines hn _
    have h0 : lines = [] := List.length_eq_zero.mp (Nat.le_zero.mp hn)
    subst h0
    cases m <;> rfl
  | succ n ih =>
    intro m lines hn hm
    match lines with
    | [] => cases m <;> rfl
    | l :: rest =>
      match m with
      | 0 => simp at hm
      | m + 1 =>
        simp only [TextNotebookReader.loopCallsGo]
        by_cases hz : (f (l :: rest)).2 = 0
        · rw [if_pos hz, if_pos hz]
        · rw [if_neg hz, if_neg hz]
          congr 1
          apply ih
          · rw [List.length_drop]
            simp only [List.length_cons] at hn ⊢
            omega
          · rw [List.length_drop]
            simp only [List.length_cons] at hm ⊢
            omega

/-- The characteristic equation of `loopCalls` on non-empty input. -/
lemma loopCalls_cons (f : List Line → Cell × Nat) (l : Line)
    (rest : List Line) :
    TextNotebookReader.loopCalls f (l :: rest) =
      if (f (l :: rest)).2 = 0 then [l :: rest]
      else (l :: rest) ::
        TextNotebookReader.loopCalls f ((l :: rest).drop (f (l :: rest)).2) := by
  show TextNotebookReader.loopCallsGo f (rest.length + 1) (l :: rest) = _
  simp only [TextNotebookReader.loopCallsGo]
  by_cases hz : (f (l :: rest)).2 = 0
  · rw [if_pos hz, if_pos hz]
  · rw [if_neg hz, if_neg hz]
    congr 1
    apply loopCallsGo_fuel
    · rw [List.length_drop]
      simp only [List.length_cons]
      omega
    · exact Nat.le_refl _

/-- The only error the cell-parsing loop raises is the `blocked` one. -/
lemma parseCellsLoop_error_blocked (f : List Line → Cell × Nat) :
    ∀ (n : Nat) (lines : List Line), lines.length ≤ n → ∀ e,
      TextNotebookReader.parseCellsLoop f lines = Except.error e →
      ∃ ls, e = NbError.blocked ls := by
  intro n
  induction n with
  | zero =>
    intro lines hlen e h
    have h0 : lines = [] := List.length_eq_zero.mp (Nat.le_zero.mp hlen)
    subst h0
    simp [parseCellsLoop_nil] at h
  | succ n ih =>
    intro lines hlen e h
    match lines with
    | [] => simp [parseCellsLoop_nil] at h
    | l :: rest =>
      rw [parseCellsLoop_cons] at h
      by_cases hz : (f (l :: rest)).2 = 0
      · rw [if_pos hz] at h
        exact ⟨_, (Except.error.inj h).symm⟩
      · rw [if_neg hz] at h
        cases hp : TextNotebookReader.parseCellsLoop f
            ((l :: rest).drop (f (l :: rest)).2) with
        | ok cs => rw [hp] at h; simp [Except.map] at h
        | error e2 =>
          rw [hp] at h
          simp only [Except.map, Except.error.injEq] at h
          subst h
          refine ih _ ?_ _ hp
          rw [List.length_drop]
          simp only [List.length_cons] at hlen ⊢
          omega

/-- `to_notebook` fails only with the `blocked` error. -/
lemma to_notebook_error_blocked (ext : String) (text : Line) (e : NbError)
    (h : TextNotebookReader.to_notebook ext text = Except.error e) :
    ∃ ls, e = NbError.blocked ls := by
  unfold TextNotebookReader.to_notebook at h
  cases hp : TextNotebookReader.parseCellsLoop (text_to_cell ext)
      (TextNotebookReader.postHeaderLines ext text) with
  | ok parsed =>
    rw [hp] at h
    by_cases h1 : ext = ".Rmd" <;> by_cases h2 : ext = ".R" <;> simp_all
  | error e2 =>
    rw [hp] at h
    simp only [Except.error.injEq] at h
    subst h
    exact parseCellsLoop_error_blocked _ _ _ (Nat.le_refl _) _ hp

/-! ## Claims C4, C5, C8, C9, C10 -/

/-- C4: `TextNotebookWriter.writes` performs its in-place metadata edits only
on the private deep copy taken at the start of the call, so the caller's
notebook — metadata and cells — is unchanged after `writes` returns; and for
`.R` the edit on the working copy is a real one, so the copy is
load-bearing. -/
theorem claim_C4_writer_no_mutation :
    (∀ (ext : String) (nb : Notebook),
      TextNotebookWriter.writesSt ext nb = (TextNotebookWriter.writes ext nb, nb)) ∧
    (∃ nb : Notebook, (TextNotebookWriter.writesCore ".R" nb).2 ≠ nb.metadata) := by
  refine ⟨fun ext nb => rfl, ⟨⟨⟨some (chars "R"), none⟩, []⟩, by decide⟩⟩

/-- C5 counterexample: the claim says the resolved default is `main_language`
whenever it is present, but for a present, empty `main_language` the `.py`
resolution falls through to the fallback `python` instead of the present
value. -/
theorem claim_C5_counterexample :
    TextNotebookWriter.writes_default_language ".py" ⟨some [], none⟩ =
      chars "python" ∧ chars "python" ≠ ([] : Line) := by
  constructor
  · decide
  · decide

/-- C5 (amended): on the write path for `.py` and `.R`, the default language
is `main_language` when present and non-empty, else `language_info.name` when
that mapping carries a name, else the dialect fallback (`python` for `.py`,
`R` for `.R`); in particular `main_language = "R"` with
`language_info.name = "python"` resolves to `"R"`. -/
theorem claim_C5_language_precedence :
    (∀ (m : Meta) (l : Line), m.mainLanguage = some l → l ≠ [] →
      TextNotebookWriter.writes_default_language ".py" m = l ∧
      TextNotebookWriter.writes_default_language ".R" m = l) ∧
    (∀ (m : Meta) (n : Line), truthyS m.mainLanguage = false →
      m.languageInfoName = some n →
      TextNotebookWriter.writes_default_language ".py" m = n ∧
      TextNotebookWriter.writes_default_language ".R" m = n) ∧
    (∀ m : Meta, truthyS m.mainLanguage = false → m.languageInfoName = none →
      TextNotebookWriter.writes_default_language ".py" m = chars "python" ∧
      TextNotebookWriter.writes_default_language ".R" m = chars "R") ∧
    (TextNotebookWriter.writes_default_language ".py"
        ⟨some (chars "R"), some (chars "python")⟩ = chars "R" ∧
      TextNotebookWriter.writes_default_language ".R"
        ⟨some (chars "R"), some (chars "python")⟩ = chars "R") := by
  refine ⟨?_, ?_, ?_, by decide, by decide⟩
  · intro m l hm hl
    have ht : truthyS (some l) = true := by
      simp [truthyS, hl]
    constructor <;>
      simp [TextNotebookWriter.writes_default_language, hm, ht]
  · intro m n hm hn
    constructor <;>
      simp [TextNotebookWriter.writes_default_language, hm, hn]
  · intro m hm hn
    constructor <;>
      simp [TextNotebookWriter.writes_default_language, hm, hn]

/-- C5 witness: the amended precedence evaluated at concrete metadata. -/
theorem claim_C5_language_precedence_witness :
    TextNotebookWriter.writes_default_language ".py"
      ⟨some (chars "julia"), some (chars "python")⟩ = chars "julia" :=
  (claim_C5_language_precedence.1 ⟨some (chars "julia"), some (chars "python")⟩
    (chars "julia") rfl (by decide)).1

/-- C8 counterexample: the claim says every line, including empty ones, is
rendered as the comment string followed by one separating space followed by
the line, but an empty line renders as the bare comment string `#`, not
`# `. -/
theorem claim_C8_counterexample :
    markdown_escape ".py" [[]] = [chars "#"] ∧ chars "#" ≠ chars "# " := by
  constructor
  · decide
  · decide

/-- C8 (amended): with a non-empty comment string (`#` for `.py`, `#'` for
`.R`), `markdown_escape` renders every non-empty source line as the comment
string, one separating space, and the line, and every empty source line as
the bare comment string; with the empty `.Rmd` comment string every line
passes through unchanged. -/
theorem claim_C8_markdown_escape :
    (∀ lines : List Line, markdown_escape ".py" lines =
      lines.map (fun l => if l = [] then chars "#" else chars "#" ++ ' ' :: l)) ∧
    (∀ lines : List Line, markdown_escape ".R" lines =
      lines.map (fun l => if l = [] then chars "#'" else chars "#'" ++ ' ' :: l)) ∧
    (∀ lines : List Line, markdown_escape ".Rmd" lines = lines) := by
  refine ⟨fun lines => ?_, fun lines => ?_, fun lines => rfl⟩ <;> rfl

/-- C9: for the script dialects `.py` and `.R`, escaping a line that does not
itself start with the dialect's comment string and then unescaping it returns
the original line exactly; in particular `"Hello"` escapes to `"# Hello"` and
unescaping `"# Hello"` recovers `"Hello"`. -/
theorem claim_C9_escape_inverse :
    (∀ l : Line, (chars "#").isPrefixOf l = false →
      (markdown_escape ".py" [l]).map (markdown_unescape ".py") = [l]) ∧
    (∀ l : Line, (chars "#'").isPrefixOf l = false →
      (markdown_escape ".R" [l]).map (markdown_unescape ".R") = [l]) ∧
    (markdown_escape ".py" [chars "Hello"] = [chars "# Hello"] ∧
      markdown_unescape ".py" (chars "# Hello") = chars "Hello") := by
  refine ⟨fun l _ => ?_, fun l _ => ?_, by decide, by decide⟩
  · show [markdown_unescape ".py" (escapeLine (chars "#") l)] = [l]
    rw [unescape_escapeLine_py]
  · show [markdown_unescape ".R" (escapeLine (chars "#'") l)] = [l]
    rw [unescape_escapeLine_r]

/-- C9 witness: the inverse evaluated on the nominal example. -/
theorem claim_C9_escape_inverse_witness :
    (markdown_escape ".py" [chars "Hello"]).map (markdown_unescape ".py") =
      [chars "Hello"] :=
  claim_C9_escape_inverse.1 (chars "Hello") (by decide)

/-- C10: the string- and stream-level entry points `reads`, `read`, `writes`
and `write` default their extension parameter to `.Rmd` when none is
supplied, so a call without an extension behaves exactly like one with
`.Rmd` — and in particular is never rejected as an unsupported format. -/
theorem claim_C10_default_extension :
    (∀ text : Line, nbrmd.reads text none = nbrmd.reads text (some ".Rmd")) ∧
    (∀ s : Line, nbrmd.read s none = nbrmd.read s (some ".Rmd")) ∧
    (∀ nb : Notebook, nbrmd.writes nb none = nbrmd.writes nb (some ".Rmd")) ∧
    (∀ nb : Notebook, nbrmd.write nb none = nbrmd.write nb (some ".Rmd")) ∧
    (∀ (text : Line) (e : String),
      nbrmd.reads text none ≠ Except.error (NbError.unsupportedFormat e)) ∧
    (∀ (nb : Notebook) (e : String),
      nbrmd.writes nb none ≠ Except.error (NbError.unsupportedFormat e)) := by
  refine ⟨fun _ => rfl, fun _ => rfl, fun _ => rfl, fun _ => rfl, ?_, ?_⟩
  · intro text e
    show (TextNotebookReader.to_notebook ".Rmd" text).map ReadsOutcome.notebook ≠ _
    cases he : TextNotebookReader.to_notebook ".Rmd" text with
    | ok nb => simp [Except.map]
    | error err =>
      simp only [Except.map]
      intro h
      have h2 : err = NbError.unsupportedFormat e := Except.error.inj h
      obtain ⟨ls, hls⟩ := to_notebook_error_blocked _ _ _ he
      rw [h2] at hls
      exact NbError.noConfusion hls
  · intro nb e
    simp [nbrmd.writes]

/-! ## Claims C2, C3 -/

/-- C2: every unsupported extension is rejected at the boundary — the
string/stream entry points fail with the `unsupportedFormat`-classified error
regardless of the input (so before any parsing), and the file entry points
fail with the `notANotebook` `TypeError` regardless of the file system (so
before any I/O); no extension is silently defaulted. -/
theorem claim_C2_unsupported_extension :
    (∀ ext : String, ext ∉ NOTEBOOK_EXTENSIONS →
      (∀ text : Line, nbrmd.reads text (some ext) =
        Except.error (NbError.unsupportedFormat ext)) ∧
      (∀ s : Line, nbrmd.read s (some ext) =
        Except.error (NbError.unsupportedFormat ext)) ∧
      (∀ nb : Notebook, nbrmd.writes nb (some ext) =
        Except.error (NbError.unsupportedFormat ext)) ∧
      (∀ nb : Notebook, nbrmd.write nb (some ext) =
        Except.error (NbError.unsupportedFormat ext))) ∧
    (∀ file : String, (splitextPy file).2 ∉ NOTEBOOK_EXTENSIONS →
      (∀ fs : String → Option Line,
        nbrmd.readf file fs = Except.error (NbError.notANotebook file)) ∧
      (∀ nb : Notebook,
        nbrmd.writef nb file = Except.error (NbError.notANotebook file))) := by
  constructor
  · intro ext hext
    simp only [NOTEBOOK_EXTENSIONS, List.mem_cons, List.mem_singleton,
      not_or] at hext
    obtain ⟨h1, h2, h3, h4⟩ := hext
    refine ⟨fun text => ?_, fun s => ?_, fun nb => ?_, fun nb => ?_⟩ <;>
      simp [nbrmd.reads, nbrmd.read, nbrmd.writes, nbrmd.write, h1, h2, h3, h4]
  · intro file hfile
    exact ⟨fun fs => by simp [nbrmd.readf, hfile],
      fun nb => by simp [nbrmd.writef, hfile]⟩

/-- C2 witness: rejection evaluated at the concrete extension `.md` and the
concrete file `notes.txt`, on arbitrary concrete input and an empty file
system. -/
theorem claim_C2_unsupported_extension_witness :
    nbrmd.reads (chars "x") (some ".md") =
      Except.error (NbError.unsupportedFormat ".md") ∧
    nbrmd.readf "notes.txt" (fun _ => none) =
      Except.error (NbError.notANotebook "notes.txt") :=
  ⟨(claim_C2_unsupported_extension.1 ".md" (by decide)).1 (chars "x"),
   (claim_C2_unsupported_extension.2 "notes.txt" (by decide)).1 (fun _ => none)⟩

/-- C3: the reader loop's progress invariant — every call it makes to the
cell parser is on a non-empty line list; a run that returns a notebook had
every call consume at least one line; and as soon as some call reports a
consumed count of zero, the loop raises the fatal `blocked` error carrying
the first six remaining unconsumed lines; consequently `to_notebook` returns
a notebook only when every call consumed at least one line (no partial
notebook escapes). -/
theorem claim_C3_progress_invariant :
    (∀ (f : List Line → Cell × Nat) (lines : List Line),
      ∀ s ∈ TextNotebookReader.loopCalls f lines, s ≠ []) ∧
    (∀ (f : List Line → Cell × Nat) (lines : List Line) (cs : List Cell),
      TextNotebookReader.parseCellsLoop f lines = Except.ok cs →
      ∀ s ∈ TextNotebookReader.loopCalls f lines, 1 ≤ (f s).2) ∧
    (∀ (f : List Line → Cell × Nat) (lines : List Line),
      (∃ s ∈ TextNotebookReader.loopCalls f lines, (f s).2 = 0) →
      ∃ s ∈ TextNotebookReader.loopCalls f lines, (f s).2 = 0 ∧
        TextNotebookReader.parseCellsLoop f lines =
          Except.error (NbError.blocked (s.take 6))) ∧
    (∀ (ext : String) (text : Line) (nb : Notebook),
      TextNotebookReader.to_notebook ext text = Except.ok nb →
      ∀ s ∈ TextNotebookReader.loopCalls (text_to_cell ext)
          (TextNotebookReader.postHeaderLines ext text),
        1 ≤ (text_to_cell ext s).2) := by
  have key : ∀ (f : List Line → Cell × Nat) (n : Nat) (lines : List Line),
      lines.length ≤ n →
      (∀ s ∈ TextNotebookReader.loopCalls f lines, s ≠ []) ∧
      (∀ cs, TextNotebookReader.parseCellsLoop f lines = Except.ok cs →
        ∀ s ∈ TextNotebookReader.loopCalls f lines, 1 ≤ (f s).2) ∧
      ((∃ s ∈ TextNotebookReader.loopCalls f lines, (f s).2 = 0) →
        ∃ s ∈ TextNotebookReader.loopCalls f lines, (f s).2 = 0 ∧
          TextNotebookReader.parseCellsLoop f lines =
            Except.error (NbError.blocked (s.take 6))) := by
    intro f n
    induction n with
    | zero =>
      intro lines hlen
      have h0 : lines = [] := List.length_eq_zero.mp (Nat.le_zero.mp hlen)
      subst h0
      refine ⟨?_, ?_, ?_⟩ <;>
        simp [loopCalls_nil, parseCellsLoop_nil]
    | succ n ih =>
      intro lines hlen
      match lines with
      | [] =>
        refine ⟨?_, ?_, ?_⟩ <;>
          simp [loopCalls_nil, parseCellsLoop_nil]
      | l :: rest =>
        by_cases hz : (f (l :: rest)).2 = 0
        · refine ⟨?_, ?_, ?_⟩
          · intro s hs
            rw [loopCalls_cons, if_pos hz] at hs
            simp only [List.mem_singleton] at hs
            subst hs
            simp
          · intro cs hok
            rw [parseCellsLoop_cons, if_pos hz] at hok
            exact absurd hok (by simp)
          · intro _
            refine ⟨l :: rest, ?_, hz, ?_⟩
            · rw [loopCalls_cons, if_pos hz]
              simp
            · rw [parseCellsLoop_cons, if_pos hz]
        · have hdrop : ((l :: rest).drop (f (l :: rest)).2).length ≤ n := by
            rw [List.length_drop]
            simp only [List.length_cons] at hlen ⊢
            omega
          obtain ⟨ih1, ih2, ih3⟩ := ih ((l :: rest).drop (f (l :: rest)).2) hdrop
          refine ⟨?_, ?_, ?_⟩
          · intro s hs
            rw [loopCalls_cons, if_neg hz] at hs
            rcases List.mem_cons.mp hs with h | h
            · subst h; simp
            · exact ih1 s h
          · intro cs hok
            rw [parseCellsLoop_cons, if_neg hz] at hok
            intro s hs
            rw [loopCalls_cons, if_neg hz] at hs
            rcases List.mem_cons.mp hs with h | h
            · subst h; omega
            · cases hp : TextNotebookReader.parseCellsLoop f
                  ((l :: rest).drop (f (l :: rest)).2) with
              | ok cs2 => exact ih2 cs2 hp s h
              | error e2 => rw [hp] at hok; simp [Except.map] at hok
          · intro hex
            rw [loopCalls_cons, if_neg hz] at hex
            have hex2 : ∃ s ∈ TextNotebookReader.loopCalls f
                ((l :: rest).drop (f (l :: rest)).2), (f s).2 = 0 := by
              obtain ⟨s, hs, hs0⟩ := hex
              rcases List.mem_cons.mp hs with h | h
              · subst h; exact absurd hs0 hz
              · exact ⟨s, h, hs0⟩
            obtain ⟨s, hs, hs0, hserr⟩ := ih3 hex2
            refine ⟨s, ?_, hs0, ?_⟩
            · rw [loopCalls_cons, if_neg hz]
              exact List.mem_cons_of_mem _ hs
            · rw [parseCellsLoop_cons, if_neg hz, hserr]
              rfl
  refine ⟨fun f lines => (key f lines.length lines (Nat.le_refl _)).1,
    fun f lines cs hok =>
      (key f lines.length lines (Nat.le_refl _)).2.1 cs hok,
    fun f lines => (key f lines.length lines (Nat.le_refl _)).2.2,
    ?_⟩
  intro ext text nb hok s hs
  unfold TextNotebookReader.to_notebook at hok
  cases hp : TextNotebookReader.parseCellsLoop (text_to_cell ext)
      (TextNotebookReader.postHeaderLines ext text) with
  | ok parsed =>
    exact (key (text_to_cell ext) _ _ (Nat.le_refl _)).2.1 parsed hp s hs
  | error e2 => rw [hp] at hok; exact absurd hok (by simp)

/-- C3 witness: the invariant evaluated on a concrete zero-progress parser
and input, exercising the `blocked` error with the first six lines. -/
theorem claim_C3_progress_invariant_witness :
    ∃ s ∈ TextNotebookReader.loopCalls
        (fun _ => (⟨CellType.markdown, [], none, 0⟩, 0)) [chars "a"],
      ((fun (_ : List Line) => ((⟨CellType.markdown, [], none, 0⟩ : Cell), 0)) s).2 = 0 ∧
        TextNotebookReader.parseCellsLoop
            (fun _ => (⟨CellType.markdown, [], none, 0⟩, 0)) [chars "a"] =
          Except.error (NbError.blocked (s.take 6)) :=
  claim_C3_progress_invariant.2.2.1
    (fun _ => (⟨CellType.markdown, [], none, 0⟩, 0)) [chars "a"]
    ⟨[chars "a"], by decide, rfl⟩

/-! ## Claims C6, C7 -/

/-- C6: `.R` language normalization is lossless — on write, a `main_language`
entry is removed from the working metadata exactly when it equals `R` (any
other value, or absence, leaves the metadata unchanged); on read, a document
whose parsed header metadata carries neither `main_language` nor
`language_info` comes back with `main_language` set to `R`, so the removed
default is reconstructed. -/
theorem claim_C6_r_normalization_lossless :
    (∀ m : Meta,
      (m.mainLanguage = some (chars "R") →
        (TextNotebookWriter.writes_working_metadata ".R" m).mainLanguage = none) ∧
      (m.mainLanguage ≠ some (chars "R") →
        TextNotebookWriter.writes_working_metadata ".R" m = m)) ∧
    (∀ (text : Line) (nb : Notebook),
      TextNotebookReader.to_notebook ".R" text = Except.ok nb →
      (header_to_metadata_and_cell ".R" (splitlinesPy text)).1.mainLanguage =
        none →
      (header_to_metadata_and_cell ".R" (splitlinesPy text)).1.languageInfoName =
        none →
      nb.metadata.mainLanguage = some (chars "R")) := by
  constructor
  · intro m
    constructor
    · intro hm
      simp [TextNotebookWriter.writes_working_metadata, hm]
    · intro hm
      simp [TextNotebookWriter.writes_working_metadata, hm]
  · intro text nb hok hmain hlin
    unfold TextNotebookReader.to_notebook at hok
    cases hp : TextNotebookReader.parseCellsLoop (text_to_cell ".R")
        (TextNotebookReader.postHeaderLines ".R" text) with
    | error e => rw [hp] at hok; exact absurd hok (by simp)
    | ok parsed =>
      rw [hp] at hok
      simp only [show (".R" : String) ≠ ".Rmd" by decide, if_neg,
        reduceIte] at hok
      rw [hmain, hlin] at hok
      simp only [truthyS, Option.getD, Option.isSome] at hok
      simp only [show (decide (([] : Line) ≠ [])) = false by decide] at hok
      simp only [Bool.false_eq_true, or_self, not_false_eq_true, if_pos] at hok
      have := (Except.ok.inj hok).symm
      subst this
      simp

/-- C6 witness: the normalization evaluated on a concrete metadata and a
concrete `.R` document. -/
theorem claim_C6_r_normalization_lossless_witness :
    (TextNotebookWriter.writes_working_metadata ".R"
      ⟨some (chars "R"), none⟩).mainLanguage = none ∧
    (⟨⟨some (chars "R"), none⟩,
      [⟨CellType.markdown, [chars "hi"], none, 0⟩]⟩ : Notebook).metadata.mainLanguage =
      some (chars "R") :=
  ⟨(claim_C6_r_normalization_lossless.1 ⟨some (chars "R"), none⟩).1 rfl,
   claim_C6_r_normalization_lossless.2 (chars "#' hi")
     ⟨⟨some (chars "R"), none⟩, [⟨CellType.markdown, [chars "hi"], none, 0⟩]⟩
     (by decide) (by decide) (by decide)⟩

/-- C7 counterexample: the claim says the trailing `# -` marker is removed
only when the following cell's rendered text opens with `# + {` and is
otherwise kept, but the writer also removes it from the last cell, which has
no following cell at all: a single `.py` code cell renders without its end
marker. -/
theorem claim_C7_counterexample :
    TextNotebookWriter.writes ".py"
        ⟨⟨none, none⟩, [⟨CellType.code, [chars "1"], none, 0⟩]⟩ =
      chars "# +\n1" ∧
    chars "# -" ∉ splitlinesPy (TextNotebookWriter.writes ".py"
        ⟨⟨none, none⟩, [⟨CellType.code, [chars "1"], none, 0⟩]⟩) := by
  constructor
  · decide
  · decide

/-- C7 (amended): in the `.py` writer loop, a code cell whose rendered text
ends with the `# -` marker has that final line removed when the cell is the
last cell or when the following cell's rendered text begins with `# + {`;
otherwise the cell's text is emitted unchanged — the latter granted that
the following cell renders at least one line whenever the lookahead is
consulted (the cell is a code cell whose text ends in `# -`), since on a
following cell rendering no lines the source's lookahead `texts[i + 1][0]`
raises `IndexError` instead of emitting anything. -/
theorem claim_C7_marker_elision :
    (∀ (d : Line) (c : Cell), is_code c = true →
      (cell_to_text ".py" d c).getLast? = some (chars "# -") →
      TextNotebookWriter.renderCellsLoop ".py" d [c] =
        (cell_to_text ".py" d c).dropLast ++ List.replicate c.skiplines []) ∧
    (∀ (d : Line) (c c' : Cell) (rest : List Cell), is_code c = true →
      (cell_to_text ".py" d c).getLast? = some (chars "# -") →
      TextNotebookWriter.nextStartsBrace ".py" d (c' :: rest) = true →
      TextNotebookWriter.renderCellsLoop ".py" d (c :: c' :: rest) =
        (cell_to_text ".py" d c).dropLast ++ List.replicate c.skiplines [] ++
          TextNotebookWriter.renderCellsLoop ".py" d (c' :: rest)) ∧
    (∀ (d : Line) (c c' : Cell) (rest : List Cell),
      (is_code c = true →
        (cell_to_text ".py" d c).getLast? = some (chars "# -") →
        cell_to_text ".py" d c' ≠ []) →
      ¬ (is_code c = true ∧
        (cell_to_text ".py" d c).getLast? = some (chars "# -") ∧
        TextNotebookWriter.nextStartsBrace ".py" d (c' :: rest) = true) →
      TextNotebookWriter.renderCellsLoop ".py" d (c :: c' :: rest) =
        cell_to_text ".py" d c ++ List.replicate c.skiplines [] ++
          TextNotebookWriter.renderCellsLoop ".py" d (c' :: rest)) := by
  refine ⟨?_, ?_, ?_⟩
  · intro d c hc hlast
    simp [TextNotebookWriter.renderCellsLoop, hc, hlast]
  · intro d c c' rest hc hlast hbrace
    simp [TextNotebookWriter.renderCellsLoop, hc, hlast, hbrace]
  · intro d c c' rest _ hnot
    simp only [TextNotebookWriter.renderCellsLoop]
    rw [if_neg]
    · simp
    · intro hcond
      exact hnot ⟨hcond.2.1, hcond.2.2.1, by
        rcases hcond.2.2.2 with h | h
        · exact absurd h (by simp)
        · exact h⟩

/-- C7 witness: the elision rule evaluated on a concrete last code cell,
and the marker kept before a concrete following cell that renders lines but
no explicit opening marker. -/
theorem claim_C7_marker_elision_witness :
    (TextNotebookWriter.renderCellsLoop ".py" (chars "python")
        [⟨CellType.code, [chars "1"], none, 0⟩] =
      (cell_to_text ".py" (chars "python")
        ⟨CellType.code, [chars "1"], none, 0⟩).dropLast ++
        List.replicate (0 : Nat) []) ∧
    (TextNotebookWriter.renderCellsLoop ".py" (chars "python")
        [⟨CellType.code, [chars "1"], none, 0⟩,
          ⟨CellType.code, [chars "2"], none, 0⟩] =
      cell_to_text ".py" (chars "python")
          ⟨CellType.code, [chars "1"], none, 0⟩ ++
        List.replicate (0 : Nat) [] ++
        TextNotebookWriter.renderCellsLoop ".py" (chars "python")
          [⟨CellType.code, [chars "2"], none, 0⟩]) :=
  ⟨claim_C7_marker_elision.1 (chars "python")
      ⟨CellType.code, [chars "1"], none, 0⟩ (by decide) (by decide),
    claim_C7_marker_elision.2.2 (chars "python")
      ⟨CellType.code, [chars "1"], none, 0⟩
      ⟨CellType.code, [chars "2"], none, 0⟩ []
      (by decide) (by decide)⟩

/-! ## List helpers for the round-trip development -/

/-- `takeWhile` passes over a block whose members all satisfy the
predicate. -/
lemma takeWhile_append_all {α : Type} (p : α → Bool) (xs ys : List α)
    (h : ∀ x ∈ xs, p x = true) :
    (xs ++ ys).takeWhile p = xs ++ ys.takeWhile p := by
  induction xs with
  | nil => rfl
  | cons a l ih =>
    simp only [List.cons_append, List.takeWhile_cons,
      h a (List.mem_cons_self a l), if_true, List.cons.injEq, true_and]
    exact ih (fun x hx => h x (List.mem_cons_of_mem a hx))

/-- `takeWhile` stops at a failing head. -/
lemma takeWhile_nil_of_head {α : Type} (p : α → Bool) (ys : List α)
    (h : ∀ y ∈ ys.head?, p y = false) : ys.takeWhile p = [] := by
  cases ys with
  | nil => rfl
  | cons a l =>
    have := h a rfl
    simp [List.takeWhile_cons, this]

/-- `takeWhile` consumes exactly a leading all-true block terminated by a
failing head (or the input's end). -/
lemma takeWhile_exact {α : Type} (p : α → Bool) (xs ys : List α)
    (hxs : ∀ x ∈ xs, p x = true) (hys : ∀ y ∈ ys.head?, p y = false) :
    (xs ++ ys).takeWhile p = xs := by
  rw [takeWhile_append_all p xs ys hxs, takeWhile_nil_of_head p ys hys,
    List.append_nil]

/-- `dropWhile` passes over a block whose members all satisfy the
predicate. -/
lemma dropWhile_append_all {α : Type} (p : α → Bool) (xs ys : List α)
    (h : ∀ x ∈ xs, p x = true) :
    (xs ++ ys).dropWhile p = ys.dropWhile p := by
  induction xs with
  | nil => rfl
  | cons a l ih =>
    simp only [List.cons_append, List.dropWhile_cons,
      h a (List.mem_cons_self a l), if_true]
    exact ih (fun x hx => h x (List.mem_cons_of_mem a hx))

/-- `dropWhile` keeps a list whose head fails the predicate. -/
lemma dropWhile_id_of_head {α : Type} (p : α → Bool) (ys : List α)
    (h : ∀ y ∈ ys.head?, p y = false) : ys.dropWhile p = ys := by
  cases ys with
  | nil => rfl
  | cons a l =>
    have := h a rfl
    simp [List.dropWhile_cons, this]

/-- `countBlank` of a blank block followed by a non-blank head. -/
lemma countBlank_replicate (k : Nat) (t : List Line)
    (h : ∀ x ∈ t.head?, x ≠ []) :
    countBlank (List.replicate k [] ++ t) = k := by
  unfold countBlank
  rw [takeWhile_exact]
  · exact List.length_replicate k []
  · intro x hx
    simp only [List.mem_replicate] at hx
    simp [hx.2]
  · intro y hy
    simp [h y hy]

/-- `countBlank` of a list with non-blank head. -/
lemma countBlank_head (t : List Line) (h : ∀ x ∈ t.head?, x ≠ []) :
    countBlank t = 0 := by
  unfold countBlank
  rw [takeWhile_nil_of_head]
  · rfl
  · intro y hy
    simp [h y hy]

/-- `dropTrailingBlank` strips exactly an appended blank block off a list of
non-blank lines. -/
lemma dropTrailingBlank_eq (xs : List Line) (k : Nat)
    (h : ∀ x ∈ xs, x ≠ []) :
    dropTrailingBlank (xs ++ List.replicate k []) = xs := by
  unfold dropTrailingBlank
  rw [List.reverse_append, List.reverse_replicate]
  rw [dropWhile_append_all]
  · rw [dropWhile_id_of_head, List.reverse_reverse]
    intro y hy
    have hmem : y ∈ xs := List.mem_reverse.mp (List.mem_of_mem_head? hy)
    simp [h y hmem]
  · intro x hx
    simp only [List.mem_replicate] at hx
    simp [hx.2]

/-- `splitNL` of a newline-free line. -/
lemma splitNL_noNL (a : Line) (h : noNL a = true) : splitNL a = [a] := by
  induction a with
  | nil => rfl
  | cons c rest ih =>
    simp only [noNL, List.all_cons, Bool.and_eq_true, decide_eq_true_eq] at h
    have hr : splitNL rest = [rest] := ih h.2
    simp [splitNL, h.1, hr]

/-- `splitNL` separates a leading newline-free line. -/
lemma splitNL_append (a : Line) (h : noNL a = true) (t : Line) :
    splitNL (a ++ '\n' :: t) = a :: splitNL t := by
  induction a with
  | nil => simp [splitNL]
  | cons c rest ih =>
    simp only [noNL, List.all_cons, Bool.and_eq_true, decide_eq_true_eq] at h
    have hr := ih h.2
    simp only [List.cons_append, splitNL, h.1, if_neg h.1, hr]
    cases hs : splitNL t <;> simp [hs] at hr ⊢ <;> simp [hr]

/-- `splitNL` applied to joined newline-free lines recovers them. -/
lemma splitNL_joinLines (L : List Line) (hL : L ≠ [])
    (h : ∀ l ∈ L, noNL l = true) : splitNL (joinLines L) = L := by
  induction L with
  | nil => exact absurd rfl hL
  | cons a t ih =>
    cases t with
    | nil =>
      show splitNL a = [a]
      exact splitNL_noNL a (h a (List.mem_cons_self a []))
    | cons b t2 =>
      show splitNL (a ++ '\n' :: joinLines (b :: t2)) = a :: b :: t2
      rw [splitNL_append a (h a (List.mem_cons_self _ _))]
      rw [ih (by simp) (fun l hl => h l (List.mem_cons_of_mem a hl))]

/-- `splitlinesPy` inverts `joinLines` on newline-free lines with a non-blank
final line. -/
lemma splitlines_joinLines (L : List Line) (h : ∀ l ∈ L, noNL l = true)
    (hlast : L.getLast? ≠ some []) : splitlinesPy (joinLines L) = L := by
  cases hL : L with
  | nil => rfl
  | cons a t =>
    subst hL
    have hsplit := splitNL_joinLines (a :: t) (by simp) h
    have hne : joinLines (a :: t) ≠ [] := by
      intro hnil
      rw [hnil] at hsplit
      simp only [splitNL, List.cons.injEq] at hsplit
      obtain ⟨h1, h2⟩ := hsplit
      subst h1
      subst h2
      simp at hlast
    unfold splitlinesPy
    rw [if_neg hne, hsplit, if_neg hlast]

/-! ## Escaping and marker facts -/

/-- Bool prefix test on a self-prefixed append. -/
lemma isPrefixOf_append_self (p x : List Char) : p.isPrefixOf (p ++ x) = true := by
  rw [List.isPrefixOf_iff_prefix]
  exact List.prefix_append p x

/-- Bool suffix test on a self-suffixed append. -/
lemma isSuffixOf_append_self (s x : List Char) :
    s.isSuffixOf (x ++ s) = true := by
  rw [List.isSuffixOf_iff_suffix]
  exact List.suffix_append x s

/-- A Bool prefix test transported along a further append. -/
lemma isPrefixOf_extend (p q x : List Char) (h : p.isPrefixOf q = true) :
    p.isPrefixOf (q ++ x) = true := by
  rw [List.isPrefixOf_iff_prefix] at h ⊢
  exact h.trans (List.prefix_append q x)

/-- An escaped line is never blank. -/
lemma escapeLine_ne_nil (pfx : Line) (hp : pfx ≠ []) (l : Line) :
    escapeLine pfx l ≠ [] := by
  unfold escapeLine
  by_cases h : l = [] <;> simp [h, hp]

/-- The `.py`-escaped line starts with the comment character. -/
lemma escapeLine_py_head (l : Line) :
    (escapeLine (chars "#") l).head? = some '#' := by
  unfold escapeLine
  by_cases h : l = [] <;> simp [h] <;> rfl

/-- A `.py`-escaped markdown line is not a chunk-opening marker, provided the
source line is not the marker trap `+`/`+ {…`. -/
lemma start_code_py_escape (l : Line) (h1 : l ≠ chars "+")
    (h2 : (chars "+ \x7b").isPrefixOf l = false) :
    start_code_py (escapeLine (chars "#") l) = false := by
  by_cases h : l = []
  · subst h; rfl
  · unfold escapeLine start_code_py
    rw [if_neg h]
    simp only [Bool.or_eq_false_iff, decide_eq_false_iff_not]
    constructor
    · intro hfalse
      apply h1
      have : ('#' :: ' ' :: l) = ('#' :: ' ' :: chars "+") := hfalse
      simpa using this
    · show List.isPrefixOf _ ('#' :: ' ' :: l) = false
      show (('#' == '#') && (' ' == ' ') && List.isPrefixOf (chars "+ \x7b") l) = false
      simp [h2]

/-- A `.py`-escaped markdown line satisfies the markdown-run predicate. -/
lemma mdPy_escape (l : Line) (h1 : l ≠ chars "+")
    (h2 : (chars "+ \x7b").isPrefixOf l = false) :
    mdPy (escapeLine (chars "#") l) = true := by
  unfold mdPy
  rw [escapeLine_py_head, start_code_py_escape l h1 h2]
  simp

/-- An `.R`-escaped markdown line satisfies the `.R` markdown-run
predicate. -/
lemma mdR_escape (l : Line) : mdR (escapeLine (chars "#'") l) = true := by
  unfold mdR escapeLine
  by_cases h : l = []
  · simp [h]
  · rw [if_neg h]
    have : (chars "#'").isPrefixOf (chars "#'" ++ ' ' :: l) = true :=
      isPrefixOf_append_self _ _
    simp only [show chars "#'" ++ ' ' :: l = '#' :: '\x27' :: ' ' :: l from rfl] at this
    simp [this]

/-- Decoding a rendered `.py` opening marker recovers the rendered
language. -/
lemma pyDecodeOpen_render (d : Line) (lang : Option Line)
    (h : langOK d lang = true) :
    pyDecodeOpen (pyRenderOpen d lang) = lang := by
  cases lang with
  | none => rfl
  | some l =>
    simp only [langOK, Bool.and_eq_true, decide_eq_true_eq] at h
    have hro : pyRenderOpen d (some l) =
        chars "# + \x7b\"language\": \"" ++ l ++ chars "\"\x7d" := by
      show (if l ≠ d then _ else _) = _
      rw [if_pos h.2]
    rw [hro]
    unfold pyDecodeOpen
    rw [if_pos]
    · have hassoc : chars "# + \x7b\"language\": \"" ++ l ++ chars "\"\x7d" =
          chars "# + \x7b\"language\": \"" ++ (l ++ chars "\"\x7d") := by
        simp [List.append_assoc]
      rw [hassoc, List.drop_left]
      have h2 : l ++ chars "\"\x7d" = (l ++ [Char.ofNat 34]) ++ [Char.ofNat 125] := by
        rw [List.append_assoc]
        rfl
      rw [h2, List.dropLast_concat, List.dropLast_concat]
    · refine ⟨?_, ?_, ?_⟩
      · rw [List.append_assoc]
        exact isPrefixOf_append_self _ _
      · exact isSuffixOf_append_self _ _
      · simp only [List.append_assoc, List.length_append]
        have h34 : (chars "\"\x7d").length = 2 := rfl
        rw [h34]
        omega

/-- A rendered `.py` opening marker matches the chunk-opening pattern. -/
lemma start_code_py_render (d : Line) (lang : Option Line) :
    start_code_py (pyRenderOpen d lang) = true := by
  cases lang with
  | none => rfl
  | some l =>
    by_cases h : l ≠ d
    · have hro : pyRenderOpen d (some l) =
          chars "# + \x7b\"language\": \"" ++ l ++ chars "\"\x7d" := by
        show (if l ≠ d then _ else _) = _
        rw [if_pos h]
      rw [hro]
      unfold start_code_py
      rw [List.append_assoc]
      rw [isPrefixOf_extend _ _ _ (by rfl)]
      simp
    · have hro : pyRenderOpen d (some l) = chars "# +" := by
        show (if l ≠ d then _ else _) = _
        rw [if_neg h]
      rw [hro]
      rfl

/-- A rendered `.py` opening marker is never blank and never the closing
marker. -/
lemma pyRenderOpen_ne (d : Line) (lang : Option Line) :
    pyRenderOpen d lang ≠ [] ∧ pyRenderOpen d lang ≠ chars "# -" := by
  cases lang with
  | none =>
    refine ⟨?_, ?_⟩
    · show (chars "# +" : Line) ≠ []
      decide
    · show (chars "# +" : Line) ≠ chars "# -"
      decide
  | some l =>
    by_cases h : l ≠ d
    · have hro : pyRenderOpen d (some l) =
          chars "# + \x7b\"language\": \"" ++ l ++ chars "\"\x7d" := by
        show (if l ≠ d then _ else _) = _
        rw [if_pos h]
      rw [hro]
      constructor
      · intro hfalse
        simp only [List.append_eq_nil] at hfalse
        exact absurd hfalse.1.1 (by decide)
      · intro hfalse
        have hL : (chars "# + \x7b\"language\": \"" ++ l ++
            chars "\"\x7d").getLast? = some (Char.ofNat 125) := by
          have he : chars "# + \x7b\"language\": \"" ++ l ++ chars "\"\x7d" =
              (chars "# + \x7b\"language\": \"" ++ l ++ [Char.ofNat 34]) ++
                [Char.ofNat 125] := by
            rw [List.append_assoc (chars "# + \x7b\"language\": \"" ++ l)
              [Char.ofNat 34] [Char.ofNat 125]]
            rfl
          rw [he, List.getLast?_concat]
        rw [hfalse] at hL
        exact absurd hL (by decide)
    · have hro : pyRenderOpen d (some l) = chars "# +" := by
        show (if l ≠ d then _ else _) = _
        rw [if_neg h]
      rw [hro]
      refine ⟨?_, ?_⟩
      · show (chars "# +" : Line) ≠ []
        decide
      · show (chars "# +" : Line) ≠ chars "# -"
        decide

/-- Decoding a rendered `.R` options marker recovers the language. -/
lemma rDecodeOpen_render (l : Line) :
    rDecodeOpen (chars "#+ language=\"" ++ l ++ chars "\"") = some l := by
  unfold rDecodeOpen
  rw [if_pos]
  · have hassoc : chars "#+ language=\"" ++ l ++ chars "\"" =
        chars "#+ language=\"" ++ (l ++ chars "\"") := by
      simp [List.append_assoc]
    rw [hassoc, List.drop_left]
    show some ((l ++ [Char.ofNat 34]).dropLast) = some l
    rw [List.dropLast_concat]
  · refine ⟨?_, ?_, ?_⟩
    · rw [List.append_assoc]
      exact isPrefixOf_append_self _ _
    · exact isSuffixOf_append_self _ _
    · simp only [List.append_assoc, List.length_append]
      have h34 : (chars "\"").length = 1 := rfl
      rw [h34]
      omega

/-- A rendered `.R` options marker starts with `#+`. -/
lemma r_open_marker (l : Line) :
    (chars "#+").isPrefixOf (chars "#+ language=\"" ++ l ++ chars "\"") = true := by
  rw [List.append_assoc]
  exact isPrefixOf_extend _ _ _ (by rfl)

/-- A rendered `.R` options marker is not blank, not roxygen-escaped, and not
a plain code line. -/
lemma r_open_ne (l : Line) :
    (chars "#+ language=\"" ++ l ++ chars "\"") ≠ [] ∧
    mdR (chars "#+ language=\"" ++ l ++ chars "\"") = false ∧
    plainR (chars "#+ language=\"" ++ l ++ chars "\"") = false := by
  refine ⟨?_, ?_, ?_⟩
  · intro hfalse
    simp only [List.append_eq_nil] at hfalse
    exact absurd hfalse.1.1 (by decide)
  · unfold mdR
    have h1 : (chars "#'").isPrefixOf
        (chars "#+ language=\"" ++ l ++ chars "\"") = false := rfl
    have h2 : (chars "#+ language=\"" ++ l ++ chars "\"") ≠ [] := by
      intro hfalse
      simp only [List.append_eq_nil] at hfalse
      exact absurd hfalse.1.1 (by decide)
    rw [h1]
    simp only [Bool.false_or, decide_eq_false_iff_not]
    exact h2
  · unfold plainR
    rw [r_open_marker]
    simp

/-- A rendered `.Rmd` fence matches the chunk-opening pattern. -/
lemma start_code_rmd_open (L : Line) :
    start_code_rmd (chars "```\x7b" ++ L ++ chars "\x7d") = true := by
  unfold start_code_rmd
  rw [List.append_assoc]
  rw [isPrefixOf_extend _ _ _ (by rfl)]
  have hL : (chars "```\x7b" ++ (L ++ chars "\x7d")).getLast? =
      some (Char.ofNat 125) := by
    have he : chars "```\x7b" ++ (L ++ chars "\x7d") =
        (chars "```\x7b" ++ L) ++ [Char.ofNat 125] := by
      rw [List.append_assoc]
      rfl
    rw [he, List.getLast?_concat]
  rw [hL]
  simp

/-- Decoding a rendered `.Rmd` fence recovers the language. -/
lemma rmdDecodeOpen_open (L : Line) :
    rmdDecodeOpen (chars "```\x7b" ++ L ++ chars "\x7d") = L := by
  unfold rmdDecodeOpen
  rw [List.append_assoc, List.drop_left]
  show (L ++ [Char.ofNat 125]).dropLast = L
  rw [List.dropLast_concat]

/-- A rendered `.Rmd` fence is not blank, not the closing fence, and not a
markdown-run line. -/
lemma rmd_open_ne (L : Line) :
    (chars "```\x7b" ++ L ++ chars "\x7d") ≠ [] ∧
    (chars "```\x7b" ++ L ++ chars "\x7d") ≠ chars "```" ∧
    mdRmd (chars "```\x7b" ++ L ++ chars "\x7d") = false := by
  have hne : (chars "```\x7b" ++ L ++ chars "\x7d") ≠ [] := by
    intro hfalse
    simp only [List.append_eq_nil] at hfalse
    exact absurd hfalse.1.1 (by decide)
  refine ⟨hne, ?_, ?_⟩
  · intro hfalse
    have := congrArg (fun x : Line => x.take 4) hfalse
    simp only [List.append_assoc, List.take_append_of_le_length
      (by decide : 4 ≤ (chars "```\x7b").length)] at this
    exact absurd this (by decide)
  · unfold mdRmd
    rw [start_code_rmd_open]
    simp

/-- Newline-freedom distributes over append. -/
lemma noNL_append (a b : Line) :
    noNL (a ++ b) = (noNL a && noNL b) := by
  unfold noNL
  exact List.all_append

/-- Escaping keeps a line newline-free. -/
lemma noNL_escapeLine (pfx l : Line) (hp : noNL pfx = true)
    (hl : noNL l = true) : noNL (escapeLine pfx l) = true := by
  unfold escapeLine
  by_cases h : l = []
  · simp [h, hp]
  · rw [if_neg h]
    have : noNL (' ' :: l) = true := by
      unfold noNL at hl ⊢
      rw [List.all_cons, hl]
      rfl
    rw [noNL_append, hp, this]
    rfl

/-- Shape of a `.py` code cell's rendered text. -/
lemma cell_to_text_py_code (d : Line) (c : Cell)
    (hc : c.cellType = CellType.code) :
    cell_to_text ".py" d c = pyRenderOpen d c.language :: c.source ++
      [chars "# -"] := by
  unfold cell_to_text
  rw [if_pos hc]
  rfl

/-- Shape of a `.py` markdown cell's rendered text. -/
lemma cell_to_text_py_md (d : Line) (c : Cell)
    (hc : c.cellType = CellType.markdown) :
    cell_to_text ".py" d c = c.source.map (escapeLine (chars "#")) := by
  unfold cell_to_text
  rw [if_neg (by rw [hc]; decide)]
  rfl

/-- Shape of an `.R` code cell's rendered text. -/
lemma cell_to_text_r_code (d : Line) (c : Cell)
    (hc : c.cellType = CellType.code) :
    cell_to_text ".R" d c =
      (match c.language with
       | some l => if l ≠ d then [chars "#+ language=\"" ++ l ++ chars "\""]
         else []
       | none => []) ++ c.source := by
  unfold cell_to_text
  rw [if_pos hc]
  rfl

/-- Shape of an `.R` markdown cell's rendered text. -/
lemma cell_to_text_r_md (d : Line) (c : Cell)
    (hc : c.cellType = CellType.markdown) :
    cell_to_text ".R" d c = c.source.map (escapeLine (chars "#'")) := by
  unfold cell_to_text
  rw [if_neg (by rw [hc]; decide)]
  rfl

/-- Shape of an `.Rmd` code cell's rendered text. -/
lemma cell_to_text_rmd_code (d : Line) (c : Cell)
    (hc : c.cellType = CellType.code) :
    cell_to_text ".Rmd" d c =
      (chars "```\x7b" ++ c.language.getD d ++ chars "\x7d") :: c.source ++
        [chars "```"] := by
  unfold cell_to_text
  rw [if_pos hc]
  rfl

/-- Shape of an `.Rmd` markdown cell's rendered text. -/
lemma cell_to_text_rmd_md (d : Line) (c : Cell)
    (hc : c.cellType = CellType.markdown) :
    cell_to_text ".Rmd" d c = c.source := by
  unfold cell_to_text
  rw [if_neg (by rw [hc]; decide)]
  rfl

/-- Profile dispatch of `text_to_cell` for `.py`. -/
lemma text_to_cell_py_eq (lines : List Line) :
    text_to_cell ".py" lines = text_to_cell_py lines := rfl

/-- Profile dispatch of `text_to_cell` for `.R`. -/
lemma text_to_cell_r_eq (lines : List Line) :
    text_to_cell ".R" lines = text_to_cell_r lines := rfl

/-- Profile dispatch of `text_to_cell` for `.Rmd`. -/
lemma text_to_cell_rmd_eq (lines : List Line) :
    text_to_cell ".Rmd" lines = text_to_cell_rmd lines := rfl

/-! ## Parser step lemmas, `.py` -/

/-- A closed `.py` code chunk (source, explicit `# -`, separator blanks)
followed by anything with a non-blank first line parses back to the cell and
consumes exactly its own lines. -/
lemma step_py_code_closed (d : Line) (c : Cell) (tail : List Line)
    (hc : c.cellType = CellType.code)
    (hlines : ∀ l ∈ c.source, codeLineOK ".py" l = true)
    (hlang : langOK d c.language = true)
    (htail : ∀ h ∈ tail.head?, h ≠ []) :
    text_to_cell ".py" (pyRenderOpen d c.language ::
        (c.source ++ ([chars "# -"] ++ (List.replicate c.skiplines [] ++ tail)))) =
      (c, 1 + c.source.length + 1 + c.skiplines) := by
  obtain ⟨ct, src, lang, sk⟩ := c
  simp only at hc hlines hlang ⊢
  subst hc
  rw [text_to_cell_py_eq, text_to_cell_py.eq_2,
    if_pos (start_code_py_render d lang)]
  have hpred : ∀ x ∈ src,
      (decide (x ≠ chars "# -") && !(chars "# + \x7b").isPrefixOf x) = true := by
    intro x hx
    have := hlines x hx
    unfold codeLineOK at this
    simp only [Bool.and_eq_true, decide_eq_true_eq] at this
    have h2 := this.2
    norm_num at h2
    simp [h2.1, h2.2]
  have htw : List.takeWhile
      (fun x => decide (x ≠ chars "# -") && !(chars "# + \x7b").isPrefixOf x)
      (src ++ chars "# -" :: (List.replicate sk [] ++ tail)) = src := by
    apply takeWhile_exact _ src (chars "# -" :: (List.replicate sk [] ++ tail))
      hpred
    intro y hy
    have hy2 : y = chars "# -" := by
      simp only [List.head?_cons, Option.mem_def, Option.some.injEq] at hy
      exact hy.symm
    subst hy2
    simp
  have hcb : countBlank (List.replicate sk [] ++ tail) = sk :=
    countBlank_replicate sk tail htail
  simp only [List.singleton_append, htw, List.drop_left, List.head?_cons,
    Option.some.injEq, if_pos rfl, List.drop_succ_cons, List.drop_zero, hcb,
    pyDecodeOpen_render d lang hlang]
  simp [hcb]

/-- An elided `.py` code chunk (no closing marker) at the end of the input or
followed by an explicit `# + {` opener parses back to the cell with no
separator blanks. -/
lemma step_py_code_elided (d : Line) (c : Cell) (tail : List Line)
    (hc : c.cellType = CellType.code)
    (hlines : ∀ l ∈ c.source, codeLineOK ".py" l = true)
    (hlang : langOK d c.language = true)
    (htail : ∀ h ∈ tail.head?, (chars "# + \x7b").isPrefixOf h = true) :
    text_to_cell ".py" (pyRenderOpen d c.language :: (c.source ++ tail)) =
      (⟨CellType.code, c.source, c.language, 0⟩, 1 + c.source.length) := by
  obtain ⟨ct, src, lang, sk⟩ := c
  simp only at hc hlines hlang ⊢
  subst hc
  rw [text_to_cell_py_eq, text_to_cell_py.eq_2,
    if_pos (start_code_py_render d lang)]
  have hpred : ∀ x ∈ src,
      (decide (x ≠ chars "# -") && !(chars "# + \x7b").isPrefixOf x) = true := by
    intro x hx
    have := hlines x hx
    unfold codeLineOK at this
    simp only [Bool.and_eq_true, decide_eq_true_eq] at this
    have h2 := this.2
    norm_num at h2
    simp [h2.1, h2.2]
  have htw : List.takeWhile
      (fun x => decide (x ≠ chars "# -") && !(chars "# + \x7b").isPrefixOf x)
      (src ++ tail) = src := by
    apply takeWhile_exact _ src tail hpred
    intro y hy
    have := htail y hy
    have hne : y ≠ chars "# -" := by
      intro he
      subst he
      exact absurd this (by decide)
    simp [this, hne]
  have hclose : (if tail.head? = some (chars "# -") then 1 else 0) = 0 := by
    rw [if_neg]
    intro hfalse
    have := htail (chars "# -") hfalse
    exact absurd this (by decide)
  have hblank : countBlank tail = 0 := by
    apply countBlank_head
    intro x hx
    intro hxe
    subst hxe
    have := htail [] hx
    exact absurd this (by decide)
  simp only [htw, List.drop_left, hclose, List.drop_zero, hblank,
    pyDecodeOpen_render d lang hlang]
  simp

/-- A `.py` markdown block (escaped source, separator blanks) followed by
anything whose first line fails the markdown-run predicate parses back to the
markdown cell. -/
lemma step_py_md (c : Cell) (tail : List Line)
    (hc : c.cellType = CellType.markdown) (hsrc : c.source ≠ [])
    (hlines : ∀ l ∈ c.source, mdLineOK ".py" l = true)
    (htail : ∀ h ∈ tail.head?, mdPy h = false) :
    text_to_cell ".py" (c.source.map (escapeLine (chars "#")) ++
        (List.replicate c.skiplines [] ++ tail)) =
      (⟨CellType.markdown, c.source, none, c.skiplines⟩,
        c.source.length + c.skiplines) := by
  obtain ⟨ct, src, lang, sk⟩ := c
  simp only at hc hsrc hlines ⊢
  subst hc
  have htrap : ∀ l ∈ src, l ≠ chars "+" ∧
      (chars "+ \x7b").isPrefixOf l = false := by
    intro l hl
    have := hlines l hl
    unfold mdLineOK at this
    simp only [Bool.and_eq_true, decide_eq_true_eq] at this
    have h2 := this.2
    norm_num at h2
    exact ⟨h2.1, h2.2⟩
  have hmd : ∀ x ∈ src.map (escapeLine (chars "#")) ++ List.replicate sk [],
      mdPy x = true := by
    intro x hx
    rcases List.mem_append.mp hx with hx1 | hx2
    · obtain ⟨l, hl, hlx⟩ := List.mem_map.mp hx1
      subst hlx
      exact mdPy_escape l (htrap l hl).1 (htrap l hl).2
    · simp only [List.mem_replicate] at hx2
      rw [hx2.2]
      rfl
  have hcontent : dropTrailingBlank
      (src.map (escapeLine (chars "#")) ++ List.replicate sk []) =
      src.map (escapeLine (chars "#")) := by
    apply dropTrailingBlank_eq
    intro x hx
    obtain ⟨l, _, hlx⟩ := List.mem_map.mp hx
    subst hlx
    exact escapeLine_ne_nil _ (by decide) l
  have hunesc : (src.map (escapeLine (chars "#"))).map
      (markdown_unescape ".py") = src := by
    rw [List.map_map]
    have : ∀ l ∈ src,
        (markdown_unescape ".py" ∘ escapeLine (chars "#")) l = id l :=
      fun l _ => unescape_escapeLine_py l
    rw [List.map_congr_left this, List.map_id]
  cases hs : src with
  | nil => exact absurd hs hsrc
  | cons s0 srest =>
    rw [text_to_cell_py_eq]
    rw [hs] at hmd hcontent hunesc htrap
    have heq : (s0 :: srest).map (escapeLine (chars "#")) ++
        (List.replicate sk [] ++ tail) =
        escapeLine (chars "#") s0 :: (srest.map (escapeLine (chars "#")) ++
          (List.replicate sk [] ++ tail)) := by
      simp [List.map_cons, List.cons_append]
    rw [heq, text_to_cell_py.eq_2]
    rw [if_neg]
    · have hrun : List.takeWhile mdPy
          (escapeLine (chars "#") s0 :: (srest.map (escapeLine (chars "#")) ++
            (List.replicate sk [] ++ tail))) =
          (s0 :: srest).map (escapeLine (chars "#")) ++ List.replicate sk [] := by
        rw [← heq, ← List.append_assoc]
        exact takeWhile_exact mdPy _ tail hmd htail
      simp only [hrun, hcontent, hunesc]
      simp [List.length_append, List.length_map, List.length_replicate]
      omega
    · rw [start_code_py_escape s0 (htrap s0 (by simp)).1 (htrap s0 (by simp)).2]
      simp

/-! ## Parser step lemmas, `.R` -/

/-- plainR rejects the blank line. -/
lemma plainR_nil : plainR [] = false := rfl

/-- plainR holds on `.R` code lines. -/
lemma plainR_of_codeLineOK (l : Line) (h : codeLineOK ".R" l = true) :
    plainR l = true := by
  unfold codeLineOK at h
  simp only [Bool.and_eq_true] at h
  have h2 := h.2
  norm_num at h2
  exact h2

/-- An `.R`-escaped line is not a `#+` marker and not a plain code line. -/
lemma escape_r_not_code (l : Line) :
    (chars "#+").isPrefixOf (escapeLine (chars "#'") l) = false ∧
    plainR (escapeLine (chars "#'") l) = false := by
  constructor
  · unfold escapeLine
    by_cases h : l = []
    · simp [h]
      rfl
    · rw [if_neg h]
      rfl
  · unfold plainR
    have : (chars "#'").isPrefixOf (escapeLine (chars "#'") l) = true := by
      unfold escapeLine
      by_cases h : l = []
      · simp [h]
      · rw [if_neg h]
        exact isPrefixOf_append_self _ _
    simp [this]

/-- A tagged `.R` code chunk parses back to the cell. -/
lemma step_r_code_tagged (c : Cell) (l : Line) (tail : List Line)
    (hc : c.cellType = CellType.code) (hl : c.language = some l)
    (hlines : ∀ x ∈ c.source, codeLineOK ".R" x = true)
    (htail1 : c.skiplines = 0 → ∀ h ∈ tail.head?, plainR h = false)
    (htail2 : ∀ h ∈ tail.head?, h ≠ []) :
    text_to_cell ".R" ((chars "#+ language=\"" ++ l ++ chars "\"") ::
        (c.source ++ (List.replicate c.skiplines [] ++ tail))) =
      (c, 1 + c.source.length + c.skiplines) := by
  obtain ⟨ct, src, lang, sk⟩ := c
  simp only at hc hl hlines ⊢
  subst hc
  subst hl
  rw [text_to_cell_r_eq, text_to_cell_r.eq_2]
  rw [if_pos (r_open_marker l)]
  have htw : List.takeWhile plainR (src ++ (List.replicate sk [] ++ tail)) =
      src := by
    apply takeWhile_exact _ src _ (fun x hx => plainR_of_codeLineOK x (hlines x hx))
    intro y hy
    cases sk with
    | zero => exact htail1 rfl y hy
    | succ n =>
      simp only [List.replicate, List.cons_append, List.head?_cons,
        Option.mem_def, Option.some.injEq] at hy
      rw [← hy]
      rfl
  have hcb : countBlank (List.replicate sk [] ++ tail) = sk :=
    countBlank_replicate sk tail (fun h hh => htail2 h hh)
  simp only [htw, List.drop_left, hcb, rDecodeOpen_render l]

/-- An untagged `.R` code chunk parses back to the cell. -/
lemma step_r_code_untagged (c : Cell) (tail : List Line)
    (hc : c.cellType = CellType.code) (hl : c.language = none)
    (hsrc : c.source ≠ [])
    (hlines : ∀ x ∈ c.source, codeLineOK ".R" x = true)
    (htail1 : c.skiplines = 0 → ∀ h ∈ tail.head?, plainR h = false)
    (htail2 : ∀ h ∈ tail.head?, h ≠ []) :
    text_to_cell ".R" (c.source ++ (List.replicate c.skiplines [] ++ tail)) =
      (c, c.source.length + c.skiplines) := by
  obtain ⟨ct, src, lang, sk⟩ := c
  simp only at hc hl hsrc hlines ⊢
  subst hc
  subst hl
  cases hs : src with
  | nil => exact absurd hs hsrc
  | cons s0 srest =>
    subst hs
    have hs0 : plainR s0 = true :=
      plainR_of_codeLineOK s0 (hlines s0 (by simp))
    have hs0m : (chars "#+").isPrefixOf s0 = false := by
      unfold plainR at hs0
      cases hpre : (chars "#+").isPrefixOf s0
      · rfl
      · rw [hpre] at hs0
        simp at hs0
    rw [text_to_cell_r_eq]
    rw [List.cons_append]
    rw [text_to_cell_r.eq_2]
    rw [if_neg (by simp [hs0m]), if_pos hs0]
    have htw : List.takeWhile plainR
        (s0 :: (srest ++ (List.replicate sk [] ++ tail))) =
        s0 :: srest := by
      have := takeWhile_exact plainR (s0 :: srest)
        (List.replicate sk [] ++ tail)
        (fun x hx => plainR_of_codeLineOK x (hlines x hx))
        (by
          intro y hy
          cases sk with
          | zero => exact htail1 rfl y hy
          | succ n =>
            simp only [List.replicate, List.cons_append, List.head?_cons,
              Option.mem_def, Option.some.injEq] at hy
            rw [← hy]
            rfl)
      simpa using this
    have hcb : countBlank (List.replicate sk [] ++ tail) = sk :=
      countBlank_replicate sk tail (fun h hh => htail2 h hh)
    simp only [htw, List.cons_append]
    have hdrop : List.drop (s0 :: srest).length
        (s0 :: (srest ++ (List.replicate sk [] ++ tail))) =
        List.replicate sk [] ++ tail := by
      have : (s0 :: (srest ++ (List.replicate sk [] ++ tail))) =
          (s0 :: srest) ++ (List.replicate sk [] ++ tail) := by simp
      rw [this, List.drop_left]
    rw [hdrop, hcb]

/-- An `.R` markdown block parses back to the cell. -/
lemma step_r_md (c : Cell) (tail : List Line)
    (hc : c.cellType = CellType.markdown) (hsrc : c.source ≠ [])
    (htail : ∀ h ∈ tail.head?, mdR h = false) :
    text_to_cell ".R" (c.source.map (escapeLine (chars "#'")) ++
        (List.replicate c.skiplines [] ++ tail)) =
      (⟨CellType.markdown, c.source, none, c.skiplines⟩,
        c.source.length + c.skiplines) := by
  obtain ⟨ct, src, lang, sk⟩ := c
  simp only at hc hsrc ⊢
  subst hc
  have hmd : ∀ x ∈ src.map (escapeLine (chars "#'")) ++ List.replicate sk [],
      mdR x = true := by
    intro x hx
    rcases List.mem_append.mp hx with hx1 | hx2
    · obtain ⟨l, _, hlx⟩ := List.mem_map.mp hx1
      subst hlx
      exact mdR_escape l
    · simp only [List.mem_replicate] at hx2
      rw [hx2.2]
      rfl
  have hcontent : dropTrailingBlank
      (src.map (escapeLine (chars "#'")) ++ List.replicate sk []) =
      src.map (escapeLine (chars "#'")) := by
    apply dropTrailingBlank_eq
    intro x hx
    obtain ⟨l, _, hlx⟩ := List.mem_map.mp hx
    subst hlx
    exact escapeLine_ne_nil _ (by decide) l
  have hunesc : (src.map (escapeLine (chars "#'"))).map
      (markdown_unescape ".R") = src := by
    rw [List.map_map]
    have : ∀ l ∈ src,
        (markdown_unescape ".R" ∘ escapeLine (chars "#'")) l = id l :=
      fun l _ => unescape_escapeLine_r l
    rw [List.map_congr_left this, List.map_id]
  cases hs : src with
  | nil => exact absurd hs hsrc
  | cons s0 srest =>
    rw [text_to_cell_r_eq]
    rw [hs] at hmd hcontent hunesc
    have heq : (s0 :: srest).map (escapeLine (chars "#'")) ++
        (List.replicate sk [] ++ tail) =
        escapeLine (chars "#'") s0 :: (srest.map (escapeLine (chars "#'")) ++
          (List.replicate sk [] ++ tail)) := by
      simp [List.map_cons, List.cons_append]
    rw [heq, text_to_cell_r.eq_2]
    rw [if_neg (by simp [(escape_r_not_code s0).1]),
      if_neg (by simp [(escape_r_not_code s0).2])]
    have hrun : List.takeWhile mdR
        (escapeLine (chars "#'") s0 :: (srest.map (escapeLine (chars "#'")) ++
          (List.replicate sk [] ++ tail))) =
        (s0 :: srest).map (escapeLine (chars "#'")) ++ List.replicate sk [] := by
      rw [← heq, ← List.append_assoc]
      exact takeWhile_exact mdR _ tail hmd htail
    simp only [hrun, hcontent, hunesc]
    simp [List.length_append, List.length_map, List.length_replicate]
    omega

/-! ## Parser step lemmas, `.Rmd` -/

/-- A fenced `.Rmd` code chunk parses back to the cell, tagged with the
rendered language. -/
lemma step_rmd_code (d : Line) (c : Cell) (tail : List Line)
    (hc : c.cellType = CellType.code)
    (hlines : ∀ x ∈ c.source, codeLineOK ".Rmd" x = true)
    (htail : ∀ h ∈ tail.head?, h ≠ []) :
    text_to_cell ".Rmd" ((chars "```\x7b" ++ c.language.getD d ++ chars "\x7d") ::
        (c.source ++ (chars "```" :: (List.replicate c.skiplines [] ++ tail)))) =
      (⟨CellType.code, c.source, some (c.language.getD d), c.skiplines⟩,
        1 + c.source.length + 1 + c.skiplines) := by
  obtain ⟨ct, src, lang, sk⟩ := c
  simp only at hc hlines ⊢
  subst hc
  rw [text_to_cell_rmd_eq, text_to_cell_rmd.eq_2]
  rw [if_pos (start_code_rmd_open (lang.getD d))]
  have htw : List.takeWhile (fun x => decide (x ≠ chars "```"))
      (src ++ chars "```" :: (List.replicate sk [] ++ tail)) = src := by
    apply takeWhile_exact _ src (chars "```" :: (List.replicate sk [] ++ tail))
    · intro x hx
      have := hlines x hx
      unfold codeLineOK at this
      simp only [Bool.and_eq_true] at this
      have h2 := this.2
      norm_num at h2
      simp [h2]
    · intro y hy
      simp only [List.head?_cons, Option.mem_def, Option.some.injEq] at hy
      rw [← hy]
      simp
  have hcb : countBlank (List.replicate sk [] ++ tail) = sk :=
    countBlank_replicate sk tail htail
  have hne : (chars "```" :: (List.replicate sk [] ++ tail)) ≠ [] := by simp
  simp only [htw, List.drop_left, if_neg hne, List.drop_succ_cons,
    List.drop_zero, hcb, rmdDecodeOpen_open (lang.getD d)]

/-- A markdown-run line never opens a chunk. -/
lemma start_false_of_mdRmd (l : Line) (h : mdRmd l = true) :
    start_code_rmd l = false := by
  unfold mdRmd at h
  cases hs : start_code_rmd l
  · rfl
  · rw [hs] at h
    simp at h

/-- An `.Rmd` markdown block followed by a code chunk or the end of the
input parses back with its full blank count as `skiplines`. -/
lemma step_rmd_md_code (c : Cell) (tail : List Line)
    (hc : c.cellType = CellType.markdown) (hsrc : c.source ≠ [])
    (hlines : ∀ l ∈ c.source, mdLineOK ".Rmd" l = true)
    (htail : ∀ h ∈ tail.head?, start_code_rmd h = true) :
    text_to_cell ".Rmd" (c.source ++ (List.replicate c.skiplines [] ++ tail)) =
      (⟨CellType.markdown, c.source, none, c.skiplines⟩,
        c.source.length + c.skiplines) := by
  obtain ⟨ct, src, lang, sk⟩ := c
  simp only at hc hsrc hlines ⊢
  subst hc
  have hmdline : ∀ l ∈ src, mdRmd l = true := by
    intro l hl
    have := hlines l hl
    unfold mdLineOK at this
    simp only [Bool.and_eq_true] at this
    have h2 := this.2
    norm_num at h2
    unfold mdRmd
    simp [h2.1, h2.2]
  have htailne : ∀ h ∈ tail.head?, h ≠ [] := by
    intro h hh he
    subst he
    have := htail [] hh
    exact absurd this (by decide)
  cases hs : src with
  | nil => exact absurd hs hsrc
  | cons s0 srest =>
    subst hs
    rw [text_to_cell_rmd_eq, List.cons_append, text_to_cell_rmd.eq_2]
    rw [if_neg (by simp [start_false_of_mdRmd s0 (hmdline s0 (by simp))])]
    have hrun : List.takeWhile mdRmd
        (s0 :: (srest ++ (List.replicate sk [] ++ tail))) = s0 :: srest := by
      have := takeWhile_exact mdRmd (s0 :: srest)
        (List.replicate sk [] ++ tail) hmdline
        (by
          intro y hy
          cases sk with
          | zero =>
            have := htail y hy
            unfold mdRmd
            simp [this]
          | succ n =>
            simp only [List.replicate, List.cons_append, List.head?_cons,
              Option.mem_def, Option.some.injEq] at hy
            rw [← hy]
            rfl)
      simpa using this
    have hdrop : List.drop (s0 :: srest).length
        (s0 :: (srest ++ (List.replicate sk [] ++ tail))) =
        List.replicate sk [] ++ tail := by
      have h0 : (s0 :: (srest ++ (List.replicate sk [] ++ tail))) =
          (s0 :: srest) ++ (List.replicate sk [] ++ tail) := by simp
      rw [h0, List.drop_left]
    have hcb : countBlank (List.replicate sk [] ++ tail) = sk :=
      countBlank_replicate sk tail htailne
    have hunesc : (s0 :: srest).map (markdown_unescape ".Rmd") = s0 :: srest := by
      have : ∀ l ∈ s0 :: srest, markdown_unescape ".Rmd" l = id l :=
        fun l _ => rfl
      rw [List.map_congr_left this, List.map_id]
    have hdrop2 : List.drop ((s0 :: srest).length + sk)
        (s0 :: (srest ++ (List.replicate sk [] ++ tail))) = tail := by
      have h0 : (s0 :: (srest ++ (List.replicate sk [] ++ tail))) =
          (s0 :: srest) ++ (List.replicate sk [] ++ tail) := by simp
      rw [h0, List.drop_append]
      exact List.drop_left' (List.length_replicate sk [])
    simp only [hrun, hdrop, hcb, hunesc, hdrop2]
    cases ht : tail with
    | nil => simp
    | cons t0 ts =>
      have hst := htail t0 (by rw [ht]; rfl)
      simp only [List.head?_cons]
      rw [if_neg (by simp [hst])]

/-- An `.Rmd` markdown block followed by another markdown block is written
with one extra separator blank, which the `.Rmd` markdown variant does not
count into `skiplines`. -/
lemma step_rmd_md_md (c : Cell) (tail : List Line) (h0 : Line)
    (hc : c.cellType = CellType.markdown) (hsrc : c.source ≠ [])
    (hlines : ∀ l ∈ c.source, mdLineOK ".Rmd" l = true)
    (hth : tail.head? = some h0) (hh1 : start_code_rmd h0 = false)
    (hh2 : h0 ≠ []) :
    text_to_cell ".Rmd" (c.source ++
        (List.replicate (c.skiplines + 1) [] ++ tail)) =
      (⟨CellType.markdown, c.source, none, c.skiplines⟩,
        c.source.length + (c.skiplines + 1)) := by
  obtain ⟨ct, src, lang, sk⟩ := c
  simp only at hc hsrc hlines ⊢
  subst hc
  have hmdline : ∀ l ∈ src, mdRmd l = true := by
    intro l hl
    have := hlines l hl
    unfold mdLineOK at this
    simp only [Bool.and_eq_true] at this
    have h2 := this.2
    norm_num at h2
    unfold mdRmd
    simp [h2.1, h2.2]
  have htailne : ∀ h ∈ tail.head?, h ≠ [] := by
    intro h hh
    rw [hth] at hh
    simp only [Option.mem_def, Option.some.injEq] at hh
    rw [← hh]
    exact hh2
  cases hs : src with
  | nil => exact absurd hs hsrc
  | cons s0 srest =>
    subst hs
    rw [text_to_cell_rmd_eq, List.cons_append, text_to_cell_rmd.eq_2]
    rw [if_neg (by simp [start_false_of_mdRmd s0 (hmdline s0 (by simp))])]
    have hrun : List.takeWhile mdRmd
        (s0 :: (srest ++ (List.replicate (sk + 1) [] ++ tail))) =
        s0 :: srest := by
      have := takeWhile_exact mdRmd (s0 :: srest)
        (List.replicate (sk + 1) [] ++ tail) hmdline
        (by
          intro y hy
          simp only [List.replicate, List.cons_append, List.head?_cons,
            Option.mem_def, Option.some.injEq] at hy
          rw [← hy]
          rfl)
      simpa using this
    have hdrop : List.drop (s0 :: srest).length
        (s0 :: (srest ++ (List.replicate (sk + 1) [] ++ tail))) =
        List.replicate (sk + 1) [] ++ tail := by
      have h0e : (s0 :: (srest ++ (List.replicate (sk + 1) [] ++ tail))) =
          (s0 :: srest) ++ (List.replicate (sk + 1) [] ++ tail) := by simp
      rw [h0e, List.drop_left]
    have hcb : countBlank (List.replicate (sk + 1) [] ++ tail) = sk + 1 :=
      countBlank_replicate (sk + 1) tail htailne
    have hunesc : (s0 :: srest).map (markdown_unescape ".Rmd") = s0 :: srest := by
      have : ∀ l ∈ s0 :: srest, markdown_unescape ".Rmd" l = id l :=
        fun l _ => rfl
      rw [List.map_congr_left this, List.map_id]
    have hdrop2 : List.drop ((s0 :: srest).length + (sk + 1))
        (s0 :: (srest ++ (List.replicate (sk + 1) [] ++ tail))) = tail := by
      have h0e : (s0 :: (srest ++ (List.replicate (sk + 1) [] ++ tail))) =
          (s0 :: srest) ++ (List.replicate (sk + 1) [] ++ tail) := by simp
      rw [h0e, List.drop_append]
      exact List.drop_left' (List.length_replicate (sk + 1) [])
    simp only [hrun, hdrop, hcb, hunesc, hdrop2, hth]
    rw [if_pos]
    · simp
    · constructor
      · simp [hh1]
      · omega

/-! ## Rendered-text head facts and the `.py` loop -/

/-- A chunk-opening line fails the markdown-run predicate. -/
lemma mdPy_false_of_start (h : Line) (hs : start_code_py h = true) :
    mdPy h = false := by
  have hne : h ≠ [] := by
    intro he
    subst he
    exact absurd hs (by decide)
  unfold mdPy
  rw [hs]
  simp [hne]

/-- The loop-step lemma: when the parser consumes exactly a leading block
and returns `c`, the loop conses `c` onto the parse of the remainder. -/
lemma parseCellsLoop_exact (f : List Line → Cell × Nat) (pre tail : List Line)
    (c : Cell) (hpre : pre ≠ [])
    (hf : f (pre ++ tail) = (c, pre.length)) :
    TextNotebookReader.parseCellsLoop f (pre ++ tail) =
      (TextNotebookReader.parseCellsLoop f tail).map (fun cs => c :: cs) := by
  cases pre with
  | nil => exact absurd rfl hpre
  | cons p ps =>
    rw [List.cons_append] at hf ⊢
    rw [parseCellsLoop_cons, hf]
    simp only [List.length_cons]
    rw [if_neg (by omega)]
    have hdrop : List.drop (ps.length + 1) (p :: (ps ++ tail)) = tail := by
      rw [List.drop_succ_cons]
      exact List.drop_left' rfl
    rw [hdrop]

/-- Head of the rendered lines of a `.py` code cell at the front of the cell
list. -/
lemma render_head_py_code (d : Line) (c' : Cell) (rest2 : List Cell)
    (hc : c'.cellType = CellType.code) :
    (TextNotebookWriter.renderCellsLoop ".py" d (c' :: rest2)).head? =
      some (pyRenderOpen d c'.language) := by
  rw [TextNotebookWriter.renderCellsLoop.eq_2]
  simp only [cell_to_text_py_code d c' hc]
  have hdl : (pyRenderOpen d c'.language :: (c'.source ++ [chars "# -"])).dropLast =
      pyRenderOpen d c'.language :: c'.source := by
    rw [← List.cons_append, List.dropLast_concat]
  split_ifs <;> simp [hdl]

/-- Head of the rendered lines of a `.py` markdown cell at the front of the
cell list. -/
lemma render_head_py_md (d : Line) (c' : Cell) (rest2 : List Cell)
    (hc : c'.cellType = CellType.markdown) (s0 : Line) (srest : List Line)
    (hs : c'.source = s0 :: srest) :
    (TextNotebookWriter.renderCellsLoop ".py" d (c' :: rest2)).head? =
      some (escapeLine (chars "#") s0) := by
  rw [TextNotebookWriter.renderCellsLoop.eq_2]
  simp only [cell_to_text_py_md d c' hc, hs]
  rw [if_neg (by simp [is_code, hc])]
  split_ifs <;> simp [List.map_cons, List.cons_append]

/-- The writer's brace lookahead agrees with the next cell being a tagged
code cell. -/
lemma nextBrace_py (d : Line) (c' : Cell) (rest2 : List Cell)
    (hok : cellOK ".py" d c' = true) :
    TextNotebookWriter.nextStartsBrace ".py" d (c' :: rest2) =
      (is_code c' && c'.language.isSome) := by
  unfold cellOK at hok
  simp only [Bool.and_eq_true, decide_eq_true_eq] at hok
  obtain ⟨⟨hraw, hsrc⟩, hrest⟩ := hok
  rw [TextNotebookWriter.nextStartsBrace.eq_2]
  cases hct : c'.cellType with
  | raw => exact absurd hct hraw
  | code =>
    have hcode : is_code c' = true := by simp [is_code, hct]
    rw [cell_to_text_py_code d c' hct, hcode]
    cases hl : c'.language with
    | none =>
      simp only [List.cons_append, List.head?_cons, Option.getD_some]
      show (chars "# + \x7b").isPrefixOf (chars "# +") =
        (true && Option.isSome (none : Option Line))
      decide
    | some l =>
      rw [hcode, if_pos rfl] at hrest
      simp only [Bool.and_eq_true] at hrest
      have hlok := hrest.2
      rw [hl] at hlok
      unfold langOK at hlok
      simp only [Bool.and_eq_true, decide_eq_true_eq] at hlok
      have hro : pyRenderOpen d (some l) =
          chars "# + \x7b\"language\": \"" ++ l ++ chars "\"\x7d" := by
        show (if l ≠ d then _ else _) = _
        rw [if_pos hlok.2]
      simp only [List.cons_append, List.head?_cons, Option.getD_some, hro]
      rw [List.append_assoc, isPrefixOf_extend _ _ _ (by rfl)]
      simp
  | markdown =>
    have hcode : is_code c' = false := by simp [is_code, hct]
    rw [hcode, if_neg (by simp)] at hrest
    simp only [Bool.and_eq_true, List.all_eq_true] at hrest
    rw [hcode]
    simp only [Bool.false_and]
    cases hs : c'.source with
    | nil => exact absurd hs hsrc
    | cons s0 srest =>
      rw [cell_to_text_py_md d c' hct, hs]
      simp only [List.map_cons, List.head?_cons, Option.getD_some]
      have := hrest.1 s0 (by rw [hs]; simp)
      unfold mdLineOK at this
      simp only [Bool.and_eq_true, decide_eq_true_eq] at this
      have h2 := this.2
      norm_num at h2
      have hesc := start_code_py_escape s0 h2.1 h2.2
      unfold start_code_py at hesc
      simp only [Bool.or_eq_false_iff] at hesc
      exact hesc.2

/-- Destructured form of `cellOK`. -/
lemma cellOK_dest (ext : String) (d : Line) (c : Cell)
    (h : cellOK ext d c = true) :
    c.cellType ≠ CellType.raw ∧ c.source ≠ [] ∧
    (is_code c = true → (∀ l ∈ c.source, codeLineOK ext l = true) ∧
      langOK d c.language = true) ∧
    (is_code c = false → (∀ l ∈ c.source, mdLineOK ext l = true) ∧
      c.language = none) := by
  unfold cellOK at h
  simp only [Bool.and_eq_true, decide_eq_true_eq] at h
  obtain ⟨⟨h1, h2⟩, h3⟩ := h
  refine ⟨h1, h2, ?_, ?_⟩
  · intro hc
    rw [hc, if_pos rfl] at h3
    simp only [Bool.and_eq_true, List.all_eq_true] at h3
    exact ⟨fun l hl => h3.1 l hl, h3.2⟩
  · intro hc
    rw [hc] at h3
    rw [if_neg (by simp)] at h3
    simp only [Bool.and_eq_true, List.all_eq_true, decide_eq_true_eq] at h3
    exact ⟨fun l hl => h3.1 l hl, h3.2⟩

/-- One cell followed by nothing: the loop consumes the whole input. -/
lemma parseCellsLoop_total (f : List Line → Cell × Nat) (L : List Line)
    (c : Cell) (hL : L ≠ []) (hf : f L = (c, L.length)) :
    TextNotebookReader.parseCellsLoop f L = Except.ok [c] := by
  have := parseCellsLoop_exact f L [] c hL
    (by rw [List.append_nil]; exact hf)
  rw [List.append_nil] at this
  rw [this]
  rfl

/-- The head cell of a well-formed cell list is well formed. -/
lemma cellsOK_head (ext : String) (d : Line) {c : Cell} {rest : List Cell}
    (h : cellsOK ext d (c :: rest) = true) : cellOK ext d c = true := by
  cases rest with
  | nil =>
    rw [cellsOK.eq_2] at h
    simp only [Bool.and_eq_true] at h
    exact h.1
  | cons c2 r2 =>
    rw [cellsOK.eq_3] at h
    simp only [Bool.and_eq_true] at h
    exact h.1.1

/-- The `.py` render of a well-formed cell list parses back to exactly that
list. -/
lemma parse_render_py (d : Line) :
    ∀ cells, cellsOK ".py" d cells = true →
    TextNotebookReader.parseCellsLoop (text_to_cell ".py")
        (TextNotebookWriter.renderCellsLoop ".py" d cells) = Except.ok cells := by
  intro cells
  induction cells with
  | nil => intro _; rfl
  | cons c rest ih =>
    intro hok
    cases rest with
    | nil =>
      rw [cellsOK.eq_2] at hok
      simp only [Bool.and_eq_true] at hok
      obtain ⟨hcell, hlast⟩ := hok
      obtain ⟨hraw, hsrc, hcode, hmd⟩ := cellOK_dest ".py" d c hcell
      unfold lastOK at hlast
      simp only [Bool.and_eq_true, decide_eq_true_eq] at hlast
      have hsk : c.skiplines = 0 := hlast.1
      cases hct : c.cellType with
      | raw => exact absurd hct hraw
      | markdown =>
        have hismd : is_code c = false := by simp [is_code, hct]
        obtain ⟨hlines, hmdnone⟩ := hmd hismd
        have hrender : TextNotebookWriter.renderCellsLoop ".py" d [c] =
            c.source.map (escapeLine (chars "#")) ++
              List.replicate c.skiplines [] := by
          rw [TextNotebookWriter.renderCellsLoop.eq_2]
          rw [cell_to_text_py_md d c hct]
          rw [if_neg (by simp [hismd])]
          rw [if_neg (by simp)]
          rw [TextNotebookWriter.renderCellsLoop.eq_1]
          simp
        rw [hrender]
        apply parseCellsLoop_total
        · simp [hsrc]
        · have hstep := step_py_md c [] hct hsrc hlines (by simp)
          rw [List.append_nil] at hstep
          rw [hstep]
          simp only [Prod.mk.injEq]
          constructor
          · have hcmk : c =
                ⟨CellType.markdown, c.source, none, c.skiplines⟩ := by
              obtain ⟨ct, src2, lang2, sk2⟩ := c
              simp only at hct hmdnone ⊢
              rw [hct, hmdnone]
            exact hcmk.symm
          · simp
      | code =>
        have hiscode : is_code c = true := by simp [is_code, hct]
        obtain ⟨hlines, hlang⟩ := hcode hiscode
        have hdl : ((pyRenderOpen d c.language :: c.source) ++
            [chars "# -"]).dropLast =
            pyRenderOpen d c.language :: c.source := by
          rw [List.dropLast_concat]
        have hrender : TextNotebookWriter.renderCellsLoop ".py" d [c] =
            pyRenderOpen d c.language :: c.source := by
          rw [TextNotebookWriter.renderCellsLoop.eq_2]
          rw [cell_to_text_py_code d c hct]
          rw [if_pos ⟨rfl, hiscode,
            by rw [List.getLast?_concat], Or.inl rfl⟩]
          rw [hdl, hsk]
          rw [TextNotebookWriter.renderCellsLoop.eq_1]
          simp
        rw [hrender]
        apply parseCellsLoop_total
        · simp
        · have hstep := step_py_code_elided d c [] hct hlines hlang (by simp)
          rw [List.append_nil] at hstep
          rw [hstep]
          simp only [Prod.mk.injEq]
          constructor
          · have hcmk : c = ⟨CellType.code, c.source, c.language, 0⟩ := by
              obtain ⟨ct, src2, lang2, sk2⟩ := c
              simp only at hct hsk ⊢
              rw [hct, hsk]
            exact hcmk.symm
          · show 1 + c.source.length = c.source.length + 1
            omega
    | cons c2 rest2 =>
      rw [cellsOK.eq_3] at hok
      simp only [Bool.and_eq_true] at hok
      obtain ⟨⟨hcell, hadj⟩, hok2⟩ := hok
      obtain ⟨hraw, hsrc, hcode, hmd⟩ := cellOK_dest ".py" d c hcell
      have hcell2 : cellOK ".py" d c2 = true := cellsOK_head ".py" d hok2
      obtain ⟨hraw2, hsrc2, hcode2, hmd2⟩ := cellOK_dest ".py" d c2 hcell2
      have hrtail := ih hok2
      have hRne : ∀ h ∈ (TextNotebookWriter.renderCellsLoop ".py" d
          (c2 :: rest2)).head?, h ≠ [] := by
        intro h hh
        cases hct2 : c2.cellType with
        | raw => exact absurd hct2 hraw2
        | code =>
          rw [render_head_py_code d c2 rest2 hct2] at hh
          simp only [Option.mem_def, Option.some.injEq] at hh
          rw [← hh]
          exact (pyRenderOpen_ne d c2.language).1
        | markdown =>
          cases hs2 : c2.source with
          | nil => exact absurd hs2 hsrc2
          | cons s0 srest =>
            rw [render_head_py_md d c2 rest2 hct2 s0 srest hs2] at hh
            simp only [Option.mem_def, Option.some.injEq] at hh
            rw [← hh]
            exact escapeLine_ne_nil _ (by decide) s0
      cases hct : c.cellType with
      | raw => exact absurd hct hraw
      | markdown =>
        have hismd : is_code c = false := by simp [is_code, hct]
        obtain ⟨hlines, hmdnone⟩ := hmd hismd
        -- the next cell is code: adjacent markdown cells are excluded
        have hct2 : c2.cellType = CellType.code := by
          cases hct2 : c2.cellType with
          | raw => exact absurd hct2 hraw2
          | code => rfl
          | markdown =>
            exfalso
            unfold adjOK at hadj
            rw [if_neg (by decide)] at hadj
            simp [is_code, hct, hct2] at hadj
        have hrender : TextNotebookWriter.renderCellsLoop ".py" d
            (c :: c2 :: rest2) =
            (c.source.map (escapeLine (chars "#")) ++
              List.replicate c.skiplines []) ++
              TextNotebookWriter.renderCellsLoop ".py" d (c2 :: rest2) := by
          rw [TextNotebookWriter.renderCellsLoop.eq_2]
          rw [cell_to_text_py_md d c hct]
          rw [if_neg (by simp [hismd])]
          rw [if_neg (by simp)]
          simp
        have htail : ∀ h ∈ (TextNotebookWriter.renderCellsLoop ".py" d
            (c2 :: rest2)).head?, mdPy h = false := by
          intro h hh
          rw [render_head_py_code d c2 rest2 hct2] at hh
          simp only [Option.mem_def, Option.some.injEq] at hh
          rw [← hh]
          exact mdPy_false_of_start _ (start_code_py_render d c2.language)
        have hstep : text_to_cell ".py"
            ((c.source.map (escapeLine (chars "#")) ++
              List.replicate c.skiplines []) ++
              TextNotebookWriter.renderCellsLoop ".py" d (c2 :: rest2)) =
            (c, (c.source.map (escapeLine (chars "#")) ++
              List.replicate c.skiplines []).length) := by
          rw [List.append_assoc]
          rw [step_py_md c _ hct hsrc hlines htail]
          simp only [Prod.mk.injEq]
          constructor
          · have hcmk : c =
                ⟨CellType.markdown, c.source, none, c.skiplines⟩ := by
              obtain ⟨ct, src2, lang2, sk2⟩ := c
              simp only at hct hmdnone ⊢
              rw [hct, hmdnone]
            exact hcmk.symm
          · simp
        rw [hrender]
        rw [parseCellsLoop_exact (text_to_cell ".py") _ _ c
          (by simp [hsrc]) hstep]
        rw [hrtail]
        rfl
      | code =>
        have hiscode : is_code c = true := by simp [is_code, hct]
        obtain ⟨hlines, hlang⟩ := hcode hiscode
        have hdl : ((pyRenderOpen d c.language :: c.source) ++
            [chars "# -"]).dropLast =
            pyRenderOpen d c.language :: c.source := by
          rw [List.dropLast_concat]
        by_cases hbrace : TextNotebookWriter.nextStartsBrace ".py" d
            (c2 :: rest2) = true
        · -- the next cell opens with an explicit brace marker: elision
          have hc2tag : is_code c2 = true ∧ c2.language.isSome = true := by
            have hnb := nextBrace_py d c2 rest2 hcell2
            rw [hbrace] at hnb
            have h2 := hnb.symm
            simp only [Bool.and_eq_true] at h2
            exact h2
          have hct2 : c2.cellType = CellType.code := by
            have h := hc2tag.1
            unfold is_code at h
            simpa using h
          have hsk : c.skiplines = 0 := by
            unfold adjOK at hadj
            rw [if_neg (by decide), if_pos rfl, if_neg (by decide)] at hadj
            simp only [Bool.and_eq_true, Bool.and_true, Bool.or_eq_true,
              Bool.not_eq_true', decide_eq_true_eq] at hadj
            rcases hadj.2 with h | h
            · rw [hiscode, hc2tag.1, hc2tag.2] at h
              simp at h
            · exact h
          have hbraceline : (chars "# + \x7b").isPrefixOf
              (pyRenderOpen d c2.language) = true := by
            obtain ⟨l2, hl2⟩ := Option.isSome_iff_exists.mp hc2tag.2
            obtain ⟨_, hlang2⟩ := hcode2 hc2tag.1
            rw [hl2] at hlang2 ⊢
            unfold langOK at hlang2
            simp only [Bool.and_eq_true, decide_eq_true_eq] at hlang2
            have hro : pyRenderOpen d (some l2) =
                chars "# + \x7b\"language\": \"" ++ l2 ++ chars "\"\x7d" := by
              simp only [pyRenderOpen]
              rw [if_pos hlang2.2]
            rw [hro, List.append_assoc]
            exact isPrefixOf_extend _ _ _ (by decide)
          have hrender : TextNotebookWriter.renderCellsLoop ".py" d
              (c :: c2 :: rest2) =
              (pyRenderOpen d c.language :: c.source) ++
                TextNotebookWriter.renderCellsLoop ".py" d (c2 :: rest2) := by
            rw [TextNotebookWriter.renderCellsLoop.eq_2]
            rw [cell_to_text_py_code d c hct]
            rw [if_pos ⟨rfl, hiscode,
              by rw [List.getLast?_concat], Or.inr hbrace⟩]
            rw [hdl, hsk]
            rw [if_neg (by simp)]
            simp
          have htailb : ∀ h ∈ (TextNotebookWriter.renderCellsLoop ".py" d
              (c2 :: rest2)).head?,
              (chars "# + \x7b").isPrefixOf h = true := by
            intro h hh
            rw [render_head_py_code d c2 rest2 hct2] at hh
            simp only [Option.mem_def, Option.some.injEq] at hh
            rw [← hh]
            exact hbraceline
          have hstep : text_to_cell ".py"
              ((pyRenderOpen d c.language :: c.source) ++
                TextNotebookWriter.renderCellsLoop ".py" d (c2 :: rest2)) =
              (c, (pyRenderOpen d c.language :: c.source).length) := by
            rw [List.cons_append]
            rw [step_py_code_elided d c _ hct hlines hlang htailb]
            simp only [Prod.mk.injEq]
            constructor
            · have hcmk : c = ⟨CellType.code, c.source, c.language, 0⟩ := by
                obtain ⟨ct, src2, lang2, sk2⟩ := c
                simp only at hct hsk ⊢
                rw [hct, hsk]
              exact hcmk.symm
            · show 1 + c.source.length = c.source.length + 1
              omega
          rw [hrender]
          rw [parseCellsLoop_exact (text_to_cell ".py") _ _ c
            (by simp) hstep]
          rw [hrtail]
          rfl
        · -- the end marker is kept
          have hrender : TextNotebookWriter.renderCellsLoop ".py" d
              (c :: c2 :: rest2) =
              (pyRenderOpen d c.language :: (c.source ++ ([chars "# -"] ++
                List.replicate c.skiplines []))) ++
                TextNotebookWriter.renderCellsLoop ".py" d (c2 :: rest2) := by
            rw [TextNotebookWriter.renderCellsLoop.eq_2]
            rw [cell_to_text_py_code d c hct]
            rw [if_neg (by
              intro hfalse
              rcases hfalse.2.2.2 with h | h
              · exact List.noConfusion h
              · exact hbrace h)]
            rw [if_neg (by simp)]
            simp
          have hstep : text_to_cell ".py"
              ((pyRenderOpen d c.language :: (c.source ++ ([chars "# -"] ++
                List.replicate c.skiplines []))) ++
                TextNotebookWriter.renderCellsLoop ".py" d (c2 :: rest2)) =
              (c, (pyRenderOpen d c.language :: (c.source ++ ([chars "# -"] ++
                List.replicate c.skiplines []))).length) := by
            have hshape : (pyRenderOpen d c.language :: (c.source ++
                ([chars "# -"] ++ List.replicate c.skiplines []))) ++
                TextNotebookWriter.renderCellsLoop ".py" d (c2 :: rest2) =
                pyRenderOpen d c.language :: (c.source ++ ([chars "# -"] ++
                  (List.replicate c.skiplines [] ++
                    TextNotebookWriter.renderCellsLoop ".py" d
                      (c2 :: rest2)))) := by
              simp
            rw [hshape]
            rw [step_py_code_closed d c _ hct hlines hlang hRne]
            simp only [Prod.mk.injEq]
            constructor
            · trivial
            · simp [List.length_append]
              omega
          rw [hrender]
          rw [parseCellsLoop_exact (text_to_cell ".py") _ _ c
            (by simp) hstep]
          rw [hrtail]
          rfl

/-- A plain `.R` code line is not markdown-escaped. -/
lemma mdR_false_of_plainR (l : Line) (h : plainR l = true) : mdR l = false := by
  unfold plainR at h
  unfold mdR
  simp only [Bool.and_eq_true, Bool.not_eq_true', decide_eq_true_eq] at h
  simp [h.1.1, h.1.2]

/-- A plain `.R` code line is nonempty. -/
lemma plainR_ne_nil (l : Line) (h : plainR l = true) : l ≠ [] := by
  unfold plainR at h
  simp only [Bool.and_eq_true, Bool.not_eq_true', decide_eq_true_eq] at h
  exact h.1.2

/-- Head of the rendered lines of a tagged `.R` code cell at the front of the
cell list. -/
lemma render_head_r_code_tagged (d : Line) (c' : Cell) (rest2 : List Cell)
    (hc : c'.cellType = CellType.code) (l : Line) (hl : c'.language = some l)
    (hld : l ≠ d) :
    (TextNotebookWriter.renderCellsLoop ".R" d (c' :: rest2)).head? =
      some (chars "#+ language=\"" ++ l ++ chars "\"") := by
  rw [TextNotebookWriter.renderCellsLoop.eq_2]
  rw [if_neg (by simp), if_neg (by simp)]
  simp only [cell_to_text_r_code d c' hc, hl]
  rw [if_pos hld]
  simp

/-- Head of the rendered lines of an untagged `.R` code cell at the front of
the cell list. -/
lemma render_head_r_code_untagged (d : Line) (c' : Cell) (rest2 : List Cell)
    (hc : c'.cellType = CellType.code) (hl : c'.language = none)
    (s0 : Line) (srest : List Line) (hs : c'.source = s0 :: srest) :
    (TextNotebookWriter.renderCellsLoop ".R" d (c' :: rest2)).head? =
      some s0 := by
  rw [TextNotebookWriter.renderCellsLoop.eq_2]
  rw [if_neg (by simp), if_neg (by simp)]
  simp only [cell_to_text_r_code d c' hc, hl, hs]
  simp

/-- Head of the rendered lines of an `.R` markdown cell at the front of the
cell list. -/
lemma render_head_r_md (d : Line) (c' : Cell) (rest2 : List Cell)
    (hc : c'.cellType = CellType.markdown) (s0 : Line) (srest : List Line)
    (hs : c'.source = s0 :: srest) :
    (TextNotebookWriter.renderCellsLoop ".R" d (c' :: rest2)).head? =
      some (escapeLine (chars "#'") s0) := by
  rw [TextNotebookWriter.renderCellsLoop.eq_2]
  rw [if_neg (by simp), if_neg (by simp)]
  simp only [cell_to_text_r_md d c' hc, hs]
  simp

/-- The `.R` render of a well-formed cell list parses back to exactly that
list. -/
lemma parse_render_r (d : Line) :
    ∀ cells, cellsOK ".R" d cells = true →
    TextNotebookReader.parseCellsLoop (text_to_cell ".R")
        (TextNotebookWriter.renderCellsLoop ".R" d cells) = Except.ok cells := by
  intro cells
  induction cells with
  | nil => intro _; rfl
  | cons c rest ih =>
    intro hok
    cases rest with
    | nil =>
      rw [cellsOK.eq_2] at hok
      simp only [Bool.and_eq_true] at hok
      obtain ⟨hcell, hlast⟩ := hok
      obtain ⟨hraw, hsrc, hcode, hmd⟩ := cellOK_dest ".R" d c hcell
      unfold lastOK at hlast
      simp only [Bool.and_eq_true, decide_eq_true_eq] at hlast
      have hsk : c.skiplines = 0 := hlast.1
      cases hct : c.cellType with
      | raw => exact absurd hct hraw
      | markdown =>
        have hismd : is_code c = false := by simp [is_code, hct]
        obtain ⟨hlines, hmdnone⟩ := hmd hismd
        have hrender : TextNotebookWriter.renderCellsLoop ".R" d [c] =
            c.source.map (escapeLine (chars "#'")) ++
              List.replicate c.skiplines [] := by
          rw [TextNotebookWriter.renderCellsLoop.eq_2]
          rw [if_neg (by simp), if_neg (by simp)]
          rw [cell_to_text_r_md d c hct]
          rw [TextNotebookWriter.renderCellsLoop.eq_1]
          simp
        rw [hrender]
        apply parseCellsLoop_total
        · simp [hsrc]
        · have hstep := step_r_md c [] hct hsrc (by simp)
          rw [List.append_nil] at hstep
          rw [hstep]
          simp only [Prod.mk.injEq]
          constructor
          · have hcmk : c =
                ⟨CellType.markdown, c.source, none, c.skiplines⟩ := by
              obtain ⟨ct, src2, lang2, sk2⟩ := c
              simp only at hct hmdnone ⊢
              rw [hct, hmdnone]
            exact hcmk.symm
          · simp
      | code =>
        have hiscode : is_code c = true := by simp [is_code, hct]
        obtain ⟨hlines, hlang⟩ := hcode hiscode
        cases hlc : c.language with
        | some l =>
          have hld : l ≠ d := by
            rw [hlc] at hlang
            unfold langOK at hlang
            simp only [Bool.and_eq_true, decide_eq_true_eq] at hlang
            exact hlang.2
          have hrender : TextNotebookWriter.renderCellsLoop ".R" d [c] =
              (chars "#+ language=\"" ++ l ++ chars "\"") :: c.source := by
            rw [TextNotebookWriter.renderCellsLoop.eq_2]
            rw [if_neg (by simp), if_neg (by simp)]
            simp only [cell_to_text_r_code d c hct, hlc]
            rw [if_pos hld, hsk]
            rw [TextNotebookWriter.renderCellsLoop.eq_1]
            simp
          rw [hrender]
          apply parseCellsLoop_total
          · simp
          · have hstep := step_r_code_tagged c l [] hct hlc hlines
              (by simp) (by simp)
            rw [hsk] at hstep
            simp only [List.replicate_zero, List.nil_append, List.append_nil,
              Nat.add_zero] at hstep
            rw [hstep]
            simp only [Prod.mk.injEq]
            refine ⟨trivial, ?_⟩
            show 1 + c.source.length = c.source.length + 1
            omega
        | none =>
          have hrender : TextNotebookWriter.renderCellsLoop ".R" d [c] =
              c.source := by
            rw [TextNotebookWriter.renderCellsLoop.eq_2]
            rw [if_neg (by simp), if_neg (by simp)]
            simp only [cell_to_text_r_code d c hct, hlc]
            rw [hsk]
            rw [TextNotebookWriter.renderCellsLoop.eq_1]
            simp
          rw [hrender]
          apply parseCellsLoop_total
          · exact hsrc
          · have hstep := step_r_code_untagged c [] hct hlc hsrc hlines
              (by simp) (by simp)
            rw [hsk] at hstep
            simp only [List.replicate_zero, List.nil_append, List.append_nil,
              Nat.add_zero] at hstep
            rw [hstep]
    | cons c2 rest2 =>
      rw [cellsOK.eq_3] at hok
      simp only [Bool.and_eq_true] at hok
      obtain ⟨⟨hcell, hadj⟩, hok2⟩ := hok
      obtain ⟨hraw, hsrc, hcode, hmd⟩ := cellOK_dest ".R" d c hcell
      have hcell2 : cellOK ".R" d c2 = true := cellsOK_head ".R" d hok2
      obtain ⟨hraw2, hsrc2, hcode2, hmd2⟩ := cellOK_dest ".R" d c2 hcell2
      have hrtail := ih hok2
      cases hct : c.cellType with
      | raw => exact absurd hct hraw
      | markdown =>
        have hismd : is_code c = false := by simp [is_code, hct]
        obtain ⟨hlines, hmdnone⟩ := hmd hismd
        have hct2 : c2.cellType = CellType.code := by
          cases hct2 : c2.cellType with
          | raw => exact absurd hct2 hraw2
          | code => rfl
          | markdown =>
            exfalso
            unfold adjOK at hadj
            rw [if_neg (by decide)] at hadj
            simp [is_code, hct, hct2] at hadj
        have hc2code : is_code c2 = true := by simp [is_code, hct2]
        obtain ⟨hlines2, hlang2⟩ := hcode2 hc2code
        have htail : ∀ h ∈ (TextNotebookWriter.renderCellsLoop ".R" d
            (c2 :: rest2)).head?, mdR h = false := by
          intro h hh
          cases hl2 : c2.language with
          | some l2 =>
            have hld2 : l2 ≠ d := by
              rw [hl2] at hlang2
              unfold langOK at hlang2
              simp only [Bool.and_eq_true, decide_eq_true_eq] at hlang2
              exact hlang2.2
            rw [render_head_r_code_tagged d c2 rest2 hct2 l2 hl2 hld2] at hh
            simp only [Option.mem_def, Option.some.injEq] at hh
            rw [← hh]
            exact (r_open_ne l2).2.1
          | none =>
            cases hs2 : c2.source with
            | nil => exact absurd hs2 hsrc2
            | cons s0 srest =>
              rw [render_head_r_code_untagged d c2 rest2 hct2 hl2
                s0 srest hs2] at hh
              simp only [Option.mem_def, Option.some.injEq] at hh
              rw [← hh]
              exact mdR_false_of_plainR s0
                (plainR_of_codeLineOK s0 (hlines2 s0 (by rw [hs2]; simp)))
        have hrender : TextNotebookWriter.renderCellsLoop ".R" d
            (c :: c2 :: rest2) =
            (c.source.map (escapeLine (chars "#'")) ++
              List.replicate c.skiplines []) ++
              TextNotebookWriter.renderCellsLoop ".R" d (c2 :: rest2) := by
          rw [TextNotebookWriter.renderCellsLoop.eq_2]
          rw [if_neg (by simp), if_neg (by simp)]
          rw [cell_to_text_r_md d c hct]
          simp
        have hstep : text_to_cell ".R"
            ((c.source.map (escapeLine (chars "#'")) ++
              List.replicate c.skiplines []) ++
              TextNotebookWriter.renderCellsLoop ".R" d (c2 :: rest2)) =
            (c, (c.source.map (escapeLine (chars "#'")) ++
              List.replicate c.skiplines []).length) := by
          rw [List.append_assoc]
          rw [step_r_md c _ hct hsrc htail]
          simp only [Prod.mk.injEq]
          constructor
          · have hcmk : c =
                ⟨CellType.markdown, c.source, none, c.skiplines⟩ := by
              obtain ⟨ct, src2, lang2, sk2⟩ := c
              simp only at hct hmdnone ⊢
              rw [hct, hmdnone]
            exact hcmk.symm
          · simp
        rw [hrender]
        rw [parseCellsLoop_exact (text_to_cell ".R") _ _ c
          (by simp [hsrc]) hstep]
        rw [hrtail]
        rfl
      | code =>
        have hiscode : is_code c = true := by simp [is_code, hct]
        obtain ⟨hlines, hlang⟩ := hcode hiscode
        have hsep : is_code c2 = true → c2.language = none →
            1 ≤ c.skiplines := by
          intro h1 h2
          unfold adjOK at hadj
          rw [if_neg (by decide), if_neg (by decide), if_pos rfl] at hadj
          simp only [Bool.and_eq_true, Bool.and_true, Bool.or_eq_true,
            Bool.not_eq_true', decide_eq_true_eq] at hadj
          rcases hadj.2 with h | h
          · rw [hiscode, h1, h2] at h
            simp at h
          · exact h
        have htail2 : ∀ h ∈ (TextNotebookWriter.renderCellsLoop ".R" d
            (c2 :: rest2)).head?, h ≠ [] := by
          intro h hh
          cases hct2 : c2.cellType with
          | raw => exact absurd hct2 hraw2
          | code =>
            have hc2code : is_code c2 = true := by simp [is_code, hct2]
            obtain ⟨hlines2, hlang2⟩ := hcode2 hc2code
            cases hl2 : c2.language with
            | some l2 =>
              have hld2 : l2 ≠ d := by
                rw [hl2] at hlang2
                unfold langOK at hlang2
                simp only [Bool.and_eq_true, decide_eq_true_eq] at hlang2
                exact hlang2.2
              rw [render_head_r_code_tagged d c2 rest2 hct2 l2 hl2 hld2] at hh
              simp only [Option.mem_def, Option.some.injEq] at hh
              rw [← hh]
              exact (r_open_ne l2).1
            | none =>
              cases hs2 : c2.source with
              | nil => exact absurd hs2 hsrc2
              | cons s0 srest =>
                rw [render_head_r_code_untagged d c2 rest2 hct2 hl2
                  s0 srest hs2] at hh
                simp only [Option.mem_def, Option.some.injEq] at hh
                rw [← hh]
                exact plainR_ne_nil s0
                  (plainR_of_codeLineOK s0 (hlines2 s0 (by rw [hs2]; simp)))
          | markdown =>
            cases hs2 : c2.source with
            | nil => exact absurd hs2 hsrc2
            | cons s0 srest =>
              rw [render_head_r_md d c2 rest2 hct2 s0 srest hs2] at hh
              simp only [Option.mem_def, Option.some.injEq] at hh
              rw [← hh]
              exact escapeLine_ne_nil _ (by decide) s0
        have htail1 : c.skiplines = 0 →
            ∀ h ∈ (TextNotebookWriter.renderCellsLoop ".R" d
              (c2 :: rest2)).head?, plainR h = false := by
          intro hsk0 h hh
          cases hct2 : c2.cellType with
          | raw => exact absurd hct2 hraw2
          | code =>
            have hc2code : is_code c2 = true := by simp [is_code, hct2]
            obtain ⟨hlines2, hlang2⟩ := hcode2 hc2code
            cases hl2 : c2.language with
            | some l2 =>
              have hld2 : l2 ≠ d := by
                rw [hl2] at hlang2
                unfold langOK at hlang2
                simp only [Bool.and_eq_true, decide_eq_true_eq] at hlang2
                exact hlang2.2
              rw [render_head_r_code_tagged d c2 rest2 hct2 l2 hl2 hld2] at hh
              simp only [Option.mem_def, Option.some.injEq] at hh
              rw [← hh]
              exact (r_open_ne l2).2.2
            | none =>
              exact absurd (hsep hc2code hl2) (by omega)
          | markdown =>
            cases hs2 : c2.source with
            | nil => exact absurd hs2 hsrc2
            | cons s0 srest =>
              rw [render_head_r_md d c2 rest2 hct2 s0 srest hs2] at hh
              simp only [Option.mem_def, Option.some.injEq] at hh
              rw [← hh]
              exact (escape_r_not_code s0).2
        cases hlc : c.language with
        | some l =>
          have hld : l ≠ d := by
            rw [hlc] at hlang
            unfold langOK at hlang
            simp only [Bool.and_eq_true, decide_eq_true_eq] at hlang
            exact hlang.2
          have hrender : TextNotebookWriter.renderCellsLoop ".R" d
              (c :: c2 :: rest2) =
              ((chars "#+ language=\"" ++ l ++ chars "\"") ::
                (c.source ++ List.replicate c.skiplines [])) ++
                TextNotebookWriter.renderCellsLoop ".R" d (c2 :: rest2) := by
            rw [TextNotebookWriter.renderCellsLoop.eq_2]
            rw [if_neg (by simp), if_neg (by simp)]
            simp only [cell_to_text_r_code d c hct, hlc]
            rw [if_pos hld]
            simp
          have hstep : text_to_cell ".R"
              (((chars "#+ language=\"" ++ l ++ chars "\"") ::
                (c.source ++ List.replicate c.skiplines [])) ++
                TextNotebookWriter.renderCellsLoop ".R" d (c2 :: rest2)) =
              (c, ((chars "#+ language=\"" ++ l ++ chars "\"") ::
                (c.source ++ List.replicate c.skiplines [])).length) := by
            have hshape : ((chars "#+ language=\"" ++ l ++ chars "\"") ::
                (c.source ++ List.replicate c.skiplines [])) ++
                TextNotebookWriter.renderCellsLoop ".R" d (c2 :: rest2) =
                (chars "#+ language=\"" ++ l ++ chars "\"") ::
                  (c.source ++ (List.replicate c.skiplines [] ++
                    TextNotebookWriter.renderCellsLoop ".R" d
                      (c2 :: rest2))) := by
              simp
            rw [hshape]
            rw [step_r_code_tagged c l _ hct hlc hlines htail1 htail2]
            simp only [Prod.mk.injEq]
            constructor
            · trivial
            · simp [List.length_append]
              omega
          rw [hrender]
          rw [parseCellsLoop_exact (text_to_cell ".R") _ _ c
            (by simp) hstep]
          rw [hrtail]
          rfl
        | none =>
          have hrender : TextNotebookWriter.renderCellsLoop ".R" d
              (c :: c2 :: rest2) =
              (c.source ++ List.replicate c.skiplines []) ++
                TextNotebookWriter.renderCellsLoop ".R" d (c2 :: rest2) := by
            rw [TextNotebookWriter.renderCellsLoop.eq_2]
            rw [if_neg (by simp), if_neg (by simp)]
            simp only [cell_to_text_r_code d c hct, hlc]
            simp
          have hstep : text_to_cell ".R"
              ((c.source ++ List.replicate c.skiplines []) ++
                TextNotebookWriter.renderCellsLoop ".R" d (c2 :: rest2)) =
              (c, (c.source ++ List.replicate c.skiplines []).length) := by
            rw [List.append_assoc]
            rw [step_r_code_untagged c _ hct hlc hsrc hlines htail1 htail2]
            simp only [Prod.mk.injEq]
            constructor
            · trivial
            · simp [List.length_append]
          rw [hrender]
          rw [parseCellsLoop_exact (text_to_cell ".R") _ _ c
            (by simp [hsrc]) hstep]
          rw [hrtail]
          rfl

/-- `rmdTag` on a code cell makes the fence language explicit. -/
lemma rmdTag_code (d : Line) (c : Cell) (hc : c.cellType = CellType.code) :
    rmdTag d c =
      ⟨CellType.code, c.source, some (c.language.getD d), c.skiplines⟩ := by
  obtain ⟨ct, src, lang, sk⟩ := c
  simp only at hc
  subst hc
  rfl

/-- `rmdTag` leaves markdown cells unchanged. -/
lemma rmdTag_md (d : Line) (c : Cell) (hc : c.cellType = CellType.markdown) :
    rmdTag d c = c := by
  obtain ⟨ct, src, lang, sk⟩ := c
  simp only at hc
  subst hc
  rfl

/-- An expressible `.Rmd` markdown line is nonempty and does not open a
chunk. -/
lemma mdLineOK_rmd (l : Line) (h : mdLineOK ".Rmd" l = true) :
    l ≠ [] ∧ start_code_rmd l = false := by
  unfold mdLineOK at h
  simp only [Bool.and_eq_true] at h
  have h2 := h.2
  norm_num at h2
  exact h2

/-- Head of the rendered lines of an `.Rmd` code cell at the front of the
cell list. -/
lemma render_head_rmd_code (d : Line) (c' : Cell) (rest2 : List Cell)
    (hc : c'.cellType = CellType.code) :
    (TextNotebookWriter.renderCellsLoop ".Rmd" d (c' :: rest2)).head? =
      some (chars "```\x7b" ++ c'.language.getD d ++ chars "\x7d") := by
  rw [TextNotebookWriter.renderCellsLoop.eq_2]
  rw [if_neg (by simp), if_neg (by simp [is_code, hc])]
  rw [cell_to_text_rmd_code d c' hc]
  simp

/-- Head of the rendered lines of an `.Rmd` markdown cell at the front of
the cell list. -/
lemma render_head_rmd_md (d : Line) (c' : Cell) (rest2 : List Cell)
    (hc : c'.cellType = CellType.markdown) (s0 : Line) (srest : List Line)
    (hs : c'.source = s0 :: srest) :
    (TextNotebookWriter.renderCellsLoop ".Rmd" d (c' :: rest2)).head? =
      some s0 := by
  rw [TextNotebookWriter.renderCellsLoop.eq_2]
  rw [if_neg (by simp)]
  rw [cell_to_text_rmd_md d c' hc, hs]
  split_ifs <;> simp

/-- The `.Rmd` render of a well-formed cell list parses back to the same
cells with every code cell carrying its fence language explicitly. -/
lemma parse_render_rmd (d : Line) :
    ∀ cells, cellsOK ".Rmd" d cells = true →
    TextNotebookReader.parseCellsLoop (text_to_cell ".Rmd")
        (TextNotebookWriter.renderCellsLoop ".Rmd" d cells) =
      Except.ok (cells.map (rmdTag d)) := by
  intro cells
  induction cells with
  | nil => intro _; rfl
  | cons c rest ih =>
    intro hok
    cases rest with
    | nil =>
      rw [cellsOK.eq_2] at hok
      simp only [Bool.and_eq_true] at hok
      obtain ⟨hcell, hlast⟩ := hok
      obtain ⟨hraw, hsrc, hcode, hmd⟩ := cellOK_dest ".Rmd" d c hcell
      unfold lastOK at hlast
      simp only [Bool.and_eq_true, decide_eq_true_eq] at hlast
      have hsk : c.skiplines = 0 := hlast.1
      cases hct : c.cellType with
      | raw => exact absurd hct hraw
      | markdown =>
        have hismd : is_code c = false := by simp [is_code, hct]
        obtain ⟨hlines, hmdnone⟩ := hmd hismd
        have hrender : TextNotebookWriter.renderCellsLoop ".Rmd" d [c] =
            c.source ++ List.replicate c.skiplines [] := by
          rw [TextNotebookWriter.renderCellsLoop.eq_2]
          rw [if_neg (by simp)]
          rw [cell_to_text_rmd_md d c hct]
          rw [if_neg (by simp)]
          rw [TextNotebookWriter.renderCellsLoop.eq_1]
          simp
        rw [hrender]
        refine (parseCellsLoop_total _ _ (rmdTag d c)
          (by simp [hsrc]) ?_).trans rfl
        rw [rmdTag_md d c hct]
        have hstep := step_rmd_md_code c [] hct hsrc hlines (by simp)
        rw [List.append_nil] at hstep
        rw [hstep]
        simp only [Prod.mk.injEq]
        constructor
        · have hcmk : c =
              ⟨CellType.markdown, c.source, none, c.skiplines⟩ := by
            obtain ⟨ct, src2, lang2, sk2⟩ := c
            simp only at hct hmdnone ⊢
            rw [hct, hmdnone]
          exact hcmk.symm
        · simp
      | code =>
        have hiscode : is_code c = true := by simp [is_code, hct]
        obtain ⟨hlines, hlang⟩ := hcode hiscode
        have hrender : TextNotebookWriter.renderCellsLoop ".Rmd" d [c] =
            (chars "```\x7b" ++ c.language.getD d ++ chars "\x7d") ::
              (c.source ++ [chars "```"]) := by
          rw [TextNotebookWriter.renderCellsLoop.eq_2]
          rw [if_neg (by simp), if_neg (by simp [is_code, hct])]
          rw [cell_to_text_rmd_code d c hct]
          rw [hsk]
          rw [TextNotebookWriter.renderCellsLoop.eq_1]
          simp
        rw [hrender]
        refine (parseCellsLoop_total _ _ (rmdTag d c)
          (by simp) ?_).trans rfl
        rw [rmdTag_code d c hct, hsk]
        have hstep := step_rmd_code d c [] hct hlines (by simp)
        rw [hsk] at hstep
        simp only [List.replicate_zero, List.append_nil, Nat.add_zero] at hstep
        rw [hstep]
        simp only [Prod.mk.injEq]
        constructor
        · trivial
        · simp [List.length_append]
          omega
    | cons c2 rest2 =>
      rw [cellsOK.eq_3] at hok
      simp only [Bool.and_eq_true] at hok
      obtain ⟨⟨hcell, hadj⟩, hok2⟩ := hok
      obtain ⟨hraw, hsrc, hcode, hmd⟩ := cellOK_dest ".Rmd" d c hcell
      have hcell2 : cellOK ".Rmd" d c2 = true := cellsOK_head ".Rmd" d hok2
      obtain ⟨hraw2, hsrc2, hcode2, hmd2⟩ := cellOK_dest ".Rmd" d c2 hcell2
      have hrtail := ih hok2
      cases hct : c.cellType with
      | raw => exact absurd hct hraw
      | code =>
        have hiscode : is_code c = true := by simp [is_code, hct]
        obtain ⟨hlines, hlang⟩ := hcode hiscode
        have htail : ∀ h ∈ (TextNotebookWriter.renderCellsLoop ".Rmd" d
            (c2 :: rest2)).head?, h ≠ [] := by
          intro h hh
          cases hct2 : c2.cellType with
          | raw => exact absurd hct2 hraw2
          | code =>
            rw [render_head_rmd_code d c2 rest2 hct2] at hh
            simp only [Option.mem_def, Option.some.injEq] at hh
            rw [← hh]
            exact (rmd_open_ne (c2.language.getD d)).1
          | markdown =>
            cases hs2 : c2.source with
            | nil => exact absurd hs2 hsrc2
            | cons s0 srest =>
              rw [render_head_rmd_md d c2 rest2 hct2 s0 srest hs2] at hh
              simp only [Option.mem_def, Option.some.injEq] at hh
              rw [← hh]
              exact (mdLineOK_rmd s0 ((hmd2 (by simp [is_code, hct2])).1
                s0 (by rw [hs2]; simp))).1
        have hrender : TextNotebookWriter.renderCellsLoop ".Rmd" d
            (c :: c2 :: rest2) =
            ((chars "```\x7b" ++ c.language.getD d ++ chars "\x7d") ::
              (c.source ++ (chars "```" :: List.replicate c.skiplines []))) ++
              TextNotebookWriter.renderCellsLoop ".Rmd" d (c2 :: rest2) := by
          rw [TextNotebookWriter.renderCellsLoop.eq_2]
          rw [if_neg (by simp), if_neg (by simp [is_code, hct])]
          rw [cell_to_text_rmd_code d c hct]
          simp
        have hstep : text_to_cell ".Rmd"
            (((chars "```\x7b" ++ c.language.getD d ++ chars "\x7d") ::
              (c.source ++ (chars "```" :: List.replicate c.skiplines []))) ++
              TextNotebookWriter.renderCellsLoop ".Rmd" d (c2 :: rest2)) =
            (rmdTag d c,
              ((chars "```\x7b" ++ c.language.getD d ++ chars "\x7d") ::
              (c.source ++ (chars "```" ::
                List.replicate c.skiplines []))).length) := by
          have hshape : ((chars "```\x7b" ++ c.language.getD d ++ chars "\x7d") ::
              (c.source ++ (chars "```" :: List.replicate c.skiplines []))) ++
              TextNotebookWriter.renderCellsLoop ".Rmd" d (c2 :: rest2) =
              (chars "```\x7b" ++ c.language.getD d ++ chars "\x7d") ::
                (c.source ++ (chars "```" :: (List.replicate c.skiplines [] ++
                  TextNotebookWriter.renderCellsLoop ".Rmd" d
                    (c2 :: rest2)))) := by
            simp
          rw [hshape]
          rw [step_rmd_code d c _ hct hlines htail]
          rw [rmdTag_code d c hct]
          simp only [Prod.mk.injEq]
          constructor
          · trivial
          · simp [List.length_append]
            omega
        rw [hrender]
        rw [parseCellsLoop_exact (text_to_cell ".Rmd") _ _ (rmdTag d c)
          (by simp) hstep]
        rw [hrtail]
        rfl
      | markdown =>
        have hismd : is_code c = false := by simp [is_code, hct]
        obtain ⟨hlines, hmdnone⟩ := hmd hismd
        have hcmk : c = ⟨CellType.markdown, c.source, none, c.skiplines⟩ := by
          obtain ⟨ct, src2, lang2, sk2⟩ := c
          simp only at hct hmdnone ⊢
          rw [hct, hmdnone]
        cases hct2 : c2.cellType with
        | raw => exact absurd hct2 hraw2
        | code =>
          have hrender : TextNotebookWriter.renderCellsLoop ".Rmd" d
              (c :: c2 :: rest2) =
              (c.source ++ List.replicate c.skiplines []) ++
                TextNotebookWriter.renderCellsLoop ".Rmd" d (c2 :: rest2) := by
            rw [TextNotebookWriter.renderCellsLoop.eq_2]
            rw [if_neg (by simp)]
            rw [cell_to_text_rmd_md d c hct]
            rw [if_neg (by simp [is_code, hct2])]
            simp
          have htail : ∀ h ∈ (TextNotebookWriter.renderCellsLoop ".Rmd" d
              (c2 :: rest2)).head?, start_code_rmd h = true := by
            intro h hh
            rw [render_head_rmd_code d c2 rest2 hct2] at hh
            simp only [Option.mem_def, Option.some.injEq] at hh
            rw [← hh]
            exact start_code_rmd_open (c2.language.getD d)
          have hstep : text_to_cell ".Rmd"
              ((c.source ++ List.replicate c.skiplines []) ++
                TextNotebookWriter.renderCellsLoop ".Rmd" d (c2 :: rest2)) =
              (rmdTag d c,
                (c.source ++ List.replicate c.skiplines []).length) := by
            rw [List.append_assoc]
            rw [step_rmd_md_code c _ hct hsrc hlines htail]
            rw [rmdTag_md d c hct]
            simp only [Prod.mk.injEq]
            constructor
            · exact hcmk.symm
            · simp
          rw [hrender]
          rw [parseCellsLoop_exact (text_to_cell ".Rmd") _ _ (rmdTag d c)
            (by simp [hsrc]) hstep]
          rw [hrtail]
          rfl
        | markdown =>
          obtain ⟨hlines2, _⟩ := hmd2 (by simp [is_code, hct2])
          cases hs2 : c2.source with
          | nil => exact absurd hs2 hsrc2
          | cons s0 srest =>
            have hmdline2 := mdLineOK_rmd s0 (hlines2 s0 (by rw [hs2]; simp))
            have hrender : TextNotebookWriter.renderCellsLoop ".Rmd" d
                (c :: c2 :: rest2) =
                (c.source ++ List.replicate (c.skiplines + 1) []) ++
                  TextNotebookWriter.renderCellsLoop ".Rmd" d
                    (c2 :: rest2) := by
              rw [TextNotebookWriter.renderCellsLoop.eq_2]
              rw [if_neg (by simp)]
              rw [cell_to_text_rmd_md d c hct]
              rw [if_pos ⟨rfl, by simp [is_code, hct],
                by simp [is_code, hct2]⟩]
              rw [List.replicate_succ']
              simp
            have hth : (TextNotebookWriter.renderCellsLoop ".Rmd" d
                (c2 :: rest2)).head? = some s0 :=
              render_head_rmd_md d c2 rest2 hct2 s0 srest hs2
            have hstep : text_to_cell ".Rmd"
                ((c.source ++ List.replicate (c.skiplines + 1) []) ++
                  TextNotebookWriter.renderCellsLoop ".Rmd" d
                    (c2 :: rest2)) =
                (rmdTag d c, (c.source ++
                  List.replicate (c.skiplines + 1) []).length) := by
              rw [List.append_assoc]
              rw [step_rmd_md_md c _ s0 hct hsrc hlines hth
                hmdline2.2 hmdline2.1]
              rw [rmdTag_md d c hct]
              simp only [Prod.mk.injEq]
              constructor
              · exact hcmk.symm
              · simp
            rw [hrender]
            rw [parseCellsLoop_exact (text_to_cell ".Rmd") _ _ (rmdTag d c)
              (by simp [hsrc]) hstep]
            rw [hrtail]
            rfl

/-! ## Well-formedness of the rendered lines -/

/-- Every rendered line comes from some cell's text or is a separator
blank. -/
lemma renderCellsLoop_mem (ext : String) (d : Line) :
    ∀ cells, ∀ l ∈ TextNotebookWriter.renderCellsLoop ext d cells,
      (∃ c ∈ cells, l ∈ cell_to_text ext d c) ∨ l = [] := by
  intro cells
  induction cells with
  | nil =>
    intro l hl
    rw [TextNotebookWriter.renderCellsLoop.eq_1] at hl
    exact absurd hl (by simp)
  | cons c rest ih =>
    intro l hl
    rw [TextNotebookWriter.renderCellsLoop.eq_2] at hl
    rcases List.mem_append.mp hl with h1 | h2
    · rcases List.mem_append.mp h1 with h3 | h4
      · rcases List.mem_append.mp h3 with h5 | h6
        · left
          refine ⟨c, by simp, ?_⟩
          split at h5
          · exact List.dropLast_subset _ h5
          · exact h5
        · right
          exact List.eq_of_mem_replicate h6
      · right
        split at h4
        · simpa using h4
        · exact absurd h4 (by simp)
    · rcases ih l h2 with ⟨c', hc', hl'⟩ | hblank
      · exact Or.inl ⟨c', by simp [hc'], hl'⟩
      · exact Or.inr hblank

/-- The rendered `.py` opening marker is newline-free. -/
lemma noNL_pyRenderOpen (d : Line) (lang : Option Line)
    (h : langOK d lang = true) : noNL (pyRenderOpen d lang) = true := by
  cases lang with
  | none => rfl
  | some l =>
    unfold langOK at h
    simp only [Bool.and_eq_true] at h
    have hnl := h.1.2
    show noNL (if l ≠ d then _ else _) = true
    by_cases hld : l ≠ d
    · rw [if_pos hld]
      have h1 : noNL (chars "# + \x7b\"language\": \"") = true := by decide
      have h2 : noNL (chars "\"\x7d") = true := by decide
      simp [noNL_append, h1, h2, hnl]
    · rw [if_neg hld]
      decide

/-- The rendered `.R` options marker is newline-free. -/
lemma noNL_rOpen (l : Line) (h : noNL l = true) :
    noNL (chars "#+ language=\"" ++ l ++ chars "\"") = true := by
  have h1 : noNL (chars "#+ language=\"") = true := by decide
  have h2 : noNL (chars "\"") = true := by decide
  simp [noNL_append, h1, h2, h]

/-- The rendered `.Rmd` fence is newline-free. -/
lemma noNL_rmdOpen (d : Line) (lang : Option Line) (hd : noNL d = true)
    (h : langOK d lang = true) :
    noNL (chars "```\x7b" ++ lang.getD d ++ chars "\x7d") = true := by
  have h1 : noNL (chars "```\x7b") = true := by decide
  have h2 : noNL (chars "\x7d") = true := by decide
  cases lang with
  | none => simp [noNL_append, h1, h2, hd]
  | some l =>
    unfold langOK at h
    simp only [Bool.and_eq_true] at h
    simp [noNL_append, h1, h2, h.1.2]

/-- Every line of an expressible `.py` cell's text is newline-free. -/
lemma cell_to_text_noNL_py (d : Line) (c : Cell) (h : cellOK ".py" d c = true) :
    ∀ l ∈ cell_to_text ".py" d c, noNL l = true := by
  obtain ⟨hraw, hsrc, hcode, hmd⟩ := cellOK_dest ".py" d c h
  intro l hl
  cases hct : c.cellType with
  | raw => exact absurd hct hraw
  | code =>
    obtain ⟨hlines, hlang⟩ := hcode (by simp [is_code, hct])
    rw [cell_to_text_py_code d c hct] at hl
    rcases List.mem_cons.mp hl with h1 | h2
    · rw [h1]
      exact noNL_pyRenderOpen d c.language hlang
    · rcases List.mem_append.mp h2 with h3 | h4
      · have := hlines l h3
        unfold codeLineOK at this
        simp only [Bool.and_eq_true] at this
        exact this.1
      · have : l = chars "# -" := by simpa using h4
        rw [this]
        decide
  | markdown =>
    obtain ⟨hlines, _⟩ := hmd (by simp [is_code, hct])
    rw [cell_to_text_py_md d c hct] at hl
    obtain ⟨x, hx, hxl⟩ := List.mem_map.mp hl
    rw [← hxl]
    have := hlines x hx
    unfold mdLineOK at this
    simp only [Bool.and_eq_true] at this
    exact noNL_escapeLine _ _ (by decide) this.1.1

/-- Every line of an expressible `.R` cell's text is newline-free. -/
lemma cell_to_text_noNL_r (d : Line) (c : Cell) (h : cellOK ".R" d c = true) :
    ∀ l ∈ cell_to_text ".R" d c, noNL l = true := by
  obtain ⟨hraw, hsrc, hcode, hmd⟩ := cellOK_dest ".R" d c h
  intro l hl
  cases hct : c.cellType with
  | raw => exact absurd hct hraw
  | code =>
    obtain ⟨hlines, hlang⟩ := hcode (by simp [is_code, hct])
    rw [cell_to_text_r_code d c hct] at hl
    have hsrcnl : l ∈ c.source → noNL l = true := by
      intro h3
      have := hlines l h3
      unfold codeLineOK at this
      simp only [Bool.and_eq_true] at this
      exact this.1
    cases hlc : c.language with
    | none =>
      rw [hlc] at hl
      simp only [List.nil_append] at hl
      exact hsrcnl hl
    | some lg =>
      rw [hlc] at hl hlang
      unfold langOK at hlang
      simp only [Bool.and_eq_true] at hlang
      have hl2 : l ∈ (if lg ≠ d
          then [chars "#+ language=\"" ++ lg ++ chars "\""] else []) ++
          c.source := hl
      by_cases hld : lg ≠ d
      · rw [if_pos hld] at hl2
        rcases List.mem_append.mp hl2 with h3 | h4
        · have : l = chars "#+ language=\"" ++ lg ++ chars "\"" := by
            simpa using h3
          rw [this]
          exact noNL_rOpen lg hlang.1.2
        · exact hsrcnl h4
      · rw [if_neg hld] at hl2
        simp only [List.nil_append] at hl2
        exact hsrcnl hl2
  | markdown =>
    obtain ⟨hlines, _⟩ := hmd (by simp [is_code, hct])
    rw [cell_to_text_r_md d c hct] at hl
    obtain ⟨x, hx, hxl⟩ := List.mem_map.mp hl
    rw [← hxl]
    have := hlines x hx
    unfold mdLineOK at this
    simp only [Bool.and_eq_true] at this
    exact noNL_escapeLine _ _ (by decide) this.1.1

/-- Every line of an expressible `.Rmd` cell's text is newline-free. -/
lemma cell_to_text_noNL_rmd (d : Line) (hd : noNL d = true) (c : Cell)
    (h : cellOK ".Rmd" d c = true) :
    ∀ l ∈ cell_to_text ".Rmd" d c, noNL l = true := by
  obtain ⟨hraw, hsrc, hcode, hmd⟩ := cellOK_dest ".Rmd" d c h
  intro l hl
  cases hct : c.cellType with
  | raw => exact absurd hct hraw
  | code =>
    obtain ⟨hlines, hlang⟩ := hcode (by simp [is_code, hct])
    rw [cell_to_text_rmd_code d c hct] at hl
    rcases List.mem_cons.mp hl with h1 | h2
    · rw [h1]
      exact noNL_rmdOpen d c.language hd hlang
    · rcases List.mem_append.mp h2 with h3 | h4
      · have := hlines l h3
        unfold codeLineOK at this
        simp only [Bool.and_eq_true] at this
        exact this.1
      · have : l = chars "```" := by simpa using h4
        rw [this]
        decide
  | markdown =>
    obtain ⟨hlines, _⟩ := hmd (by simp [is_code, hct])
    rw [cell_to_text_rmd_md d c hct] at hl
    have := hlines l hl
    unfold mdLineOK at this
    simp only [Bool.and_eq_true] at this
    exact this.1.1

/-- `getLast?` commutes with `map`. -/
lemma getLast?_map {α β : Type} (f : α → β) (l : List α) :
    (l.map f).getLast? = l.getLast?.map f := by
  induction l with
  | nil => rfl
  | cons a t ih =>
    cases t with
    | nil => rfl
    | cons b t2 =>
      rw [List.map_cons, List.map_cons, List.getLast?_cons_cons,
        List.getLast?_cons_cons, ← List.map_cons]
      exact ih

/-- The final rendered line over a whole cell list is the final line of the
last cell's rendering: reduction to the singleton case. -/
lemma render_getLast_aux (ext : String) (d : Line)
    (h : ∀ c, cellOK ext d c = true → lastOK ext c = true →
      (TextNotebookWriter.renderCellsLoop ext d [c]).getLast? ≠ some [] ∧
      TextNotebookWriter.renderCellsLoop ext d [c] ≠ []) :
    ∀ cells, cellsOK ext d cells = true →
      (TextNotebookWriter.renderCellsLoop ext d cells).getLast? ≠ some [] ∧
      (cells ≠ [] → TextNotebookWriter.renderCellsLoop ext d cells ≠ []) := by
  intro cells
  induction cells with
  | nil =>
    intro _
    refine ⟨?_, fun hc => absurd rfl hc⟩
    rw [TextNotebookWriter.renderCellsLoop.eq_1]
    simp
  | cons c rest ih =>
    intro hok
    cases rest with
    | nil =>
      rw [cellsOK.eq_2] at hok
      simp only [Bool.and_eq_true] at hok
      exact ⟨(h c hok.1 hok.2).1, fun _ => (h c hok.1 hok.2).2⟩
    | cons c2 rest2 =>
      rw [cellsOK.eq_3] at hok
      simp only [Bool.and_eq_true] at hok
      have ihr := ih hok.2
      have hRne : TextNotebookWriter.renderCellsLoop ext d (c2 :: rest2) ≠ [] :=
        ihr.2 (by simp)
      constructor
      · rw [TextNotebookWriter.renderCellsLoop.eq_2]
        rw [List.getLast?_append_of_ne_nil _ hRne]
        exact ihr.1
      · intro _
        rw [TextNotebookWriter.renderCellsLoop.eq_2]
        intro hfalse
        rw [List.append_eq_nil] at hfalse
        exact hRne hfalse.2

/-- Last-line facts for a final `.py` cell. -/
lemma render_single_py (d : Line) (c : Cell) (hc : cellOK ".py" d c = true)
    (hl : lastOK ".py" c = true) :
    (TextNotebookWriter.renderCellsLoop ".py" d [c]).getLast? ≠ some [] ∧
    TextNotebookWriter.renderCellsLoop ".py" d [c] ≠ [] := by
  obtain ⟨hraw, hsrc, hcode, hmd⟩ := cellOK_dest ".py" d c hc
  unfold lastOK at hl
  simp only [Bool.and_eq_true, decide_eq_true_eq] at hl
  have hsk : c.skiplines = 0 := hl.1
  cases hct : c.cellType with
  | raw => exact absurd hct hraw
  | markdown =>
    have hismd : is_code c = false := by simp [is_code, hct]
    have hrender : TextNotebookWriter.renderCellsLoop ".py" d [c] =
        c.source.map (escapeLine (chars "#")) := by
      rw [TextNotebookWriter.renderCellsLoop.eq_2]
      rw [cell_to_text_py_md d c hct]
      rw [if_neg (by simp [hismd])]
      rw [if_neg (by simp)]
      rw [TextNotebookWriter.renderCellsLoop.eq_1, hsk]
      simp
    constructor
    · rw [hrender, getLast?_map]
      cases hgl : c.source.getLast? with
      | none => simp
      | some x =>
        intro hfalse
        have hx : escapeLine (chars "#") x = [] := by simpa using hfalse
        exact escapeLine_ne_nil _ (by decide) x hx
    · rw [hrender]
      simp [hsrc]
  | code =>
    have hiscode : is_code c = true := by simp [is_code, hct]
    obtain ⟨hlines, hlang⟩ := hcode hiscode
    have hdl : ((pyRenderOpen d c.language :: c.source) ++
        [chars "# -"]).dropLast = pyRenderOpen d c.language :: c.source := by
      rw [List.dropLast_concat]
    have hrender : TextNotebookWriter.renderCellsLoop ".py" d [c] =
        pyRenderOpen d c.language :: c.source := by
      rw [TextNotebookWriter.renderCellsLoop.eq_2]
      rw [cell_to_text_py_code d c hct]
      rw [if_pos ⟨rfl, hiscode,
        by rw [List.getLast?_concat], Or.inl rfl⟩]
      rw [hdl, hsk]
      rw [TextNotebookWriter.renderCellsLoop.eq_1]
      simp
    have h2 := hl.2
    norm_num [hiscode] at h2
    constructor
    · rw [hrender]
      have hcons : pyRenderOpen d c.language :: c.source =
          [pyRenderOpen d c.language] ++ c.source := rfl
      rw [hcons, List.getLast?_append_of_ne_nil _ hsrc]
      exact h2
    · rw [hrender]
      simp

/-- Last-line facts for a final `.R` cell. -/
lemma render_single_r (d : Line) (c : Cell) (hc : cellOK ".R" d c = true)
    (hl : lastOK ".R" c = true) :
    (TextNotebookWriter.renderCellsLoop ".R" d [c]).getLast? ≠ some [] ∧
    TextNotebookWriter.renderCellsLoop ".R" d [c] ≠ [] := by
  obtain ⟨hraw, hsrc, hcode, hmd⟩ := cellOK_dest ".R" d c hc
  unfold lastOK at hl
  simp only [Bool.and_eq_true, decide_eq_true_eq] at hl
  have hsk : c.skiplines = 0 := hl.1
  cases hct : c.cellType with
  | raw => exact absurd hct hraw
  | markdown =>
    have hrender : TextNotebookWriter.renderCellsLoop ".R" d [c] =
        c.source.map (escapeLine (chars "#'")) := by
      rw [TextNotebookWriter.renderCellsLoop.eq_2]
      rw [if_neg (by simp), if_neg (by simp)]
      rw [cell_to_text_r_md d c hct]
      rw [TextNotebookWriter.renderCellsLoop.eq_1, hsk]
      simp
    constructor
    · rw [hrender, getLast?_map]
      cases hgl : c.source.getLast? with
      | none => simp
      | some x =>
        intro hfalse
        have hx : escapeLine (chars "#'") x = [] := by simpa using hfalse
        exact escapeLine_ne_nil _ (by decide) x hx
    · rw [hrender]
      simp [hsrc]
  | code =>
    have hiscode : is_code c = true := by simp [is_code, hct]
    obtain ⟨hlines, hlang⟩ := hcode hiscode
    have hsrclast : c.source.getLast? ≠ some [] := by
      intro hfalse
      have hmem := List.mem_of_getLast?_eq_some hfalse
      have := plainR_of_codeLineOK [] (hlines [] hmem)
      exact absurd this (by decide)
    cases hlc : c.language with
    | some l =>
      have hld : l ≠ d := by
        rw [hlc] at hlang
        unfold langOK at hlang
        simp only [Bool.and_eq_true, decide_eq_true_eq] at hlang
        exact hlang.2
      have hrender : TextNotebookWriter.renderCellsLoop ".R" d [c] =
          (chars "#+ language=\"" ++ l ++ chars "\"") :: c.source := by
        rw [TextNotebookWriter.renderCellsLoop.eq_2]
        rw [if_neg (by simp), if_neg (by simp)]
        simp only [cell_to_text_r_code d c hct, hlc]
        rw [if_pos hld, hsk]
        rw [TextNotebookWriter.renderCellsLoop.eq_1]
        simp
      constructor
      · rw [hrender]
        have hcons : (chars "#+ language=\"" ++ l ++ chars "\"") :: c.source =
            [chars "#+ language=\"" ++ l ++ chars "\""] ++ c.source := rfl
        rw [hcons, List.getLast?_append_of_ne_nil _ hsrc]
        exact hsrclast
      · rw [hrender]
        simp
    | none =>
      have hrender : TextNotebookWriter.renderCellsLoop ".R" d [c] =
          c.source := by
        rw [TextNotebookWriter.renderCellsLoop.eq_2]
        rw [if_neg (by simp), if_neg (by simp)]
        simp only [cell_to_text_r_code d c hct, hlc]
        rw [hsk]
        rw [TextNotebookWriter.renderCellsLoop.eq_1]
        simp
      exact ⟨by rw [hrender]; exact hsrclast, by rw [hrender]; exact hsrc⟩

/-- Last-line facts for a final `.Rmd` cell. -/
lemma render_single_rmd (d : Line) (c : Cell) (hc : cellOK ".Rmd" d c = true)
    (hl : lastOK ".Rmd" c = true) :
    (TextNotebookWriter.renderCellsLoop ".Rmd" d [c]).getLast? ≠ some [] ∧
    TextNotebookWriter.renderCellsLoop ".Rmd" d [c] ≠ [] := by
  obtain ⟨hraw, hsrc, hcode, hmd⟩ := cellOK_dest ".Rmd" d c hc
  unfold lastOK at hl
  simp only [Bool.and_eq_true, decide_eq_true_eq] at hl
  have hsk : c.skiplines = 0 := hl.1
  cases hct : c.cellType with
  | raw => exact absurd hct hraw
  | markdown =>
    obtain ⟨hlines, _⟩ := hmd (by simp [is_code, hct])
    have hrender : TextNotebookWriter.renderCellsLoop ".Rmd" d [c] =
        c.source := by
      rw [TextNotebookWriter.renderCellsLoop.eq_2]
      rw [if_neg (by simp)]
      rw [cell_to_text_rmd_md d c hct]
      rw [if_neg (by simp)]
      rw [TextNotebookWriter.renderCellsLoop.eq_1, hsk]
      simp
    refine ⟨?_, by rw [hrender]; exact hsrc⟩
    rw [hrender]
    intro hfalse
    have hmem := List.mem_of_getLast?_eq_some hfalse
    exact (mdLineOK_rmd [] (hlines [] hmem)).1 rfl
  | code =>
    have hrender : TextNotebookWriter.renderCellsLoop ".Rmd" d [c] =
        (chars "```\x7b" ++ c.language.getD d ++ chars "\x7d") ::
          (c.source ++ [chars "```"]) := by
      rw [TextNotebookWriter.renderCellsLoop.eq_2]
      rw [if_neg (by simp), if_neg (by simp [is_code, hct])]
      rw [cell_to_text_rmd_code d c hct]
      rw [hsk]
      rw [TextNotebookWriter.renderCellsLoop.eq_1]
      simp
    refine ⟨?_, by rw [hrender]; simp⟩
    rw [hrender]
    have hcons : (chars "```\x7b" ++ c.language.getD d ++ chars "\x7d") ::
        (c.source ++ [chars "```"]) =
        [chars "```\x7b" ++ c.language.getD d ++ chars "\x7d"] ++
          (c.source ++ [chars "```"]) := rfl
    rw [hcons, List.getLast?_append_of_ne_nil _ (by simp),
      List.getLast?_concat]
    simp
    decide

/-! ## The header codec round trip -/

/-- The `.Rmd` profile has no markdown escape, so unescaping is the
identity. -/
lemma markdown_unescape_rmd (l : Line) : markdown_unescape ".Rmd" l = l := rfl

/-- `headerScan` over decodable entry lines followed by the closing fence:
folds the decoder over the entries and counts them plus the fence. -/
lemma headerScan_append (ext : String) (fence : Line) :
    ∀ (entries : List Line) (tail : List Line) (m : Meta),
    (∀ e ∈ entries, e ≠ fence) →
    headerScan ext fence (entries ++ (fence :: tail)) m =
      some (entries.foldl
        (fun acc e => decodeHeaderEntry (markdown_unescape ext e) acc) m,
        entries.length + 1) := by
  intro entries
  induction entries with
  | nil =>
    intro tail m _
    rw [List.nil_append, headerScan.eq_2, if_pos rfl]
    rfl
  | cons e es ih =>
    intro tail m hne
    rw [List.cons_append, headerScan.eq_2,
      if_neg (hne e (by simp))]
    rw [ih tail (decodeHeaderEntry (markdown_unescape ext e) m)
      (fun x hx => hne x (by simp [hx]))]
    simp [List.foldl_cons]

/-- Decoding a rendered `main_language` entry. -/
lemma decode_main (l : Line) (m : Meta) :
    decodeHeaderEntry (chars "main_language: " ++ l) m =
      { m with mainLanguage := some l } := by
  unfold decodeHeaderEntry
  rw [if_pos (isPrefixOf_append_self _ _)]
  rw [List.drop_left]

/-- Decoding a rendered `language_info_name` entry. -/
lemma decode_lin (l : Line) (m : Meta) :
    decodeHeaderEntry (chars "language_info_name: " ++ l) m =
      { m with languageInfoName := some l } := by
  unfold decodeHeaderEntry
  rw [if_neg (by intro hfalse; exact absurd hfalse (by rw [show
    ((chars "main_language: ").isPrefixOf
      (chars "language_info_name: " ++ l)) = false from rfl]; simp))]
  rw [if_pos (isPrefixOf_append_self _ _)]
  rw [List.drop_left]

/-- A line with a fixed prefix differs from a line with a different fixed
4-character prefix. -/
lemma ne_of_take4 (A B x : Line) (hA : 4 ≤ A.length)
    (hne : A.take 4 ≠ B.take 4) : A ++ x ≠ B := by
  intro hfalse
  have := congrArg (fun y : Line => y.take 4) hfalse
  simp only [List.take_append_of_le_length hA] at this
  exact hne this

/-- `header_to_metadata_and_cell` when the first line is not the fence. -/
lemma header_to_no_fence (ext : String) (l : Line) (rest : List Line)
    (h : l ≠ ((markdown_escape ext [chars "---"]).head?).getD (chars "---")) :
    header_to_metadata_and_cell ext (l :: rest) = (⟨none, none⟩, none, 0) := by
  simp only [header_to_metadata_and_cell]
  rw [if_neg h]

/-- `header_to_metadata_and_cell` when the first line is the fence and the
scan succeeds. -/
lemma header_to_fence (ext : String) (l : Line) (rest : List Line) (m : Meta)
    (n : Nat)
    (hl : l = ((markdown_escape ext [chars "---"]).head?).getD (chars "---"))
    (hscan : headerScan ext l rest ⟨none, none⟩ = some (m, n)) :
    header_to_metadata_and_cell ext (l :: rest) = (m, none, n + 1) := by
  simp only [header_to_metadata_and_cell]
  rw [if_pos hl]
  rw [← hl, hscan]

/-- The rendered `.py` header parses back to the same metadata, no header
cell, and exactly the header lines consumed. -/
lemma header_parse_py (m : Meta) (tail : List Line)
    (htail : ∀ h ∈ tail.head?, h ≠ chars "# ---") :
    header_to_metadata_and_cell ".py"
        (metadata_and_cell_to_header ".py" m ++ tail) =
      (m, none, (metadata_and_cell_to_header ".py" m).length) := by
  have hfence : ((markdown_escape ".py" [chars "---"]).head?).getD
      (chars "---") = chars "# ---" := rfl
  obtain ⟨ml, li⟩ := m
  cases ml with
  | none =>
    cases li with
    | none =>
      show header_to_metadata_and_cell ".py" ([] ++ tail) = _
      rw [List.nil_append]
      cases tail with
      | nil => rfl
      | cons t0 ts =>
        rw [header_to_no_fence ".py" t0 ts
          (by rw [hfence]; exact htail t0 rfl)]
        rfl
    | some l2 =>
      have hh : metadata_and_cell_to_header ".py" ⟨none, some l2⟩ =
          [chars "# ---", chars "# language_info_name: " ++ l2, chars "# ---"] := rfl
      rw [hh]
      have hscan := headerScan_append ".py" (chars "# ---")
        [chars "# language_info_name: " ++ l2] tail ⟨none, none⟩
        (by
          intro e he
          rw [List.mem_singleton] at he
          rw [he]
          exact ne_of_take4 _ _ _ (by decide) (by decide))
      have hfold : List.foldl (fun acc e =>
          decodeHeaderEntry (markdown_unescape ".py" e) acc) ⟨none, none⟩
          [chars "# language_info_name: " ++ l2] = (⟨none, some l2⟩ : Meta) := by
        rw [List.foldl_cons, List.foldl_nil]
        rw [show markdown_unescape ".py" (chars "# language_info_name: " ++ l2) =
          chars "language_info_name: " ++ l2 from rfl]
        rw [decode_lin]
      rw [hfold] at hscan
      have hlist : ([chars "# ---", chars "# language_info_name: " ++ l2,
          chars "# ---"] : List Line) ++ tail =
          chars "# ---" :: ([chars "# language_info_name: " ++ l2] ++
            (chars "# ---" :: tail)) := by simp
      rw [hlist]
      rw [header_to_fence ".py" (chars "# ---") _ _ _ hfence.symm hscan]
      rfl
  | some l1 =>
    cases li with
    | none =>
      have hh : metadata_and_cell_to_header ".py" ⟨some l1, none⟩ =
          [chars "# ---", chars "# main_language: " ++ l1, chars "# ---"] := rfl
      rw [hh]
      have hscan := headerScan_append ".py" (chars "# ---")
        [chars "# main_language: " ++ l1] tail ⟨none, none⟩
        (by
          intro e he
          rw [List.mem_singleton] at he
          rw [he]
          exact ne_of_take4 _ _ _ (by decide) (by decide))
      have hfold : List.foldl (fun acc e =>
          decodeHeaderEntry (markdown_unescape ".py" e) acc) ⟨none, none⟩
          [chars "# main_language: " ++ l1] = (⟨some l1, none⟩ : Meta) := by
        rw [List.foldl_cons, List.foldl_nil]
        rw [show markdown_unescape ".py" (chars "# main_language: " ++ l1) =
          chars "main_language: " ++ l1 from rfl]
        rw [decode_main]
      rw [hfold] at hscan
      have hlist : ([chars "# ---", chars "# main_language: " ++ l1,
          chars "# ---"] : List Line) ++ tail =
          chars "# ---" :: ([chars "# main_language: " ++ l1] ++
            (chars "# ---" :: tail)) := by simp
      rw [hlist]
      rw [header_to_fence ".py" (chars "# ---") _ _ _ hfence.symm hscan]
      rfl
    | some l2 =>
      have hh : metadata_and_cell_to_header ".py" ⟨some l1, some l2⟩ =
          [chars "# ---", chars "# main_language: " ++ l1, chars "# language_info_name: " ++ l2,
            chars "# ---"] := rfl
      rw [hh]
      have hscan := headerScan_append ".py" (chars "# ---")
        [chars "# main_language: " ++ l1, chars "# language_info_name: " ++ l2] tail ⟨none, none⟩
        (by
          intro e he
          rcases List.mem_cons.mp he with he1 | he2
          · rw [he1]
            exact ne_of_take4 _ _ _ (by decide) (by decide)
          · rw [List.mem_singleton] at he2
            rw [he2]
            exact ne_of_take4 _ _ _ (by decide) (by decide))
      have hfold : List.foldl (fun acc e =>
          decodeHeaderEntry (markdown_unescape ".py" e) acc) ⟨none, none⟩
          [chars "# main_language: " ++ l1, chars "# language_info_name: " ++ l2] =
          (⟨some l1, some l2⟩ : Meta) := by
        rw [List.foldl_cons, List.foldl_cons, List.foldl_nil]
        rw [show markdown_unescape ".py" (chars "# main_language: " ++ l1) =
          chars "main_language: " ++ l1 from rfl]
        rw [decode_main]
        rw [show markdown_unescape ".py" (chars "# language_info_name: " ++ l2) =
          chars "language_info_name: " ++ l2 from rfl]
        rw [decode_lin]
      rw [hfold] at hscan
      have hlist : ([chars "# ---", chars "# main_language: " ++ l1,
          chars "# language_info_name: " ++ l2, chars "# ---"] : List Line) ++ tail =
          chars "# ---" :: ([chars "# main_language: " ++ l1, chars "# language_info_name: " ++ l2] ++
            (chars "# ---" :: tail)) := by simp
      rw [hlist]
      rw [header_to_fence ".py" (chars "# ---") _ _ _ hfence.symm hscan]
      rfl

/-- The rendered `.R` header parses back to the same metadata, no header
cell, and exactly the header lines consumed. -/
lemma header_parse_r (m : Meta) (tail : List Line)
    (htail : ∀ h ∈ tail.head?, h ≠ chars "#' ---") :
    header_to_metadata_and_cell ".R"
        (metadata_and_cell_to_header ".R" m ++ tail) =
      (m, none, (metadata_and_cell_to_header ".R" m).length) := by
  have hfence : ((markdown_escape ".R" [chars "---"]).head?).getD
      (chars "---") = chars "#' ---" := rfl
  obtain ⟨ml, li⟩ := m
  cases ml with
  | none =>
    cases li with
    | none =>
      show header_to_metadata_and_cell ".R" ([] ++ tail) = _
      rw [List.nil_append]
      cases tail with
      | nil => rfl
      | cons t0 ts =>
        rw [header_to_no_fence ".R" t0 ts
          (by rw [hfence]; exact htail t0 rfl)]
        rfl
    | some l2 =>
      have hh : metadata_and_cell_to_header ".R" ⟨none, some l2⟩ =
          [chars "#' ---", chars "#' language_info_name: " ++ l2, chars "#' ---"] := rfl
      rw [hh]
      have hscan := headerScan_append ".R" (chars "#' ---")
        [chars "#' language_info_name: " ++ l2] tail ⟨none, none⟩
        (by
          intro e he
          rw [List.mem_singleton] at he
          rw [he]
          exact ne_of_take4 _ _ _ (by decide) (by decide))
      have hfold : List.foldl (fun acc e =>
          decodeHeaderEntry (markdown_unescape ".R" e) acc) ⟨none, none⟩
          [chars "#' language_info_name: " ++ l2] = (⟨none, some l2⟩ : Meta) := by
        rw [List.foldl_cons, List.foldl_nil]
        rw [show markdown_unescape ".R" (chars "#' language_info_name: " ++ l2) =
          chars "language_info_name: " ++ l2 from rfl]
        rw [decode_lin]
      rw [hfold] at hscan
      have hlist : ([chars "#' ---", chars "#' language_info_name: " ++ l2,
          chars "#' ---"] : List Line) ++ tail =
          chars "#' ---" :: ([chars "#' language_info_name: " ++ l2] ++
            (chars "#' ---" :: tail)) := by simp
      rw [hlist]
      rw [header_to_fence ".R" (chars "#' ---") _ _ _ hfence.symm hscan]
      rfl
  | some l1 =>
    cases li with
    | none =>
      have hh : metadata_and_cell_to_header ".R" ⟨some l1, none⟩ =
          [chars "#' ---", chars "#' main_language: " ++ l1, chars "#' ---"] := rfl
      rw [hh]
      have hscan := headerScan_append ".R" (chars "#' ---")
        [chars "#' main_language: " ++ l1] tail ⟨none, none⟩
        (by
          intro e he
          rw [List.mem_singleton] at he
          rw [he]
          exact ne_of_take4 _ _ _ (by decide) (by decide))
      have hfold : List.foldl (fun acc e =>
          decodeHeaderEntry (markdown_unescape ".R" e) acc) ⟨none, none⟩
          [chars "#' main_language: " ++ l1] = (⟨some l1, none⟩ : Meta) := by
        rw [List.foldl_cons, List.foldl_nil]
        rw [show markdown_unescape ".R" (chars "#' main_language: " ++ l1) =
          chars "main_language: " ++ l1 from rfl]
        rw [decode_main]
      rw [hfold] at hscan
      have hlist : ([chars "#' ---", chars "#' main_language: " ++ l1,
          chars "#' ---"] : List Line) ++ tail =
          chars "#' ---" :: ([chars "#' main_language: " ++ l1] ++
            (chars "#' ---" :: tail)) := by simp
      rw [hlist]
      rw [header_to_fence ".R" (chars "#' ---") _ _ _ hfence.symm hscan]
      rfl
    | some l2 =>
      have hh : metadata_and_cell_to_header ".R" ⟨some l1, some l2⟩ =
          [chars "#' ---", chars "#' main_language: " ++ l1, chars "#' language_info_name: " ++ l2,
            chars "#' ---"] := rfl
      rw [hh]
      have hscan := headerScan_append ".R" (chars "#' ---")
        [chars "#' main_language: " ++ l1, chars "#' language_info_name: " ++ l2] tail ⟨none, none⟩
        (by
          intro e he
          rcases List.mem_cons.mp he with he1 | he2
          · rw [he1]
            exact ne_of_take4 _ _ _ (by decide) (by decide)
          · rw [List.mem_singleton] at he2
            rw [he2]
            exact ne_of_take4 _ _ _ (by decide) (by decide))
      have hfold : List.foldl (fun acc e =>
          decodeHeaderEntry (markdown_unescape ".R" e) acc) ⟨none, none⟩
          [chars "#' main_language: " ++ l1, chars "#' language_info_name: " ++ l2] =
          (⟨some l1, some l2⟩ : Meta) := by
        rw [List.foldl_cons, List.foldl_cons, List.foldl_nil]
        rw [show markdown_unescape ".R" (chars "#' main_language: " ++ l1) =
          chars "main_language: " ++ l1 from rfl]
        rw [decode_main]
        rw [show markdown_unescape ".R" (chars "#' language_info_name: " ++ l2) =
          chars "language_info_name: " ++ l2 from rfl]
        rw [decode_lin]
      rw [hfold] at hscan
      have hlist : ([chars "#' ---", chars "#' main_language: " ++ l1,
          chars "#' language_info_name: " ++ l2, chars "#' ---"] : List Line) ++ tail =
          chars "#' ---" :: ([chars "#' main_language: " ++ l1, chars "#' language_info_name: " ++ l2] ++
            (chars "#' ---" :: tail)) := by simp
      rw [hlist]
      rw [header_to_fence ".R" (chars "#' ---") _ _ _ hfence.symm hscan]
      rfl

/-- The rendered `.Rmd` header parses back to the same metadata, no header
cell, and exactly the header lines consumed. -/
lemma header_parse_rmd (m : Meta) (tail : List Line)
    (htail : ∀ h ∈ tail.head?, h ≠ chars "---") :
    header_to_metadata_and_cell ".Rmd"
        (metadata_and_cell_to_header ".Rmd" m ++ tail) =
      (m, none, (metadata_and_cell_to_header ".Rmd" m).length) := by
  have hfence : ((markdown_escape ".Rmd" [chars "---"]).head?).getD
      (chars "---") = chars "---" := rfl
  obtain ⟨ml, li⟩ := m
  cases ml with
  | none =>
    cases li with
    | none =>
      show header_to_metadata_and_cell ".Rmd" ([] ++ tail) = _
      rw [List.nil_append]
      cases tail with
      | nil => rfl
      | cons t0 ts =>
        rw [header_to_no_fence ".Rmd" t0 ts
          (by rw [hfence]; exact htail t0 rfl)]
        rfl
    | some l2 =>
      have hh : metadata_and_cell_to_header ".Rmd" ⟨none, some l2⟩ =
          [chars "---", chars "language_info_name: " ++ l2, chars "---"] := rfl
      rw [hh]
      have hscan := headerScan_append ".Rmd" (chars "---")
        [chars "language_info_name: " ++ l2] tail ⟨none, none⟩
        (by
          intro e he
          rw [List.mem_singleton] at he
          rw [he]
          exact ne_of_take4 _ _ _ (by decide) (by decide))
      have hfold : List.foldl (fun acc e =>
          decodeHeaderEntry (markdown_unescape ".Rmd" e) acc) ⟨none, none⟩
          [chars "language_info_name: " ++ l2] = (⟨none, some l2⟩ : Meta) := by
        rw [List.foldl_cons, List.foldl_nil]
        rw [show markdown_unescape ".Rmd" (chars "language_info_name: " ++ l2) =
          chars "language_info_name: " ++ l2 from rfl]
        rw [decode_lin]
      rw [hfold] at hscan
      have hlist : ([chars "---", chars "language_info_name: " ++ l2,
          chars "---"] : List Line) ++ tail =
          chars "---" :: ([chars "language_info_name: " ++ l2] ++
            (chars "---" :: tail)) := by simp
      rw [hlist]
      rw [header_to_fence ".Rmd" (chars "---") _ _ _ hfence.symm hscan]
      rfl
  | some l1 =>
    cases li with
    | none =>
      have hh : metadata_and_cell_to_header ".Rmd" ⟨some l1, none⟩ =
          [chars "---", chars "main_language: " ++ l1, chars "---"] := rfl
      rw [hh]
      have hscan := headerScan_append ".Rmd" (chars "---")
        [chars "main_language: " ++ l1] tail ⟨none, none⟩
        (by
          intro e he
          rw [List.mem_singleton] at he
          rw [he]
          exact ne_of_take4 _ _ _ (by decide) (by decide))
      have hfold : List.foldl (fun acc e =>
          decodeHeaderEntry (markdown_unescape ".Rmd" e) acc) ⟨none, none⟩
          [chars "main_language: " ++ l1] = (⟨some l1, none⟩ : Meta) := by
        rw [List.foldl_cons, List.foldl_nil]
        rw [show markdown_unescape ".Rmd" (chars "main_language: " ++ l1) =
          chars "main_language: " ++ l1 from rfl]
        rw [decode_main]
      rw [hfold] at hscan
      have hlist : ([chars "---", chars "main_language: " ++ l1,
          chars "---"] : List Line) ++ tail =
          chars "---" :: ([chars "main_language: " ++ l1] ++
            (chars "---" :: tail)) := by simp
      rw [hlist]
      rw [header_to_fence ".Rmd" (chars "---") _ _ _ hfence.symm hscan]
      rfl
    | some l2 =>
      have hh : metadata_and_cell_to_header ".Rmd" ⟨some l1, some l2⟩ =
          [chars "---", chars "main_language: " ++ l1, chars "language_info_name: " ++ l2,
            chars "---"] := rfl
      rw [hh]
      have hscan := headerScan_append ".Rmd" (chars "---")
        [chars "main_language: " ++ l1, chars "language_info_name: " ++ l2] tail ⟨none, none⟩
        (by
          intro e he
          rcases List.mem_cons.mp he with he1 | he2
          · rw [he1]
            exact ne_of_take4 _ _ _ (by decide) (by decide)
          · rw [List.mem_singleton] at he2
            rw [he2]
            exact ne_of_take4 _ _ _ (by decide) (by decide))
      have hfold : List.foldl (fun acc e =>
          decodeHeaderEntry (markdown_unescape ".Rmd" e) acc) ⟨none, none⟩
          [chars "main_language: " ++ l1, chars "language_info_name: " ++ l2] =
          (⟨some l1, some l2⟩ : Meta) := by
        rw [List.foldl_cons, List.foldl_cons, List.foldl_nil]
        rw [show markdown_unescape ".Rmd" (chars "main_language: " ++ l1) =
          chars "main_language: " ++ l1 from rfl]
        rw [decode_main]
        rw [show markdown_unescape ".Rmd" (chars "language_info_name: " ++ l2) =
          chars "language_info_name: " ++ l2 from rfl]
        rw [decode_lin]
      rw [hfold] at hscan
      have hlist : ([chars "---", chars "main_language: " ++ l1,
          chars "language_info_name: " ++ l2, chars "---"] : List Line) ++ tail =
          chars "---" :: ([chars "main_language: " ++ l1, chars "language_info_name: " ++ l2] ++
            (chars "---" :: tail)) := by simp
      rw [hlist]
      rw [header_to_fence ".Rmd" (chars "---") _ _ _ hfence.symm hscan]
      rfl

/-- Escaping with a fixed comment string is injective. -/
lemma escapeLine_inj (pfx a b : Line) (h : escapeLine pfx a = escapeLine pfx b) :
    a = b := by
  unfold escapeLine at h
  by_cases ha : a = [] <;> by_cases hb : b = []
  · rw [ha, hb]
  · rw [if_pos ha, if_neg hb] at h
    have := congrArg List.length h
    simp only [List.length_append, List.length_cons] at this
    omega
  · rw [if_neg ha, if_pos hb] at h
    have := congrArg List.length h
    simp only [List.length_append, List.length_cons] at this
    omega
  · rw [if_neg ha, if_neg hb] at h
    have h2 := List.append_cancel_left h
    exact (List.cons.inj h2).2

/-- The `.py` opening marker is not the `.py` header fence. -/
lemma pyRenderOpen_ne_fence (d : Line) (lang : Option Line) :
    pyRenderOpen d lang ≠ chars "# ---" := by
  cases lang with
  | none =>
    show chars "# +" ≠ chars "# ---"
    decide
  | some l =>
    show (if l ≠ d then _ else _) ≠ _
    by_cases hld : l ≠ d
    · rw [if_pos hld]
      rw [List.append_assoc]
      exact ne_of_take4 _ _ _ (by decide) (by decide)
    · rw [if_neg hld]
      decide

/-- An expressible markdown line never collides with the header fence once
escaped. -/
lemma mdLineOK_ne_dashes (ext : String) (l : Line)
    (h : mdLineOK ext l = true) : l ≠ chars "---" := by
  unfold mdLineOK at h
  simp only [Bool.and_eq_true, decide_eq_true_eq] at h
  exact h.1.2

/-- The first rendered `.py` line is never the `.py` header fence. -/
lemma render_head_ne_fence_py (d : Line) (cells : List Cell)
    (h : cellsOK ".py" d cells = true) :
    ∀ x ∈ (TextNotebookWriter.renderCellsLoop ".py" d cells).head?,
      x ≠ chars "# ---" := by
  intro x hx
  cases cells with
  | nil =>
    rw [TextNotebookWriter.renderCellsLoop.eq_1] at hx
    exact absurd hx (by simp)
  | cons c rest =>
    have hcell := cellsOK_head ".py" d h
    obtain ⟨hraw, hsrc, hcode, hmd⟩ := cellOK_dest ".py" d c hcell
    cases hct : c.cellType with
    | raw => exact absurd hct hraw
    | code =>
      rw [render_head_py_code d c rest hct] at hx
      simp only [Option.mem_def, Option.some.injEq] at hx
      rw [← hx]
      exact pyRenderOpen_ne_fence d c.language
    | markdown =>
      obtain ⟨hlines, _⟩ := hmd (by simp [is_code, hct])
      cases hs : c.source with
      | nil => exact absurd hs hsrc
      | cons s0 srest =>
        rw [render_head_py_md d c rest hct s0 srest hs] at hx
        simp only [Option.mem_def, Option.some.injEq] at hx
        rw [← hx]
        intro hfalse
        have heq : escapeLine (chars "#") s0 =
            escapeLine (chars "#") (chars "---") := hfalse
        exact mdLineOK_ne_dashes ".py" s0 (hlines s0 (by rw [hs]; simp))
          (escapeLine_inj _ _ _ heq)

/-- The first rendered `.R` line is never the `.R` header fence. -/
lemma render_head_ne_fence_r (d : Line) (cells : List Cell)
    (h : cellsOK ".R" d cells = true) :
    ∀ x ∈ (TextNotebookWriter.renderCellsLoop ".R" d cells).head?,
      x ≠ chars "#' ---" := by
  intro x hx
  cases cells with
  | nil =>
    rw [TextNotebookWriter.renderCellsLoop.eq_1] at hx
    exact absurd hx (by simp)
  | cons c rest =>
    have hcell := cellsOK_head ".R" d h
    obtain ⟨hraw, hsrc, hcode, hmd⟩ := cellOK_dest ".R" d c hcell
    cases hct : c.cellType with
    | raw => exact absurd hct hraw
    | code =>
      obtain ⟨hlines, hlang⟩ := hcode (by simp [is_code, hct])
      cases hlc : c.language with
      | some lg =>
        have hld : lg ≠ d := by
          rw [hlc] at hlang
          unfold langOK at hlang
          simp only [Bool.and_eq_true, decide_eq_true_eq] at hlang
          exact hlang.2
        rw [render_head_r_code_tagged d c rest hct lg hlc hld] at hx
        simp only [Option.mem_def, Option.some.injEq] at hx
        rw [← hx, List.append_assoc]
        exact ne_of_take4 _ _ _ (by decide) (by decide)
      | none =>
        cases hs : c.source with
        | nil => exact absurd hs hsrc
        | cons s0 srest =>
          rw [render_head_r_code_untagged d c rest hct hlc s0 srest hs] at hx
          simp only [Option.mem_def, Option.some.injEq] at hx
          rw [← hx]
          intro hfalse
          have hp := plainR_of_codeLineOK s0 (hlines s0 (by rw [hs]; simp))
          unfold plainR at hp
          simp only [Bool.and_eq_true, Bool.not_eq_true'] at hp
          rw [hfalse] at hp
          exact absurd hp.1.1 (by decide)
    | markdown =>
      obtain ⟨hlines, _⟩ := hmd (by simp [is_code, hct])
      cases hs : c.source with
      | nil => exact absurd hs hsrc
      | cons s0 srest =>
        rw [render_head_r_md d c rest hct s0 srest hs] at hx
        simp only [Option.mem_def, Option.some.injEq] at hx
        rw [← hx]
        intro hfalse
        have heq : escapeLine (chars "#'") s0 =
            escapeLine (chars "#'") (chars "---") := hfalse
        exact mdLineOK_ne_dashes ".R" s0 (hlines s0 (by rw [hs]; simp))
          (escapeLine_inj _ _ _ heq)

/-- The first rendered `.Rmd` line is never the `.Rmd` header fence. -/
lemma render_head_ne_fence_rmd (d : Line) (cells : List Cell)
    (h : cellsOK ".Rmd" d cells = true) :
    ∀ x ∈ (TextNotebookWriter.renderCellsLoop ".Rmd" d cells).head?,
      x ≠ chars "---" := by
  intro x hx
  cases cells with
  | nil =>
    rw [TextNotebookWriter.renderCellsLoop.eq_1] at hx
    exact absurd hx (by simp)
  | cons c rest =>
    have hcell := cellsOK_head ".Rmd" d h
    obtain ⟨hraw, hsrc, hcode, hmd⟩ := cellOK_dest ".Rmd" d c hcell
    cases hct : c.cellType with
    | raw => exact absurd hct hraw
    | code =>
      rw [render_head_rmd_code d c rest hct] at hx
      simp only [Option.mem_def, Option.some.injEq] at hx
      rw [← hx, List.append_assoc]
      exact ne_of_take4 _ _ _ (by decide) (by decide)
    | markdown =>
      obtain ⟨hlines, _⟩ := hmd (by simp [is_code, hct])
      cases hs : c.source with
      | nil => exact absurd hs hsrc
      | cons s0 srest =>
        rw [render_head_rmd_md d c rest hct s0 srest hs] at hx
        simp only [Option.mem_def, Option.some.injEq] at hx
        rw [← hx]
        exact mdLineOK_ne_dashes ".Rmd" s0 (hlines s0 (by rw [hs]; simp))

/-- Every rendered `.py` header line is newline-free. -/
lemma header_noNL_py (m : Meta) (hm1 : metaValOK m.mainLanguage = true)
    (hm2 : metaValOK m.languageInfoName = true) :
    ∀ l ∈ metadata_and_cell_to_header ".py" m, noNL l = true := by
  obtain ⟨ml, li⟩ := m
  have hfnl : noNL (chars "# ---") = true := by decide
  have hcm : noNL (chars "# main_language: ") = true := by decide
  have hcl : noNL (chars "# language_info_name: ") = true := by decide
  cases ml with
  | none =>
    cases li with
    | none =>
      intro l hl
      rw [show metadata_and_cell_to_header ".py" ⟨none, none⟩ = []
        from rfl] at hl
      exact absurd hl (by simp)
    | some l2 =>
      have hnl2 : noNL l2 = true := by
        simp only [metaValOK, Bool.and_eq_true] at hm2
        exact hm2.2
      intro l hl
      rw [show metadata_and_cell_to_header ".py" ⟨none, some l2⟩ =
        [chars "# ---", chars "# language_info_name: " ++ l2, chars "# ---"]
        from rfl] at hl
      simp only [List.mem_cons, List.not_mem_nil, or_false] at hl
      rcases hl with h | h | h
      · rw [h]; exact hfnl
      · rw [h]; simp [noNL_append, hcl, hnl2]
      · rw [h]; exact hfnl
  | some l1 =>
    have hnl1 : noNL l1 = true := by
      simp only [metaValOK, Bool.and_eq_true] at hm1
      exact hm1.2
    cases li with
    | none =>
      intro l hl
      rw [show metadata_and_cell_to_header ".py" ⟨some l1, none⟩ =
        [chars "# ---", chars "# main_language: " ++ l1, chars "# ---"]
        from rfl] at hl
      simp only [List.mem_cons, List.not_mem_nil, or_false] at hl
      rcases hl with h | h | h
      · rw [h]; exact hfnl
      · rw [h]; simp [noNL_append, hcm, hnl1]
      · rw [h]; exact hfnl
    | some l2 =>
      have hnl2 : noNL l2 = true := by
        simp only [metaValOK, Bool.and_eq_true] at hm2
        exact hm2.2
      intro l hl
      rw [show metadata_and_cell_to_header ".py" ⟨some l1, some l2⟩ =
        [chars "# ---", chars "# main_language: " ++ l1, chars "# language_info_name: " ++ l2,
          chars "# ---"] from rfl] at hl
      simp only [List.mem_cons, List.not_mem_nil, or_false] at hl
      rcases hl with h | h | h | h
      · rw [h]; exact hfnl
      · rw [h]; simp [noNL_append, hcm, hnl1]
      · rw [h]; simp [noNL_append, hcl, hnl2]
      · rw [h]; exact hfnl

/-- Every rendered `.R` header line is newline-free. -/
lemma header_noNL_r (m : Meta) (hm1 : metaValOK m.mainLanguage = true)
    (hm2 : metaValOK m.languageInfoName = true) :
    ∀ l ∈ metadata_and_cell_to_header ".R" m, noNL l = true := by
  obtain ⟨ml, li⟩ := m
  have hfnl : noNL (chars "#' ---") = true := by decide
  have hcm : noNL (chars "#' main_language: ") = true := by decide
  have hcl : noNL (chars "#' language_info_name: ") = true := by decide
  cases ml with
  | none =>
    cases li with
    | none =>
      intro l hl
      rw [show metadata_and_cell_to_header ".R" ⟨none, none⟩ = []
        from rfl] at hl
      exact absurd hl (by simp)
    | some l2 =>
      have hnl2 : noNL l2 = true := by
        simp only [metaValOK, Bool.and_eq_true] at hm2
        exact hm2.2
      intro l hl
      rw [show metadata_and_cell_to_header ".R" ⟨none, some l2⟩ =
        [chars "#' ---", chars "#' language_info_name: " ++ l2, chars "#' ---"]
        from rfl] at hl
      simp only [List.mem_cons, List.not_mem_nil, or_false] at hl
      rcases hl with h | h | h
      · rw [h]; exact hfnl
      · rw [h]; simp [noNL_append, hcl, hnl2]
      · rw [h]; exact hfnl
  | some l1 =>
    have hnl1 : noNL l1 = true := by
      simp only [metaValOK, Bool.and_eq_true] at hm1
      exact hm1.2
    cases li with
    | none =>
      intro l hl
      rw [show metadata_and_cell_to_header ".R" ⟨some l1, none⟩ =
        [chars "#' ---", chars "#' main_language: " ++ l1, chars "#' ---"]
        from rfl] at hl
      simp only [List.mem_cons, List.not_mem_nil, or_false] at hl
      rcases hl with h | h | h
      · rw [h]; exact hfnl
      · rw [h]; simp [noNL_append, hcm, hnl1]
      · rw [h]; exact hfnl
    | some l2 =>
      have hnl2 : noNL l2 = true := by
        simp only [metaValOK, Bool.and_eq_true] at hm2
        exact hm2.2
      intro l hl
      rw [show metadata_and_cell_to_header ".R" ⟨some l1, some l2⟩ =
        [chars "#' ---", chars "#' main_language: " ++ l1, chars "#' language_info_name: " ++ l2,
          chars "#' ---"] from rfl] at hl
      simp only [List.mem_cons, List.not_mem_nil, or_false] at hl
      rcases hl with h | h | h | h
      · rw [h]; exact hfnl
      · rw [h]; simp [noNL_append, hcm, hnl1]
      · rw [h]; simp [noNL_append, hcl, hnl2]
      · rw [h]; exact hfnl

/-- Every rendered `.Rmd` header line is newline-free. -/
lemma header_noNL_rmd (m : Meta) (hm1 : metaValOK m.mainLanguage = true)
    (hm2 : metaValOK m.languageInfoName = true) :
    ∀ l ∈ metadata_and_cell_to_header ".Rmd" m, noNL l = true := by
  obtain ⟨ml, li⟩ := m
  have hfnl : noNL (chars "---") = true := by decide
  have hcm : noNL (chars "main_language: ") = true := by decide
  have hcl : noNL (chars "language_info_name: ") = true := by decide
  cases ml with
  | none =>
    cases li with
    | none =>
      intro l hl
      rw [show metadata_and_cell_to_header ".Rmd" ⟨none, none⟩ = []
        from rfl] at hl
      exact absurd hl (by simp)
    | some l2 =>
      have hnl2 : noNL l2 = true := by
        simp only [metaValOK, Bool.and_eq_true] at hm2
        exact hm2.2
      intro l hl
      rw [show metadata_and_cell_to_header ".Rmd" ⟨none, some l2⟩ =
        [chars "---", chars "language_info_name: " ++ l2, chars "---"]
        from rfl] at hl
      simp only [List.mem_cons, List.not_mem_nil, or_false] at hl
      rcases hl with h | h | h
      · rw [h]; exact hfnl
      · rw [h]; simp [noNL_append, hcl, hnl2]
      · rw [h]; exact hfnl
  | some l1 =>
    have hnl1 : noNL l1 = true := by
      simp only [metaValOK, Bool.and_eq_true] at hm1
      exact hm1.2
    cases li with
    | none =>
      intro l hl
      rw [show metadata_and_cell_to_header ".Rmd" ⟨some l1, none⟩ =
        [chars "---", chars "main_language: " ++ l1, chars "---"]
        from rfl] at hl
      simp only [List.mem_cons, List.not_mem_nil, or_false] at hl
      rcases hl with h | h | h
      · rw [h]; exact hfnl
      · rw [h]; simp [noNL_append, hcm, hnl1]
      · rw [h]; exact hfnl
    | some l2 =>
      have hnl2 : noNL l2 = true := by
        simp only [metaValOK, Bool.and_eq_true] at hm2
        exact hm2.2
      intro l hl
      rw [show metadata_and_cell_to_header ".Rmd" ⟨some l1, some l2⟩ =
        [chars "---", chars "main_language: " ++ l1, chars "language_info_name: " ++ l2,
          chars "---"] from rfl] at hl
      simp only [List.mem_cons, List.not_mem_nil, or_false] at hl
      rcases hl with h | h | h | h
      · rw [h]; exact hfnl
      · rw [h]; simp [noNL_append, hcm, hnl1]
      · rw [h]; simp [noNL_append, hcl, hnl2]
      · rw [h]; exact hfnl

/-- The tail of a well-formed cell list is well formed. -/
lemma cellsOK_tail (ext : String) (d : Line) {c : Cell} {rest : List Cell}
    (h : cellsOK ext d (c :: rest) = true) : cellsOK ext d rest = true := by
  cases rest with
  | nil => rfl
  | cons c2 r2 =>
    rw [cellsOK.eq_3] at h
    simp only [Bool.and_eq_true] at h
    exact h.2

/-- Every cell of a well-formed cell list is well formed. -/
lemma cellsOK_forall (ext : String) (d : Line) :
    ∀ cells, cellsOK ext d cells = true →
      ∀ c ∈ cells, cellOK ext d c = true := by
  intro cells
  induction cells with
  | nil => intro _ c hc; exact absurd hc (by simp)
  | cons c0 rest ih =>
    intro h c hc
    rcases List.mem_cons.mp hc with h1 | h2
    · rw [h1]
      exact cellsOK_head ext d h
    · exact ih (cellsOK_tail ext d h) c h2

/-- A pointwise-identity map is the identity. -/
lemma map_id_of {α : Type} (f : α → α) :
    ∀ l : List α, (∀ a ∈ l, f a = a) → l.map f = l
  | [], _ => rfl
  | a :: t, h => by
    rw [List.map_cons, h a (by simp),
      map_id_of f t (fun x hx => h x (by simp [hx]))]

/-- Dropping the language tags that `find_main_language` recognizes as the
main language restores the cells the `.Rmd` writer rendered. -/
lemma rmdTag_restore (d : Line) :
    ∀ cells : List Cell,
    (∀ c ∈ cells, c.cellType ≠ CellType.raw ∧
      (∀ l, c.language = some l → l ≠ d)) →
    (cells.map (rmdTag d)).map (fun c =>
      if c.cellType = CellType.code ∧ c.language = some d ∧
        (some d : Option Line) ≠ none
      then { c with language := none } else c) = cells := by
  intro cells
  induction cells with
  | nil => intro _; rfl
  | cons c rest ih =>
    intro h
    rw [List.map_cons, List.map_cons,
      ih (fun x hx => h x (by simp [hx]))]
    have hc := h c (by simp)
    cases hct : c.cellType with
    | raw => exact absurd hct hc.1
    | markdown =>
      rw [rmdTag_md d c hct]
      rw [if_neg (by simp [hct])]
    | code =>
      obtain ⟨ct, src, lang, sk⟩ := c
      simp only at hct
      subst hct
      cases hlc : lang with
      | none =>
        subst hlc
        rw [rmdTag_code d ⟨CellType.code, src, none, sk⟩ rfl]
        rw [if_pos ⟨rfl, rfl, by simp⟩]
      | some l =>
        have hld : l ≠ d := hc.2 l hlc
        subst hlc
        rw [rmdTag_code d ⟨CellType.code, src, some l, sk⟩ rfl]
        rw [if_neg (by
          intro hfalse
          exact hld (by simpa using hfalse.2.1))]
        rfl

/-- The `.Rmd` write-path default language is newline-free for well-formed
metadata. -/
lemma noNL_wdl_rmd (m : Meta) (hm1 : metaValOK m.mainLanguage = true)
    (hm2 : metaValOK m.languageInfoName = true) :
    noNL (TextNotebookWriter.writes_default_language ".Rmd" m) = true := by
  show noNL (get_default_language m) = true
  unfold get_default_language
  cases hml : m.mainLanguage with
  | some l1 =>
    rw [hml] at hm1
    simp only [metaValOK, Bool.and_eq_true] at hm1
    simpa using hm1.2
  | none =>
    cases hli : m.languageInfoName with
    | some l2 =>
      rw [hli] at hm2
      simp only [metaValOK, Bool.and_eq_true] at hm2
      simpa using hm2.2
    | none => decide

/-- Every rendered `.py` header line is nonempty. -/
lemma header_ne_nil_py (m : Meta) :
    ∀ l ∈ metadata_and_cell_to_header ".py" m, l ≠ [] := by
  obtain ⟨ml, li⟩ := m
  cases ml with
  | none =>
    cases li with
    | none =>
      intro l hl
      rw [show metadata_and_cell_to_header ".py" ⟨none, none⟩ = []
        from rfl] at hl
      exact absurd hl (by simp)
    | some l2 =>
      intro l hl
      rw [show metadata_and_cell_to_header ".py" ⟨none, some l2⟩ =
        [chars "# ---", chars "# language_info_name: " ++ l2, chars "# ---"]
        from rfl] at hl
      simp only [List.mem_cons, List.not_mem_nil, or_false] at hl
      rcases hl with h | h | h <;> rw [h] <;> intro hf <;>
        first
        | exact absurd hf (by decide)
        | (simp only [List.append_eq_nil] at hf
           exact absurd hf.1 (by decide))
  | some l1 =>
    cases li with
    | none =>
      intro l hl
      rw [show metadata_and_cell_to_header ".py" ⟨some l1, none⟩ =
        [chars "# ---", chars "# main_language: " ++ l1, chars "# ---"]
        from rfl] at hl
      simp only [List.mem_cons, List.not_mem_nil, or_false] at hl
      rcases hl with h | h | h <;> rw [h] <;> intro hf <;>
        first
        | exact absurd hf (by decide)
        | (simp only [List.append_eq_nil] at hf
           exact absurd hf.1 (by decide))
    | some l2 =>
      intro l hl
      rw [show metadata_and_cell_to_header ".py" ⟨some l1, some l2⟩ =
        [chars "# ---", chars "# main_language: " ++ l1, chars "# language_info_name: " ++ l2,
          chars "# ---"] from rfl] at hl
      simp only [List.mem_cons, List.not_mem_nil, or_false] at hl
      rcases hl with h | h | h | h <;> rw [h] <;> intro hf <;>
        first
        | exact absurd hf (by decide)
        | (simp only [List.append_eq_nil] at hf
           exact absurd hf.1 (by decide))

/-- Every rendered `.R` header line is nonempty. -/
lemma header_ne_nil_r (m : Meta) :
    ∀ l ∈ metadata_and_cell_to_header ".R" m, l ≠ [] := by
  obtain ⟨ml, li⟩ := m
  cases ml with
  | none =>
    cases li with
    | none =>
      intro l hl
      rw [show metadata_and_cell_to_header ".R" ⟨none, none⟩ = []
        from rfl] at hl
      exact absurd hl (by simp)
    | some l2 =>
      intro l hl
      rw [show metadata_and_cell_to_header ".R" ⟨none, some l2⟩ =
        [chars "#' ---", chars "#' language_info_name: " ++ l2, chars "#' ---"]
        from rfl] at hl
      simp only [List.mem_cons, List.not_mem_nil, or_false] at hl
      rcases hl with h | h | h <;> rw [h] <;> intro hf <;>
        first
        | exact absurd hf (by decide)
        | (simp only [List.append_eq_nil] at hf
           exact absurd hf.1 (by decide))
  | some l1 =>
    cases li with
    | none =>
      intro l hl
      rw [show metadata_and_cell_to_header ".R" ⟨some l1, none⟩ =
        [chars "#' ---", chars "#' main_language: " ++ l1, chars "#' ---"]
        from rfl] at hl
      simp only [List.mem_cons, List.not_mem_nil, or_false] at hl
      rcases hl with h | h | h <;> rw [h] <;> intro hf <;>
        first
        | exact absurd hf (by decide)
        | (simp only [List.append_eq_nil] at hf
           exact absurd hf.1 (by decide))
    | some l2 =>
      intro l hl
      rw [show metadata_and_cell_to_header ".R" ⟨some l1, some l2⟩ =
        [chars "#' ---", chars "#' main_language: " ++ l1, chars "#' language_info_name: " ++ l2,
          chars "#' ---"] from rfl] at hl
      simp only [List.mem_cons, List.not_mem_nil, or_false] at hl
      rcases hl with h | h | h | h <;> rw [h] <;> intro hf <;>
        first
        | exact absurd hf (by decide)
        | (simp only [List.append_eq_nil] at hf
           exact absurd hf.1 (by decide))

/-- Every rendered `.Rmd` header line is nonempty. -/
lemma header_ne_nil_rmd (m : Meta) :
    ∀ l ∈ metadata_and_cell_to_header ".Rmd" m, l ≠ [] := by
  obtain ⟨ml, li⟩ := m
  cases ml with
  | none =>
    cases li with
    | none =>
      intro l hl
      rw [show metadata_and_cell_to_header ".Rmd" ⟨none, none⟩ = []
        from rfl] at hl
      exact absurd hl (by simp)
    | some l2 =>
      intro l hl
      rw [show metadata_and_cell_to_header ".Rmd" ⟨none, some l2⟩ =
        [chars "---", chars "language_info_name: " ++ l2, chars "---"]
        from rfl] at hl
      simp only [List.mem_cons, List.not_mem_nil, or_false] at hl
      rcases hl with h | h | h <;> rw [h] <;> intro hf <;>
        first
        | exact absurd hf (by decide)
        | (simp only [List.append_eq_nil] at hf
           exact absurd hf.1 (by decide))
  | some l1 =>
    cases li with
    | none =>
      intro l hl
      rw [show metadata_and_cell_to_header ".Rmd" ⟨some l1, none⟩ =
        [chars "---", chars "main_language: " ++ l1, chars "---"]
        from rfl] at hl
      simp only [List.mem_cons, List.not_mem_nil, or_false] at hl
      rcases hl with h | h | h <;> rw [h] <;> intro hf <;>
        first
        | exact absurd hf (by decide)
        | (simp only [List.append_eq_nil] at hf
           exact absurd hf.1 (by decide))
    | some l2 =>
      intro l hl
      rw [show metadata_and_cell_to_header ".Rmd" ⟨some l1, some l2⟩ =
        [chars "---", chars "main_language: " ++ l1, chars "language_info_name: " ++ l2,
          chars "---"] from rfl] at hl
      simp only [List.mem_cons, List.not_mem_nil, or_false] at hl
      rcases hl with h | h | h | h <;> rw [h] <;> intro hf <;>
        first
        | exact absurd hf (by decide)
        | (simp only [List.append_eq_nil] at hf
           exact absurd hf.1 (by decide))

/-- The written `.py` text splits back into the header lines followed by the
rendered cell lines. -/
lemma writes_lines_py (nb : Notebook) (h : expressible ".py" nb = true) :
    splitlinesPy (TextNotebookWriter.writes ".py" nb) =
      metadata_and_cell_to_header ".py"
        (TextNotebookWriter.writes_working_metadata ".py" nb.metadata) ++
      TextNotebookWriter.renderCellsLoop ".py"
        (TextNotebookWriter.writes_default_language ".py" nb.metadata)
        nb.cells := by
  unfold expressible at h
  simp only [Bool.and_eq_true] at h
  obtain ⟨hmeta, hcells⟩ := h
  unfold metaOK at hmeta
  simp only [Bool.and_eq_true] at hmeta
  have hm1 : metaValOK nb.metadata.mainLanguage = true := hmeta.1.1.1
  have hm2 : metaValOK nb.metadata.languageInfoName = true := hmeta.1.1.2
  have hwm : TextNotebookWriter.writes_working_metadata ".py" nb.metadata =
      nb.metadata := rfl
  have hjoin : TextNotebookWriter.writes ".py" nb =
      joinLines (metadata_and_cell_to_header ".py"
        (TextNotebookWriter.writes_working_metadata ".py" nb.metadata) ++
      TextNotebookWriter.renderCellsLoop ".py"
        (TextNotebookWriter.writes_default_language ".py" nb.metadata)
        nb.cells) := rfl
  rw [hjoin]
  apply splitlines_joinLines
  · intro l hl
    rcases List.mem_append.mp hl with h1 | h2
    · rw [hwm] at h1
      exact header_noNL_py _ hm1 hm2 l h1
    · rcases renderCellsLoop_mem ".py" _ nb.cells l h2 with ⟨c, hcmem, hlc⟩ | hb
      · exact cell_to_text_noNL_py _ c
          (cellsOK_forall ".py" _ nb.cells hcells c hcmem) l hlc
      · rw [hb]; rfl
  · cases hcn : nb.cells with
    | nil =>
      rw [TextNotebookWriter.renderCellsLoop.eq_1, List.append_nil]
      intro hfalse
      exact header_ne_nil_py _ []
        (List.mem_of_getLast?_eq_some hfalse) rfl
    | cons c0 rest =>
      rw [hcn] at hcells
      have haux := render_getLast_aux ".py" _
        (fun c hc hl => render_single_py _ c hc hl) (c0 :: rest) hcells
      have hrne : TextNotebookWriter.renderCellsLoop ".py"
          (TextNotebookWriter.writes_default_language ".py" nb.metadata)
          (c0 :: rest) ≠ [] := haux.2 (by simp)
      rw [List.getLast?_append_of_ne_nil _ hrne]
      exact haux.1

/-- The written `.R` text splits back into the header lines followed by the
rendered cell lines. -/
lemma writes_lines_r (nb : Notebook) (h : expressible ".R" nb = true) :
    splitlinesPy (TextNotebookWriter.writes ".R" nb) =
      metadata_and_cell_to_header ".R"
        (TextNotebookWriter.writes_working_metadata ".R" nb.metadata) ++
      TextNotebookWriter.renderCellsLoop ".R"
        (TextNotebookWriter.writes_default_language ".R" nb.metadata)
        nb.cells := by
  unfold expressible at h
  simp only [Bool.and_eq_true] at h
  obtain ⟨hmeta, hcells⟩ := h
  unfold metaOK at hmeta
  simp only [Bool.and_eq_true] at hmeta
  have hm1 : metaValOK nb.metadata.mainLanguage = true := hmeta.1.1.1
  have hm2 : metaValOK nb.metadata.languageInfoName = true := hmeta.1.1.2
  have hw1 : metaValOK (TextNotebookWriter.writes_working_metadata ".R"
      nb.metadata).mainLanguage = true := by
    unfold TextNotebookWriter.writes_working_metadata
    by_cases hc : ".R" = ".R" ∧ nb.metadata.mainLanguage = some (chars "R")
    · rw [if_pos hc]; rfl
    · rw [if_neg hc]; exact hm1
  have hw2 : metaValOK (TextNotebookWriter.writes_working_metadata ".R"
      nb.metadata).languageInfoName = true := by
    unfold TextNotebookWriter.writes_working_metadata
    by_cases hc : ".R" = ".R" ∧ nb.metadata.mainLanguage = some (chars "R")
    · rw [if_pos hc]; exact hm2
    · rw [if_neg hc]; exact hm2
  have hjoin : TextNotebookWriter.writes ".R" nb =
      joinLines (metadata_and_cell_to_header ".R"
        (TextNotebookWriter.writes_working_metadata ".R" nb.metadata) ++
      TextNotebookWriter.renderCellsLoop ".R"
        (TextNotebookWriter.writes_default_language ".R" nb.metadata)
        nb.cells) := rfl
  rw [hjoin]
  apply splitlines_joinLines
  · intro l hl
    rcases List.mem_append.mp hl with h1 | h2
    · exact header_noNL_r _ hw1 hw2 l h1
    · rcases renderCellsLoop_mem ".R" _ nb.cells l h2 with ⟨c, hcmem, hlc⟩ | hb
      · exact cell_to_text_noNL_r _ c
          (cellsOK_forall ".R" _ nb.cells hcells c hcmem) l hlc
      · rw [hb]; rfl
  · cases hcn : nb.cells with
    | nil =>
      rw [TextNotebookWriter.renderCellsLoop.eq_1, List.append_nil]
      intro hfalse
      exact header_ne_nil_r _ []
        (List.mem_of_getLast?_eq_some hfalse) rfl
    | cons c0 rest =>
      rw [hcn] at hcells
      have haux := render_getLast_aux ".R" _
        (fun c hc hl => render_single_r _ c hc hl) (c0 :: rest) hcells
      have hrne : TextNotebookWriter.renderCellsLoop ".R"
          (TextNotebookWriter.writes_default_language ".R" nb.metadata)
          (c0 :: rest) ≠ [] := haux.2 (by simp)
      rw [List.getLast?_append_of_ne_nil _ hrne]
      exact haux.1

/-- The written `.Rmd` text splits back into the header lines followed by
the rendered cell lines. -/
lemma writes_lines_rmd (nb : Notebook) (h : expressible ".Rmd" nb = true) :
    splitlinesPy (TextNotebookWriter.writes ".Rmd" nb) =
      metadata_and_cell_to_header ".Rmd"
        (TextNotebookWriter.writes_working_metadata ".Rmd" nb.metadata) ++
      TextNotebookWriter.renderCellsLoop ".Rmd"
        (TextNotebookWriter.writes_default_language ".Rmd" nb.metadata)
        nb.cells := by
  unfold expressible at h
  simp only [Bool.and_eq_true] at h
  obtain ⟨hmeta, hcells⟩ := h
  unfold metaOK at hmeta
  simp only [Bool.and_eq_true] at hmeta
  have hm1 : metaValOK nb.metadata.mainLanguage = true := hmeta.1.1.1
  have hm2 : metaValOK nb.metadata.languageInfoName = true := hmeta.1.1.2
  have hwm : TextNotebookWriter.writes_working_metadata ".Rmd" nb.metadata =
      nb.metadata := rfl
  have hjoin : TextNotebookWriter.writes ".Rmd" nb =
      joinLines (metadata_and_cell_to_header ".Rmd"
        (TextNotebookWriter.writes_working_metadata ".Rmd" nb.metadata) ++
      TextNotebookWriter.renderCellsLoop ".Rmd"
        (TextNotebookWriter.writes_default_language ".Rmd" nb.metadata)
        nb.cells) := rfl
  rw [hjoin]
  apply splitlines_joinLines
  · intro l hl
    rcases List.mem_append.mp hl with h1 | h2
    · rw [hwm] at h1
      exact header_noNL_rmd _ hm1 hm2 l h1
    · rcases renderCellsLoop_mem ".Rmd" _ nb.cells l h2 with ⟨c, hcmem, hlc⟩ | hb
      · exact cell_to_text_noNL_rmd _ (noNL_wdl_rmd _ hm1 hm2) c
          (cellsOK_forall ".Rmd" _ nb.cells hcells c hcmem) l hlc
      · rw [hb]; rfl
  · cases hcn : nb.cells with
    | nil =>
      rw [TextNotebookWriter.renderCellsLoop.eq_1, List.append_nil]
      intro hfalse
      exact header_ne_nil_rmd _ []
        (List.mem_of_getLast?_eq_some hfalse) rfl
    | cons c0 rest =>
      rw [hcn] at hcells
      have haux := render_getLast_aux ".Rmd" _
        (fun c hc hl => render_single_rmd _ c hc hl) (c0 :: rest) hcells
      have hrne : TextNotebookWriter.renderCellsLoop ".Rmd"
          (TextNotebookWriter.writes_default_language ".Rmd" nb.metadata)
          (c0 :: rest) ≠ [] := haux.2 (by simp)
      rw [List.getLast?_append_of_ne_nil _ hrne]
      exact haux.1

/-- Reading back the written `.py` text reproduces the notebook exactly. -/
lemma to_notebook_writes_py (nb : Notebook) (h : expressible ".py" nb = true) :
    TextNotebookReader.to_notebook ".py" (TextNotebookWriter.writes ".py" nb) =
      Except.ok nb := by
  have hexp := h
  unfold expressible at h
  simp only [Bool.and_eq_true] at h
  obtain ⟨hmeta0, hcells⟩ := h
  have hlines := writes_lines_py nb hexp
  rw [show TextNotebookWriter.writes_working_metadata ".py" nb.metadata =
    nb.metadata from rfl] at hlines
  have hhead := header_parse_py nb.metadata
    (TextNotebookWriter.renderCellsLoop ".py"
      (TextNotebookWriter.writes_default_language ".py" nb.metadata) nb.cells)
    (render_head_ne_fence_py _ nb.cells hcells)
  have hpost : TextNotebookReader.postHeaderLines ".py"
      (TextNotebookWriter.writes ".py" nb) =
      TextNotebookWriter.renderCellsLoop ".py"
        (TextNotebookWriter.writes_default_language ".py" nb.metadata)
        nb.cells := by
    show (splitlinesPy (TextNotebookWriter.writes ".py" nb)).drop
        (header_to_metadata_and_cell ".py"
          (splitlinesPy (TextNotebookWriter.writes ".py" nb))).2.2 = _
    rw [hlines, hhead]
    exact List.drop_left _ _
  have hloop := parse_render_py
    (TextNotebookWriter.writes_default_language ".py" nb.metadata)
    nb.cells hcells
  simp only [TextNotebookReader.to_notebook]
  rw [hpost, hloop, hlines, hhead]
  rfl

/-- Reading back the written `.R` text reproduces the cells exactly and the
metadata up to the lossless `main_language` normalization. -/
lemma to_notebook_writes_r (nb : Notebook) (h : expressible ".R" nb = true) :
    ∃ m' : Meta,
      TextNotebookReader.to_notebook ".R" (TextNotebookWriter.writes ".R" nb) =
        Except.ok ⟨m', nb.cells⟩ ∧
      TextNotebookWriter.writes_default_language ".R" m' =
        TextNotebookWriter.writes_default_language ".R" nb.metadata ∧
      m'.languageInfoName = nb.metadata.languageInfoName := by
  have hexp := h
  unfold expressible at h
  simp only [Bool.and_eq_true] at h
  obtain ⟨hmeta0, hcells⟩ := h
  unfold metaOK at hmeta0
  simp only [Bool.and_eq_true] at hmeta0
  have hm1 := hmeta0.1.1.1
  have hmetaR := hmeta0.1.2
  simp only [if_true] at hmetaR
  have hlines := writes_lines_r nb hexp
  have hhead := header_parse_r
    (TextNotebookWriter.writes_working_metadata ".R" nb.metadata)
    (TextNotebookWriter.renderCellsLoop ".R"
      (TextNotebookWriter.writes_default_language ".R" nb.metadata) nb.cells)
    (render_head_ne_fence_r _ nb.cells hcells)
  have hpost : TextNotebookReader.postHeaderLines ".R"
      (TextNotebookWriter.writes ".R" nb) =
      TextNotebookWriter.renderCellsLoop ".R"
        (TextNotebookWriter.writes_default_language ".R" nb.metadata)
        nb.cells := by
    show (splitlinesPy (TextNotebookWriter.writes ".R" nb)).drop
        (header_to_metadata_and_cell ".R"
          (splitlinesPy (TextNotebookWriter.writes ".R" nb))).2.2 = _
    rw [hlines, hhead]
    exact List.drop_left _ _
  have hloop := parse_render_r
    (TextNotebookWriter.writes_default_language ".R" nb.metadata)
    nb.cells hcells
  have hto : TextNotebookReader.to_notebook ".R"
      (TextNotebookWriter.writes ".R" nb) =
      Except.ok ⟨(if ¬ (truthyS (TextNotebookWriter.writes_working_metadata
            ".R" nb.metadata).mainLanguage ∨
          (TextNotebookWriter.writes_working_metadata
            ".R" nb.metadata).languageInfoName.isSome)
        then { TextNotebookWriter.writes_working_metadata ".R" nb.metadata with
          mainLanguage := some (chars "R") }
        else TextNotebookWriter.writes_working_metadata ".R" nb.metadata),
        nb.cells⟩ := by
    simp only [TextNotebookReader.to_notebook]
    rw [hpost, hloop, hlines, hhead]
    rfl
  refine ⟨_, hto, ?_⟩
  by_cases hR : nb.metadata.mainLanguage = some (chars "R")
  · have hmW : TextNotebookWriter.writes_working_metadata ".R" nb.metadata =
        ⟨none, nb.metadata.languageInfoName⟩ := by
      unfold TextNotebookWriter.writes_working_metadata
      rw [if_pos ⟨rfl, hR⟩]
    cases hli : nb.metadata.languageInfoName with
    | none =>
      have hmeq : nb.metadata = ⟨some (chars "R"), none⟩ := by
        have he : nb.metadata = ⟨nb.metadata.mainLanguage,
          nb.metadata.languageInfoName⟩ := rfl
        rw [he, hR, hli]
      rw [hmW, hli, hmeq]
      exact ⟨rfl, rfl⟩
    | some x =>
      have hx : x = chars "R" := by
        rw [hR, hli] at hmetaR
        simp at hmetaR
        exact hmetaR
      subst hx
      have hmeq : nb.metadata = ⟨some (chars "R"), some (chars "R")⟩ := by
        have he : nb.metadata = ⟨nb.metadata.mainLanguage,
          nb.metadata.languageInfoName⟩ := rfl
        rw [he, hR, hli]
      rw [hmW, hli, hmeq]
      exact ⟨rfl, rfl⟩
  · have hmW : TextNotebookWriter.writes_working_metadata ".R" nb.metadata =
        nb.metadata := by
      unfold TextNotebookWriter.writes_working_metadata
      rw [if_neg (by intro hf; exact hR hf.2)]
    cases hml : nb.metadata.mainLanguage with
    | some l =>
      have hlne : l ≠ [] := by
        rw [hml] at hm1
        simp only [metaValOK, Bool.and_eq_true, decide_eq_true_eq] at hm1
        exact hm1.1
      have ht : truthyS (some l) = true := by
        unfold truthyS
        simpa using hlne
      have hmeq : nb.metadata = ⟨some l, nb.metadata.languageInfoName⟩ := by
        have he : nb.metadata = ⟨nb.metadata.mainLanguage,
          nb.metadata.languageInfoName⟩ := rfl
        rw [he, hml]
      rw [hmW, hmeq]
      rw [if_neg (by
        intro hf
        rw [show (⟨some l, nb.metadata.languageInfoName⟩ :
          Meta).mainLanguage = some l from rfl, ht] at hf
        simp at hf)]
      exact ⟨rfl, rfl⟩
    | none =>
      cases hli : nb.metadata.languageInfoName with
      | some x =>
        have hmeq : nb.metadata = ⟨none, some x⟩ := by
          have he : nb.metadata = ⟨nb.metadata.mainLanguage,
            nb.metadata.languageInfoName⟩ := rfl
          rw [he, hml, hli]
        rw [hmW, hmeq]
        exact ⟨rfl, rfl⟩
      | none =>
        have hmeq : nb.metadata = ⟨none, none⟩ := by
          have he : nb.metadata = ⟨nb.metadata.mainLanguage,
            nb.metadata.languageInfoName⟩ := rfl
          rw [he, hml, hli]
        rw [hmW, hmeq]
        exact ⟨rfl, rfl⟩

/-- The read-path language of a tagged cell. -/
lemma codeLanguage_rmdTag (d : Line) (c : Cell) :
    codeLanguage (rmdTag d c) =
      (if c.cellType = CellType.code then some (c.language.getD d)
       else none) := by
  unfold rmdTag codeLanguage
  by_cases h : c.cellType = CellType.code
  · rw [if_pos h, if_pos h]
  · rw [if_neg h, if_neg h, if_neg h]

/-- Reading back the written `.Rmd` text reproduces the cells exactly and
the metadata up to the dominant-language inference. -/
lemma to_notebook_writes_rmd (nb : Notebook)
    (h : expressible ".Rmd" nb = true) :
    ∃ m' : Meta,
      TextNotebookReader.to_notebook ".Rmd"
          (TextNotebookWriter.writes ".Rmd" nb) =
        Except.ok ⟨m', nb.cells⟩ ∧
      TextNotebookWriter.writes_default_language ".Rmd" m' =
        TextNotebookWriter.writes_default_language ".Rmd" nb.metadata ∧
      m'.languageInfoName = nb.metadata.languageInfoName := by
  have hexp := h
  unfold expressible at h
  simp only [Bool.and_eq_true] at h
  obtain ⟨hmeta0, hcells⟩ := h
  unfold metaOK at hmeta0
  simp only [Bool.and_eq_true] at hmeta0
  have hmetaRmd := hmeta0.2
  simp only [if_true] at hmetaRmd
  have hlines := writes_lines_rmd nb hexp
  rw [show TextNotebookWriter.writes_working_metadata ".Rmd" nb.metadata =
    nb.metadata from rfl] at hlines
  have hhead := header_parse_rmd nb.metadata
    (TextNotebookWriter.renderCellsLoop ".Rmd"
      (TextNotebookWriter.writes_default_language ".Rmd" nb.metadata)
      nb.cells)
    (render_head_ne_fence_rmd _ nb.cells hcells)
  have hpost : TextNotebookReader.postHeaderLines ".Rmd"
      (TextNotebookWriter.writes ".Rmd" nb) =
      TextNotebookWriter.renderCellsLoop ".Rmd"
        (TextNotebookWriter.writes_default_language ".Rmd" nb.metadata)
        nb.cells := by
    show (splitlinesPy (TextNotebookWriter.writes ".Rmd" nb)).drop
        (header_to_metadata_and_cell ".Rmd"
          (splitlinesPy (TextNotebookWriter.writes ".Rmd" nb))).2.2 = _
    rw [hlines, hhead]
    exact List.drop_left _ _
  have hloop := parse_render_rmd
    (TextNotebookWriter.writes_default_language ".Rmd" nb.metadata)
    nb.cells hcells
  have hto : TextNotebookReader.to_notebook ".Rmd"
      (TextNotebookWriter.writes ".Rmd" nb) =
      Except.ok ⟨(find_main_language nb.metadata
          (List.map (rmdTag (TextNotebookWriter.writes_default_language
            ".Rmd" nb.metadata)) nb.cells)).1,
        (find_main_language nb.metadata
          (List.map (rmdTag (TextNotebookWriter.writes_default_language
            ".Rmd" nb.metadata)) nb.cells)).2⟩ := by
    simp only [TextNotebookReader.to_notebook]
    rw [hpost, hloop, hlines, hhead]
    rfl
  have hcellprops : ∀ c ∈ nb.cells, c.cellType ≠ CellType.raw ∧
      (∀ l, c.language = some l →
        l ≠ TextNotebookWriter.writes_default_language ".Rmd" nb.metadata) := by
    intro c hcmem
    obtain ⟨hraw, _, hcode, hmd⟩ := cellOK_dest ".Rmd" _ c
      (cellsOK_forall ".Rmd" _ nb.cells hcells c hcmem)
    refine ⟨hraw, ?_⟩
    intro l hl
    cases hic : is_code c with
    | true =>
      have hlang := (hcode hic).2
      rw [hl] at hlang
      unfold langOK at hlang
      simp only [Bool.and_eq_true, decide_eq_true_eq] at hlang
      exact hlang.2
    | false =>
      have := (hmd hic).2
      rw [this] at hl
      exact absurd hl (by simp)
  cases hor : nb.metadata.mainLanguage.or nb.metadata.languageInfoName with
  | some x =>
    have hd : TextNotebookWriter.writes_default_language ".Rmd" nb.metadata =
        x := by
      show get_default_language nb.metadata = x
      unfold get_default_language
      rw [hor]
      rfl
    have hfind : find_main_language nb.metadata
        (List.map (rmdTag (TextNotebookWriter.writes_default_language
          ".Rmd" nb.metadata)) nb.cells) = (nb.metadata, nb.cells) := by
      simp only [find_main_language, hor]
      simp only [Prod.mk.injEq]
      refine ⟨trivial, ?_⟩
      rw [hd]
      have hprops := hcellprops
      rw [hd] at hprops
      exact rmdTag_restore x nb.cells hprops
    refine ⟨nb.metadata, ?_, rfl, rfl⟩
    rw [hto, hfind]
  | none =>
    have hml : nb.metadata.mainLanguage = none := by
      cases hm : nb.metadata.mainLanguage with
      | none => rfl
      | some v =>
        rw [hm] at hor
        simp [Option.or] at hor
    have hli : nb.metadata.languageInfoName = none := by
      rw [hml] at hor
      simpa [Option.or] using hor
    have hmeq : nb.metadata = ⟨none, none⟩ := by
      have he : nb.metadata = ⟨nb.metadata.mainLanguage,
        nb.metadata.languageInfoName⟩ := rfl
      rw [he, hml, hli]
    have hd : TextNotebookWriter.writes_default_language ".Rmd" nb.metadata =
        chars "python" := by
      show get_default_language nb.metadata = chars "python"
      unfold get_default_language
      rw [hor]
      rfl
    rw [hml, hli] at hmetaRmd
    simp only [Option.isSome_none, Bool.false_or, List.all_eq_true] at hmetaRmd
    have hF : ∀ y ∈ (List.map (rmdTag
        (TextNotebookWriter.writes_default_language ".Rmd" nb.metadata))
        nb.cells).filterMap codeLanguage, y = chars "python" := by
      intro y hy
      obtain ⟨a, ha, hfa⟩ := List.mem_filterMap.mp hy
      obtain ⟨c, hcmem, hca⟩ := List.mem_map.mp ha
      rw [← hca, codeLanguage_rmdTag] at hfa
      by_cases hct : c.cellType = CellType.code
      · rw [if_pos hct] at hfa
        have huc := hmetaRmd c hcmem
        simp only [Bool.or_eq_true, Bool.not_eq_true', decide_eq_true_eq]
          at huc
        rcases huc with huc | huc
        · exact absurd huc (by simp [is_code, hct])
        · rw [huc] at hfa
          rw [hd] at hfa
          simpa using hfa.symm
      · rw [if_neg hct] at hfa
        exact absurd hfa (by simp)
    cases hFc : (List.map (rmdTag
        (TextNotebookWriter.writes_default_language ".Rmd" nb.metadata))
        nb.cells).filterMap codeLanguage with
    | nil =>
      have hnocode : ∀ c ∈ nb.cells, c.cellType ≠ CellType.code := by
        intro c hcmem hct
        have hcl : codeLanguage (rmdTag
            (TextNotebookWriter.writes_default_language ".Rmd" nb.metadata)
            c) = some (c.language.getD
              (TextNotebookWriter.writes_default_language ".Rmd"
                nb.metadata)) := by
          rw [codeLanguage_rmdTag, if_pos hct]
        have hmemF := List.mem_filterMap.mpr
          ⟨_, List.mem_map.mpr ⟨c, hcmem, rfl⟩, hcl⟩
        rw [hFc] at hmemF
        exact absurd hmemF (by simp)
      have hdom : dominantLanguage (List.map (rmdTag
          (TextNotebookWriter.writes_default_language ".Rmd" nb.metadata))
          nb.cells) = none := by
        unfold dominantLanguage
        rw [hFc]
      have hmapid : List.map (rmdTag
          (TextNotebookWriter.writes_default_language ".Rmd" nb.metadata))
          nb.cells = nb.cells :=
        map_id_of _ _ (fun c hc => by
          unfold rmdTag
          rw [if_neg (hnocode c hc)])
      have hfind : find_main_language nb.metadata
          (List.map (rmdTag (TextNotebookWriter.writes_default_language
            ".Rmd" nb.metadata)) nb.cells) = (nb.metadata, nb.cells) := by
        simp only [find_main_language, hor, hdom]
        simp only [Prod.mk.injEq]
        refine ⟨trivial, ?_⟩
        rw [map_id_of _ _ (fun c hc => by
          rw [if_neg (fun hf => hf.2.2 rfl)])]
        exact hmapid
      refine ⟨nb.metadata, ?_, rfl, rfl⟩
      rw [hto, hfind]
    | cons t ts =>
      have ht : t = chars "python" := hF t (by rw [hFc]; simp)
      have hdom : dominantLanguage (List.map (rmdTag
          (TextNotebookWriter.writes_default_language ".Rmd" nb.metadata))
          nb.cells) = some (chars "python") := by
        unfold dominantLanguage
        rw [hFc]
        show (if ts.all (fun y => decide (y = t)) then some t else none) =
          some (chars "python")
        rw [if_pos (List.all_eq_true.mpr (fun y hy => by
          rw [hF y (by rw [hFc]; simp [hy]), ht]
          simp))]
        rw [ht]
      have hfind : find_main_language nb.metadata
          (List.map (rmdTag (TextNotebookWriter.writes_default_language
            ".Rmd" nb.metadata)) nb.cells) =
          (⟨some (chars "python"), none⟩, nb.cells) := by
        simp only [find_main_language, hor, hdom, Option.or_some]
        simp only [Prod.mk.injEq]
        constructor
        · rw [hli]
        · rw [hd]
          have hprops := hcellprops
          rw [hd] at hprops
          exact rmdTag_restore (chars "python") nb.cells hprops
      refine ⟨⟨some (chars "python"), none⟩, ?_, ?_, ?_⟩
      · rw [hto, hfind]
      · rw [hmeq]
        rfl
      · rw [hli]

/-- C1: Round-trip equivalence: for every notebook expressible in the
feature set of a text profile (`.Rmd`, `.py` or `.R`), reading with
`reads(·, ext)` the text produced by `writes(·, ext)` yields a notebook
with exactly the same ordered cells (types, source lines, languages,
separator blanks) and the same semantically relevant metadata: the resolved
default language and `language_info.name` agree, even though the rendered
text is normalized (marker elision, spacing) and the literal metadata may be
normalized (the `.R` `main_language='R'` deletion, the `.Rmd` dominant
language inference). -/
theorem claim_C1_round_trip (ext : String)
    (hext : ext = ".Rmd" ∨ ext = ".py" ∨ ext = ".R") (nb : Notebook)
    (h : expressible ext nb = true) :
    ∃ nb' : Notebook,
      reads (TextNotebookWriter.writes ext nb) (some ext) =
        Except.ok (ReadsOutcome.notebook nb') ∧
      nb'.cells = nb.cells ∧
      TextNotebookWriter.writes_default_language ext nb'.metadata =
        TextNotebookWriter.writes_default_language ext nb.metadata ∧
      nb'.metadata.languageInfoName = nb.metadata.languageInfoName := by
  rcases hext with hext | hext | hext <;> subst hext
  · obtain ⟨m', hok, hwdl, hlin⟩ := to_notebook_writes_rmd nb h
    refine ⟨⟨m', nb.cells⟩, ?_, rfl, hwdl, hlin⟩
    show (TextNotebookReader.to_notebook ".Rmd"
        (TextNotebookWriter.writes ".Rmd" nb)).map ReadsOutcome.notebook = _
    rw [hok]
    rfl
  · refine ⟨nb, ?_, rfl, rfl, rfl⟩
    show (TextNotebookReader.to_notebook ".py"
        (TextNotebookWriter.writes ".py" nb)).map ReadsOutcome.notebook = _
    rw [to_notebook_writes_py nb h]
    rfl
  · obtain ⟨m', hok, hwdl, hlin⟩ := to_notebook_writes_r nb h
    refine ⟨⟨m', nb.cells⟩, ?_, rfl, hwdl, hlin⟩
    show (TextNotebookReader.to_notebook ".R"
        (TextNotebookWriter.writes ".R" nb)).map ReadsOutcome.notebook = _
    rw [hok]
    rfl

/-- C1 witness: the round trip at a concrete `.py` notebook with one code
cell. -/
theorem claim_C1_round_trip_witness :
    expressible ".py" ⟨⟨none, none⟩,
      [⟨CellType.code, [chars "1+1"], none, 0⟩]⟩ = true ∧
    (∃ nb' : Notebook,
      reads (TextNotebookWriter.writes ".py" ⟨⟨none, none⟩,
          [⟨CellType.code, [chars "1+1"], none, 0⟩]⟩) (some ".py") =
        Except.ok (ReadsOutcome.notebook nb') ∧
      nb'.cells = (⟨⟨none, none⟩,
        [⟨CellType.code, [chars "1+1"], none, 0⟩]⟩ : Notebook).cells ∧
      TextNotebookWriter.writes_default_language ".py" nb'.metadata =
        TextNotebookWriter.writes_default_language ".py" (⟨⟨none, none⟩,
          [⟨CellType.code, [chars "1+1"], none, 0⟩]⟩ : Notebook).metadata ∧
      nb'.metadata.languageInfoName = (⟨⟨none, none⟩,
        [⟨CellType.code, [chars "1+1"], none, 0⟩]⟩ :
          Notebook).metadata.languageInfoName) :=
  ⟨by decide, claim_C1_round_trip ".py" (Or.inr (Or.inl rfl)) _ (by decide)⟩
